import Mathlib

/-!
# baralga-app: activity filter, duration model and day aggregation

A shallow embedding of `activity_domain.go` and of the aggregation loops of
`app_web.go` (`ActivitiesInWeekView`, `ActivitiesSumByDayView`), together with
the part of Go's standard `time`, `fmt`, `math` and `sort` packages that this
code calls.

Modelling conventions.

* `time.Time` is an instant in UTC, held as the number of nanoseconds since
  1970-01-01T00:00:00Z.  The calendar is the proleptic Gregorian calendar; the
  functions `time.Date`, `Time.Date`, `Time.AddDate`, `Time.ISOWeek` follow the
  algorithms of the Go library.  Go's internal "absolute" epoch is a year
  congruent to 1 modulo 400, chosen so that the library can use unsigned
  arithmetic; here day numbers are counted from 0001-01-01 with the floor
  division of `Int`, which yields the same calendar.  Years are unbounded.
* `time.Duration` is a signed 64-bit count of nanoseconds; `Time.Sub`
  saturates as in Go.
* `float64` values are represented by the rational numbers they denote.
  `roundFloat64` is the rounding of IEEE 754 to the nearest `float64`, which
  Go carries out after every `float64` operation.  `Duration.MinutesFloat64`,
  `Duration.HoursFloat64` and the functions of `Activity` with the suffix
  `Float64` carry out the arithmetic of `Minutes()` and `Hours()` with this
  rounding; the statements on the whole hours and the whole minutes of long
  durations are about them.  `Duration.Minutes`, `Duration.Hours` and the
  functions of `Activity` without the suffix take that arithmetic to be
  exact; the two readings give the same whole hours below 4096 hours and the
  same whole minutes below 262144 minutes (`DurationHoursFloat64_short`,
  `DurationMinutesTotalFloat64_short`).  The sums of whole minutes in
  `app_web.go` and the quotient in `FormatMinutesAsDuration` are taken to be
  exact.
* A Go `map[int]V` is an association list with pairwise distinct keys; the
  pointer map `projectsById` is a function into `Option`, with `none` for the
  nil pointer, and a run-time panic is an error result.
* A Go `string` is a sequence of runes (valid UTF-8).  The lower-case mapping
  of the Unicode tables, which `unicode.ToLower` consults outside ASCII, is a
  parameter.
-/

namespace time

/-! ## The Go `time` package (UTC) -/

/-- An instant: nanoseconds since the Unix epoch, in UTC. -/
structure Time where
  ns : Int
deriving DecidableEq, Repr

/-- A signed 64-bit nanosecond count. -/
structure Duration where
  d : Int
deriving DecidableEq, Repr

def Nanosecond : Int := 1
def Second : Int := 1000000000
def Minute : Int := 60 * Second
def Hour : Int := 60 * Minute

def secondsPerMinute : Int := 60
def secondsPerHour : Int := 3600
def secondsPerDay : Int := 86400
def daysPer400Years : Int := 146097
def daysPer100Years : Int := 36524
def daysPer4Years : Int := 1461

/-- Days from 0001-01-01 to 1970-01-01. -/
def unixEpochDay : Int := 719162

def minDuration : Int := -9223372036854775808
def maxDuration : Int := 9223372036854775807

/-- Go `isLeap`. -/
def isLeap (year : Int) : Bool :=
  year % 4 == 0 && (year % 100 != 0 || year % 400 == 0)

/-- Go `daysBefore[m]`: days of a non-leap year that precede month `m + 1`. -/
def daysBefore (m : Int) : Int :=
  if m = 0 then 0
  else if m = 1 then 31
  else if m = 2 then 31 + 28
  else if m = 3 then 31 + 28 + 31
  else if m = 4 then 31 + 28 + 31 + 30
  else if m = 5 then 31 + 28 + 31 + 30 + 31
  else if m = 6 then 31 + 28 + 31 + 30 + 31 + 30
  else if m = 7 then 31 + 28 + 31 + 30 + 31 + 30 + 31
  else if m = 8 then 31 + 28 + 31 + 30 + 31 + 30 + 31 + 31
  else if m = 9 then 31 + 28 + 31 + 30 + 31 + 30 + 31 + 31 + 30
  else if m = 10 then 31 + 28 + 31 + 30 + 31 + 30 + 31 + 31 + 30 + 31
  else if m = 11 then 31 + 28 + 31 + 30 + 31 + 30 + 31 + 31 + 30 + 31 + 30
  else 31 + 28 + 31 + 30 + 31 + 30 + 31 + 31 + 30 + 31 + 30 + 31

/-- Go `norm`: bring `lo` into `[0, base)`, carrying into `hi`. -/
def norm (hi lo base : Int) : Int × Int :=
  let (hi1, lo1) :=
    if lo < 0 then
      let n := (-lo - 1) / base + 1
      (hi - n, lo + n * base)
    else (hi, lo)
  if lo1 ≥ base then
    let n := lo1 / base
    (hi1 + n, lo1 - n * base)
  else (hi1, lo1)

/-- Go `daysSinceEpoch`: days from 0001-01-01 to January 1 of `year`. -/
def daysSinceEpoch (year : Int) : Int :=
  let y := year - 1
  -- 400-year cycles
  let n400 := y / 400
  let y1 := y - 400 * n400
  let d1 := daysPer400Years * n400
  -- 100-year cycles
  let n100 := y1 / 100
  let y2 := y1 - 100 * n100
  let d2 := d1 + daysPer100Years * n100
  -- 4-year cycles
  let n4 := y2 / 4
  let y3 := y2 - 4 * n4
  let d3 := d2 + daysPer4Years * n4
  -- remaining non-leap years
  d3 + 365 * y3

/-- Go `time.Date` in UTC: the instant of a (possibly out-of-range) civil
date and clock reading; out-of-range fields overflow into the next larger
field. -/
def Date (year month day hour min sec nsec : Int) : Time :=
  let (year, m) := norm year (month - 1) 12
  let month := m + 1
  let (sec, nsec) := norm sec nsec 1000000000
  let (min, sec) := norm min sec 60
  let (hour, min) := norm hour min 60
  let (day, hour) := norm day hour 24
  let d := daysSinceEpoch year
  let d := d + daysBefore (month - 1)
  let d := if isLeap year && month ≥ 3 then d + 1 else d
  let d := d + (day - 1)
  let abs := d * secondsPerDay
  let abs := abs + (hour * secondsPerHour + min * secondsPerMinute + sec)
  let unix := abs - unixEpochDay * secondsPerDay
  ⟨unix * 1000000000 + nsec⟩

/-- Seconds since 0001-01-01T00:00:00Z (Go `Time.abs`, up to the choice of
the absolute epoch). -/
def Time.abs (t : Time) : Int :=
  t.ns / 1000000000 + unixEpochDay * secondsPerDay

/-- Go `Time.nsec`. -/
def Time.nsec (t : Time) : Int :=
  t.ns % 1000000000

/-- Go `absDate`: year, month (1..12), day of month (1..31) and day of year
(0..365) of an absolute second count. -/
def absDate (abs : Int) : Int × Int × Int × Int :=
  let d := abs / secondsPerDay
  -- 400-year cycles
  let n := d / daysPer400Years
  let y := 400 * n
  let d := d - daysPer400Years * n
  -- 100-year cycles; the last day of a 400-year cycle belongs to the 4th century
  let n := d / daysPer100Years
  let n := n - n / 4
  let y := y + 100 * n
  let d := d - daysPer100Years * n
  -- 4-year cycles
  let n := d / daysPer4Years
  let y := y + 4 * n
  let d := d - daysPer4Years * n
  -- years within a 4-year cycle
  let n := d / 365
  let n := n - n / 4
  let y := y + n
  let d := d - 365 * n
  let year := y + 1
  let yday := d
  let day := yday
  if isLeap year && day = 31 + 29 - 1 then
    (year, 2, 29, yday)
  else
    let day := if isLeap year && day > 31 + 29 - 1 then day - 1 else day
    -- estimate the month on the assumption that every month has 31 days
    let month := day / 31
    let e := daysBefore (month + 1)
    let (month, begin) :=
      if day ≥ e then (month + 1, e) else (month, daysBefore month)
    (year, month + 1, day - begin + 1, yday)

/-- Go `Time.Date`: year, month, day of month. -/
def Time.Date (t : Time) : Int × Int × Int :=
  let (year, month, day, _) := absDate t.abs
  (year, month, day)

def Time.Year (t : Time) : Int := t.Date.1
def Time.Month (t : Time) : Int := t.Date.2.1
def Time.Day (t : Time) : Int := t.Date.2.2

/-- Go `Time.YearDay` minus one (the zero-based day of the year). -/
def Time.yday (t : Time) : Int := (absDate t.abs).2.2.2

/-- Go `Time.Clock`: hour, minute, second within the day. -/
def Time.Clock (t : Time) : Int × Int × Int :=
  let sec := t.abs % secondsPerDay
  let hour := sec / secondsPerHour
  let sec := sec - hour * secondsPerHour
  let min := sec / secondsPerMinute
  let sec := sec - min * secondsPerMinute
  (hour, min, sec)

/-- Go `Time.AddDate`. -/
def Time.AddDate (t : Time) (years months days : Int) : Time :=
  let (year, month, day) := t.Date
  let (hour, min, sec) := t.Clock
  time.Date (year + years) (month + months) (day + days) hour min sec t.nsec

/-- Go `Time.Sub`: the difference `t - u`, saturated to the range of
`Duration`. -/
def Time.Sub (t u : Time) : Duration :=
  let d := t.ns - u.ns
  if d < minDuration then ⟨minDuration⟩
  else if d > maxDuration then ⟨maxDuration⟩
  else ⟨d⟩

/-- Go `Time.Weekday`: Sunday = 0, ..., Saturday = 6.  0001-01-01 is a
Monday. -/
def Time.Weekday (t : Time) : Int :=
  let sec := (t.abs + 1 * secondsPerDay) % (7 * secondsPerDay)
  sec / secondsPerDay

/-- Go `Time.ISOWeek`: ISO 8601 year and week number. -/
def Time.ISOWeek (t : Time) : Int × Int :=
  -- the offset to Thursday
  let d := 4 - t.Weekday
  -- handle Sunday
  let d := if d = 4 then -3 else d
  -- find the Thursday of the calendar week
  let abs := t.abs + d * secondsPerDay
  let (year, _, _, yday) := absDate abs
  (year, yday / 7 + 1)


/-! ### Auxiliary calendar functions

`yearDay`, `monthDay0` and `monthDay` are the three stages of `absDate`
(see `absDate_eq`); `dayNumber` is the day count computed by `time.Date`. -/

/-- Go `daysIn`: the number of days of month `m` (1..12) of `year`. -/
def daysIn (m year : Int) : Int :=
  if m = 2 && isLeap year then 29 else daysBefore m - daysBefore (m - 1)

/-- The year and the zero-based day of the year of a day number counted from
0001-01-01: the cycle arithmetic of `absDate`. -/
def yearDay (d : Int) : Int × Int :=
  let n := d / daysPer400Years
  let y := 400 * n
  let d := d - daysPer400Years * n
  let n := d / daysPer100Years
  let n := n - n / 4
  let y := y + 100 * n
  let d := d - daysPer100Years * n
  let n := d / daysPer4Years
  let y := y + 4 * n
  let d := d - daysPer4Years * n
  let n := d / 365
  let n := n - n / 4
  let y := y + n
  let d := d - 365 * n
  (y + 1, d)

/-- The month estimate of `absDate` on a day of a non-leap year. -/
def monthDay0 (day : Int) : Int × Int :=
  let month := day / 31
  let e := daysBefore (month + 1)
  let (month, begin) :=
    if day ≥ e then (month + 1, e) else (month, daysBefore month)
  (month + 1, day - begin + 1)

/-- The month and day-of-month stage of `absDate`. -/
def monthDay (leap : Bool) (yday : Int) : Int × Int :=
  if leap && yday = 31 + 29 - 1 then (2, 29)
  else monthDay0 (if leap && yday > 31 + 29 - 1 then yday - 1 else yday)

/-- The day number (counted from 0001-01-01) that `time.Date` computes for
a year, an in-range month (1..12) and any day. -/
def civilDay (year month day : Int) : Int :=
  daysSinceEpoch year + daysBefore (month - 1) +
    (if isLeap year && month ≥ 3 then 1 else 0) + (day - 1)

/-- The day number that `time.Date` computes for a year, any month and any
day: the month is normalised into the year first. -/
def dayNumber (year month day : Int) : Int :=
  civilDay (norm year (month - 1) 12).1 ((norm year (month - 1) 12).2 + 1) day

/-- The year and month that follow a year and month (1..12). -/
def nextMonth (ym : Int × Int) : Int × Int :=
  if ym.2 = 12 then (ym.1 + 1, 1) else (ym.1, ym.2 + 1)

/-- The year and month into which `time.Date` normalises a year and any
month. -/
def normMonth (year month : Int) : Int × Int :=
  ((norm year (month - 1) 12).1, (norm year (month - 1) 12).2 + 1)

/-- Nanoseconds per day. -/
def nsPerDay : Int := 86400 * 1000000000

/-- A civil date is valid: month 1..12 and day within the month. -/
def validDate (year month day : Int) : Prop :=
  1 ≤ month ∧ month ≤ 12 ∧ 1 ≤ day ∧ day ≤ daysIn month year

instance (year month day : Int) : Decidable (validDate year month day) := by
  unfold validDate
  infer_instance

/-! ### Formatting (`time.Format`, `fmt.Sprintf`) -/

/-- Left-pad a numeral with zeros to at least `width` characters. -/
def zeroPad (width : Nat) (s : String) : String :=
  String.mk (List.replicate (width - s.length) '0') ++ s

/-- Go `appendInt`: an optional minus sign, then the absolute value padded
with zeros to at least `width` digits. -/
def appendInt (x : Int) (width : Nat) : String :=
  (if x < 0 then "-" else "") ++ zeroPad width (Nat.repr x.natAbs)

/-- The verb `%v` of `fmt.Sprintf` on an `int`. -/
def fmtInt (x : Int) : String :=
  (if x < 0 then "-" else "") ++ Nat.repr x.natAbs

/-- The verb `%02d` on an `int`: zero padding to width 2, the sign counting
towards the width. -/
def fmt02d (x : Int) : String :=
  if x < 0 then "-" ++ zeroPad 1 (Nat.repr x.natAbs) else zeroPad 2 (Nat.repr x.natAbs)

/-- Remove trailing zeros from a digit list given least significant digit
first. -/
def dropLowZeros : List Char → List Char
  | [] => []
  | c :: cs => if c = '0' then dropLowZeros cs else c :: cs

/-- The shortest decimal digits of a positive integer below 2^53 seen as
a `float64`: its decimal digits without the trailing zeros. -/
def shortestDigits (n : Nat) : List Char :=
  (dropLowZeros (Nat.toDigits 10 n).reverse).reverse

/-- The verb `%v` of `fmt.Sprintf` on a `float64` whose value is the integer
`x` (`strconv` format `g` with the shortest precision): plain decimal digits
while the decimal exponent is below 6, otherwise the `%e` form
`d.ddde+XX` with at least two exponent digits. -/
def fmtFloatInt (x : Int) : String :=
  let sign := if x < 0 then "-" else ""
  let n := x.natAbs
  if n = 0 then sign ++ "0"
  else
    let exp := (Nat.toDigits 10 n).length - 1
    if exp ≥ 6 then
      let digs := shortestDigits n
      let mant := match digs with
        | [] => ""
        | [c] => String.mk [c]
        | c :: cs => String.mk (c :: '.' :: cs)
      sign ++ mant ++ "e+" ++ zeroPad 2 (Nat.repr exp)
    else sign ++ Nat.repr n

/-- Go weekday names, Sunday first. -/
def longDayNames : List String :=
  ["Sunday", "Monday", "Tuesday", "Wednesday", "Thursday", "Friday", "Saturday"]

/-- Go `Time.Format` for the layouts that occur in the program:
`2006-01-02`, `2006-01`, `2006` and `Monday`.  Other layouts are outside the
embedding and yield the layout itself. -/
def Time.Format (t : Time) (layout : String) : String :=
  let (year, month, day) := t.Date
  if layout = "2006-01-02" then
    appendInt year 4 ++ "-" ++ appendInt month 2 ++ "-" ++ appendInt day 2
  else if layout = "2006-01" then
    appendInt year 4 ++ "-" ++ appendInt month 2
  else if layout = "2006" then
    appendInt year 4
  else if layout = "Monday" then
    longDayNames.getD t.Weekday.toNat ""
  else layout

/-- Go `Duration.Minutes`: the duration as a floating-point number of
minutes, with the `float64` arithmetic taken to be exact
(`Duration.MinutesFloat64` rounds it). -/
def Duration.Minutes (d : Duration) : ℚ :=
  let min := d.d.tdiv Minute
  let nsec := d.d.tmod Minute
  (min : ℚ) + (nsec : ℚ) / (60 * 1000000000)

/-- Go `Duration.Hours`: the duration as a floating-point number of hours,
with the `float64` arithmetic taken to be exact (`Duration.HoursFloat64`
rounds it). -/
def Duration.Hours (d : Duration) : ℚ :=
  let hour := d.d.tdiv Hour
  let nsec := d.d.tmod Hour
  (hour : ℚ) + (nsec : ℚ) / (60 * 60 * 1000000000)

end time

open time

/-! ## Go conversions and `math` -/

/-- The conversion `int(x)` of a `float64`: truncation towards zero. -/
def floatToInt (x : ℚ) : Int :=
  if 0 ≤ x then Int.floor x else Int.ceil x

/-- Go integer remainder `a % b`: truncated, with the sign of `a`. -/
def goMod (a b : Int) : Int := a.tmod b

/-! ## `float64` arithmetic -/

/-- Rounding to the nearest integer, a tie going to the even one. -/
def roundHalfEven (q : ℚ) : Int :=
  let n := ⌊q⌋
  if q - n < 1 / 2 then n
  else if 1 / 2 < q - n then n + 1
  else if n % 2 = 0 then n else n + 1

/-- The unit in the last place of the `float64` numbers of the magnitude of
`x`: a `float64` has a significand of 53 bits, so for
`2 ^ e ≤ |x| < 2 ^ (e + 1)` the `float64` numbers near `x` are the whole
multiples of `2 ^ (e - 52)`. -/
def ulp (x : ℚ) : ℚ := 2 ^ (Int.log 2 |x| - 52)

/-- The `float64` nearest to the real number `x`, a tie going to the even
significand: the rounding that IEEE 754 prescribes, and Go carries out, for
the result of every `float64` operation and of every conversion to `float64`.
The exponent range of `float64` (overflow above about 1.8e308, subnormal
numbers below about 2.2e-308) is not modelled; the magnitudes that occur here
lie between `2 ^ (-42)` and `2 ^ 63`. -/
def roundFloat64 (x : ℚ) : ℚ :=
  if x = 0 then 0 else (roundHalfEven (x / ulp x) : ℚ) * ulp x

/-- The number `g` is a whole multiple of the unit in the last place at
`x`. -/
def onGrid (x g : ℚ) : Prop := ∃ K : Int, g = K * ulp x

namespace time

/-- Go `Duration.Minutes` with its `float64` arithmetic carried out as the
machine does: the two conversions, the quotient and the sum are each rounded
to `float64` (the constant `60 * 1e9` is a `float64` as it stands). -/
def Duration.MinutesFloat64 (d : Duration) : ℚ :=
  let min := d.d.tdiv Minute
  let nsec := d.d.tmod Minute
  roundFloat64
    (roundFloat64 (min : ℚ) + roundFloat64 (roundFloat64 (nsec : ℚ) / (60 * 1000000000)))

/-- Go `Duration.Hours` with its `float64` arithmetic carried out as the
machine does: the two conversions, the quotient and the sum are each rounded
to `float64` (the constant `60 * 60 * 1e9` is a `float64` as it stands). -/
def Duration.HoursFloat64 (d : Duration) : ℚ :=
  let hour := d.d.tdiv Hour
  let nsec := d.d.tmod Hour
  roundFloat64
    (roundFloat64 (hour : ℚ) + roundFloat64 (roundFloat64 (nsec : ℚ) / (60 * 60 * 1000000000)))

end time

/-! ## Go maps with `int` keys -/

/-- A Go `map[int]V`: an association list. -/
abbrev GoMap (V : Type) := List (Int × V)

namespace GoMap

variable {V : Type}

/-- Two-valued map read `v, ok := m[k]`. -/
def lookup (m : GoMap V) (k : Int) : Option V :=
  match m with
  | [] => none
  | (k1, v) :: rest => if k1 = k then some v else lookup rest k

/-- Map read `m[k]`, the zero value for a missing key. -/
def index (zero : V) (m : GoMap V) (k : Int) : V :=
  (lookup m k).getD zero

/-- Map write `m[k] = v`. -/
def store (m : GoMap V) (k : Int) (v : V) : GoMap V :=
  match m with
  | [] => [(k, v)]
  | (k1, v1) :: rest => if k1 = k then (k, v) :: rest else (k1, v1) :: store rest k v

/-- The keys of the map. -/
def keys (m : GoMap V) : List Int := m.map Prod.fst

/-- The values of the map. -/
def values (m : GoMap V) : List V := m.map Prod.snd

end GoMap

/-! ## Go `sort.Slice` -/

/-- Insert into a list sorted by `less`. -/
def sortInsert {α : Type} (less : α → α → Bool) (x : α) : List α → List α
  | [] => [x]
  | y :: ys => if less y x then y :: sortInsert less x ys else x :: y :: ys

/-- Go `sort.Slice`: the slice rearranged so that no element is `less` than
an earlier one.  (The library sort is not stable; the embedding sorts by
insertion.) -/
def sortSlice {α : Type} (less : α → α → Bool) : List α → List α
  | [] => []
  | x :: xs => sortInsert less x (sortSlice less xs)

/-! ## `activity_domain.go` -/

/-- Go `uuid.UUID`, compared only for equality. -/
abbrev UUID := Nat

/-- Activity represents a tracked time for a project. -/
structure Activity where
  ID : UUID
  Start : Time
  End : Time
  Description : String
  ProjectID : UUID
  OrganizationID : UUID
  Username : String
deriving DecidableEq

/-- ActivityFilter represents a filter for activities. -/
structure ActivityFilter where
  Timespan : String
  sortBy : String
  sortOrder : String
  start : Time
  end_ : Time
deriving DecidableEq

def SortOrderAsc : String := "asc"
def SortOrderDesc : String := "desc"

def TimespanYear : String := "year"
def TimespanQuarter : String := "quarter"
def TimespanMonth : String := "month"
def TimespanWeek : String := "week"
def TimespanDay : String := "day"
def TimespanCustom : String := "custom"

/-- The zero value of `time.Time`: 0001-01-01T00:00:00Z. -/
def zeroTime : Time := ⟨-(unixEpochDay * secondsPerDay) * 1000000000⟩

namespace ActivityFilter

/-- Start returns the filter's start date. -/
def Start (f : ActivityFilter) : Time := f.start

/-- End returns the filter's end date. -/
def End (f : ActivityFilter) : Time :=
  if f.Timespan = TimespanCustom then f.end_
  else if f.Timespan = TimespanDay then f.start.AddDate 0 0 1
  else if f.Timespan = TimespanWeek then f.start.AddDate 0 0 7
  else if f.Timespan = TimespanMonth then f.start.AddDate 0 1 0
  else if f.Timespan = TimespanQuarter then f.start.AddDate 0 3 0
  else if f.Timespan = TimespanYear then f.start.AddDate 1 0 0
  else f.end_

/-- Home: the filter of the same timespan at the clock reading `now`. -/
def Home (f : ActivityFilter) (now : Time) : ActivityFilter :=
  { Timespan := f.Timespan, sortBy := "", sortOrder := "", start := now, end_ := zeroTime }

def Next (f : ActivityFilter) : ActivityFilter :=
  let nextFilter : ActivityFilter :=
    { Timespan := f.Timespan, sortBy := "", sortOrder := "", start := f.start, end_ := f.end_ }
  if nextFilter.Timespan = TimespanDay then
    { nextFilter with start := f.start.AddDate 0 0 1, end_ := f.end_.AddDate 0 0 1 }
  else if nextFilter.Timespan = TimespanWeek then
    { nextFilter with start := f.start.AddDate 0 0 7, end_ := f.end_.AddDate 0 0 7 }
  else if nextFilter.Timespan = TimespanMonth then
    { nextFilter with start := f.start.AddDate 0 1 0, end_ := f.end_.AddDate 0 1 0 }
  else if nextFilter.Timespan = TimespanQuarter then
    { nextFilter with start := f.start.AddDate 0 3 0, end_ := f.end_.AddDate 0 3 0 }
  else if nextFilter.Timespan = TimespanYear then
    { nextFilter with start := f.start.AddDate 1 0 0, end_ := f.end_.AddDate 1 0 0 }
  else nextFilter

def Previous (f : ActivityFilter) : ActivityFilter :=
  let previousFilter : ActivityFilter :=
    { Timespan := f.Timespan, sortBy := "", sortOrder := "", start := f.start, end_ := f.end_ }
  if previousFilter.Timespan = TimespanDay then
    { previousFilter with start := f.start.AddDate 0 0 (-1), end_ := f.end_.AddDate 0 0 (-1) }
  else if previousFilter.Timespan = TimespanWeek then
    { previousFilter with start := f.start.AddDate 0 0 (-7), end_ := f.end_.AddDate 0 0 (-7) }
  else if previousFilter.Timespan = TimespanMonth then
    { previousFilter with start := f.start.AddDate 0 (-1) 0, end_ := f.end_.AddDate 0 (-1) 0 }
  else if previousFilter.Timespan = TimespanQuarter then
    { previousFilter with start := f.start.AddDate 0 (-3) 0, end_ := f.end_.AddDate 0 (-3) 0 }
  else if previousFilter.Timespan = TimespanYear then
    { previousFilter with start := f.start.AddDate (-1) 0 0, end_ := f.end_.AddDate (-1) 0 0 }
  else previousFilter

def WithSortToggle (f : ActivityFilter) (sortBy : String) : ActivityFilter :=
  let filterWithSort : ActivityFilter :=
    { Timespan := f.Timespan, sortBy := sortBy, sortOrder := "", start := f.start,
      end_ := f.end_ }
  if f.sortOrder = "desc" then { filterWithSort with sortOrder := "asc" }
  else { filterWithSort with sortOrder := "desc" }

end ActivityFilter

namespace util

/-- Modelled from the spec: `util.Quarter` is not among the source files.  The
spec gives the quarter label as "Q = calendar quarter of the start date":
months 1..3 are quarter 1, ..., months 10..12 are quarter 4. -/
def Quarter (t : Time) : Int := (t.Month - 1) / 3 + 1

end util

namespace ActivityFilter

/-- NewValue, with the reading `now` of the clock (`time.Now()`) as an
argument. -/
def NewValue (f : ActivityFilter) (now : Time) : String :=
  if f.Timespan = TimespanDay then
    now.Format "2006-01-02"
  else if f.Timespan = TimespanWeek then
    let (y, w) := now.ISOWeek
    fmtInt y ++ "-" ++ fmtInt w
  else if f.Timespan = TimespanMonth then
    now.Format "2006-01"
  else if f.Timespan = TimespanQuarter then
    let q := Int.tdiv now.Month 3
    now.Format "2006" ++ "-" ++ fmtInt q
  else if f.Timespan = TimespanYear then
    now.Format "2006"
  else "Custom"

end ActivityFilter

/-- String returns the filter's display name. -/
def ActivityFilter.String (f : ActivityFilter) : String :=
  if f.Timespan = TimespanCustom then
    f.Start.Format "2006-01-02" ++ "_" ++ f.End.Format "2006-01-02"
  else if f.Timespan = TimespanDay then
    f.Start.Format "2006-01-02"
  else if f.Timespan = TimespanWeek then
    let (y, w) := f.Start.ISOWeek
    fmtInt y ++ "-" ++ fmtInt w
  else if f.Timespan = TimespanMonth then
    f.Start.Format "2006-01"
  else if f.Timespan = TimespanQuarter then
    let q := util.Quarter f.Start
    f.Start.Format "2006" ++ "-" ++ fmtInt q
  else if f.Timespan = TimespanYear then
    f.Start.Format "2006"
  else "Custom"


/-- FormatMinutesAsDuration formats the duration in minutes as formatted
string (e.g. 1:15 h): `fmt.Sprintf("%v:%02d h", math.Floor(minutes/60),
int(minutes)%60)`. -/
def FormatMinutesAsDuration (minutes : ℚ) : String :=
  fmtFloatInt (Int.floor (minutes / 60)) ++ ":" ++ fmt02d (goMod (floatToInt minutes) 60) ++ " h"

namespace Activity

def duration (a : Activity) : Duration := a.End.Sub a.Start

/-- DurationHours is the activity duration in hours (e.g. 3). -/
def DurationHours (ad : Activity) : Int := floatToInt ad.duration.Hours

/-- DurationMinutes is the activity duration in minutes of unfinished hour
(e.g. 15). -/
def DurationMinutes (ad : Activity) : Int :=
  let m := floatToInt ad.duration.Minutes
  goMod m 60

/-- DurationMinutesTotal is the activity duration in minutes in total
(unrounded). -/
def DurationMinutesTotal (ad : Activity) : Int := floatToInt ad.duration.Minutes

/-- DurationDecimal is the activity duration as decimal (e.g. 0.75). -/
def DurationDecimal (ad : Activity) : ℚ := ad.duration.Minutes / 60

/-- DurationFormatted is the activity duration as formatted string
(e.g. 1:15 h). -/
def DurationFormatted (ad : Activity) : String :=
  FormatMinutesAsDuration (ad.DurationMinutesTotal : ℚ)

/-- DurationHours with the `float64` arithmetic of `Hours()` rounded. -/
def DurationHoursFloat64 (ad : Activity) : Int := floatToInt ad.duration.HoursFloat64

/-- DurationMinutes with the `float64` arithmetic of `Minutes()` rounded. -/
def DurationMinutesFloat64 (ad : Activity) : Int :=
  let m := floatToInt ad.duration.MinutesFloat64
  goMod m 60

/-- DurationMinutesTotal with the `float64` arithmetic of `Minutes()`
rounded. -/
def DurationMinutesTotalFloat64 (ad : Activity) : Int := floatToInt ad.duration.MinutesFloat64

end Activity

/-! ## `app_web.go`: the aggregation loops -/

/-- The date formatters of package `util` that the day view calls; they are
not among the source files and enter as parameters. -/
structure DateFormats where
  FormatDateDEShort : Time → String
  FormatDate : Time → String

/-- The loop of `ActivitiesInWeekView` that computes `durationWeekTotal`. -/
def durationWeekTotal (activities : List Activity) : ℚ :=
  activities.foldl (fun total activity => total + (activity.DurationMinutesTotal : ℚ)) 0

/-- The three maps that `ActivitiesSumByDayView` fills. -/
structure DayMaps where
  activitySumByDay : GoMap ℚ
  activitiesByDay : GoMap (List Activity)
  dayFormattedByDay : GoMap (List String)

/-- One iteration of the loop over the activities in
`ActivitiesSumByDayView`. -/
def sumByDayStep (u : DateFormats) (s : DayMaps) (activity : Activity) : DayMaps :=
  let day := activity.Start.Day
  { dayFormattedByDay :=
      s.dayFormattedByDay.store day
        [activity.Start.Format "Monday", u.FormatDateDEShort activity.Start,
          u.FormatDate activity.Start]
    activitySumByDay :=
      s.activitySumByDay.store day
        (GoMap.index 0 s.activitySumByDay day + (activity.DurationMinutesTotal : ℚ))
    activitiesByDay :=
      s.activitiesByDay.store day (GoMap.index [] s.activitiesByDay day ++ [activity]) }

/-- The maps after the loop over the activities. -/
def sumByDayMaps (u : DateFormats) (activities : List Activity) : DayMaps :=
  activities.foldl (sumByDayStep u) ⟨[], [], []⟩

/-- The slice `dayNodes` of `ActivitiesSumByDayView` after `sort.Slice`,
where `iter` is the sequence in which `range activitySumByDay` yields the
keys (Go leaves that order unspecified). -/
def dayNodes (iter : List Int) : List Int :=
  sortSlice (fun a b => decide (a > b)) iter

/-! ## Quantities and inputs used in the statements -/

/-- The number of days of the month `m` of year `y` and of the two months
that follow it. -/
def daysInQuarter (m y : Int) : Int :=
  daysIn m y + daysIn (nextMonth (y, m)).2 (nextMonth (y, m)).1 +
    daysIn (nextMonth (nextMonth (y, m))).2 (nextMonth (nextMonth (y, m))).1

/-- The timespan is one of the five calendar timespans (not custom). -/
def isCalendarTimespan (s : String) : Prop :=
  s = TimespanDay ∨ s = TimespanWeek ∨ s = TimespanMonth ∨ s = TimespanQuarter ∨
    s = TimespanYear

/-- The number of days of the month that lies `years` years and `months`
months from the month of `t`. -/
def daysInMonthAfter (t : Time) (years months : Int) : Int :=
  daysIn (normMonth (t.Year + years) (t.Month + months)).2
    (normMonth (t.Year + years) (t.Month + months)).1

/-- The exact duration `End − Start` of an activity, in minutes. -/
def exactMinutes (a : Activity) : ℚ :=
  ((a.End.ns - a.Start.ns : Int) : ℚ) / 60000000000

/-- An activity that ends 90 seconds before it starts. -/
def backwardsActivity : Activity :=
  ⟨0, ⟨90000000000⟩, ⟨0⟩, "", 0, 0, ""⟩

/-- An activity of 90 seconds. -/
def shortActivity : Activity :=
  ⟨0, ⟨0⟩, ⟨90000000000⟩, "", 0, 0, ""⟩

/-- An activity from 0001-01-01 to 2000-01-01. -/
def longActivity : Activity :=
  ⟨0, Date 1 1 1 0 0 0 0, Date 2000 1 1 0 0 0 0, "", 0, 0, ""⟩

/-- An activity of 45 minutes. -/
def threeQuarterActivity : Activity :=
  ⟨0, Date 2024 3 1 9 0 0 0, Date 2024 3 1 9 45 0 0, "", 0, 0, ""⟩

/-- An activity from 1900-01-01 to 2020-01-01. -/
def centuryActivity : Activity :=
  ⟨0, Date 1900 1 1 0 0 0 0, Date 2020 1 1 0 0 0 0, "", 0, 0, ""⟩

/-- An activity of 262145 minutes less one nanosecond. -/
def nearly262145Minutes : Activity :=
  ⟨0, ⟨0⟩, ⟨15728699999999999⟩, "", 0, 0, ""⟩

/-- An activity of 4097 hours less one nanosecond. -/
def nearly4097Hours : Activity :=
  ⟨0, ⟨0⟩, ⟨14749199999999999⟩, "", 0, 0, ""⟩

/-- An activity of 60 minutes that starts on 2024-01-05. -/
def januaryFifth : Activity :=
  ⟨1, Date 2024 1 5 9 0 0 0, Date 2024 1 5 10 0 0 0, "", 0, 0, ""⟩

/-- An activity of 30 minutes that starts on 2024-02-05. -/
def februaryFifth : Activity :=
  ⟨2, Date 2024 2 5 14 0 0 0, Date 2024 2 5 14 30 0 0, "", 0, 0, ""⟩

/-- An activity of 15 minutes that starts on 2024-02-07. -/
def februarySeventh : Activity :=
  ⟨3, Date 2024 2 7 8 0 0 0, Date 2024 2 7 8 15 0 0, "", 0, 0, ""⟩

/-- Date formatters used where the formatted strings do not matter. -/
def plainFormats : DateFormats :=
  ⟨fun t => t.Format "2006-01-02", fun t => t.Format "2006-01-02"⟩

/-! ## Go `unicode` and `strings` -/

namespace unicode

/-- Go `unicode.ToLower` on a rune.  ASCII runes are mapped as in the
library; `caseTable` stands for the lower-case mapping of the Unicode tables
(`unicode.To(LowerCase, r)`), which the library consults for the other
runes. -/
def ToLower (caseTable : Char → Char) (r : Char) : Char :=
  if r.toNat ≤ 127 then
    if 'A'.toNat ≤ r.toNat ∧ r.toNat ≤ 'Z'.toNat then
      Char.ofNat (r.toNat + ('a'.toNat - 'A'.toNat))
    else r
  else caseTable r

end unicode

namespace strings

/-- Go `strings.ToLower` on a string of runes: every rune is mapped with
`unicode.ToLower`. -/
def ToLower (caseTable : Char → Char) (s : String) : String :=
  String.mk (s.data.map (unicode.ToLower caseTable))

end strings

/-- IsValidActivitySortField: the switch over the lower-cased field. -/
def IsValidActivitySortField (caseTable : Char → Char) (f : String) : Bool :=
  if strings.ToLower caseTable f = "project" then true
  else if strings.ToLower caseTable f = "start" then true
  else false

/-- IsValidSortOrder: the switch over the lower-cased order. -/
def IsValidSortOrder (caseTable : Char → Char) (f : String) : Bool :=
  if strings.ToLower caseTable f = SortOrderAsc then true
  else if strings.ToLower caseTable f = SortOrderDesc then true
  else false

/-- The letters of the words that the validators accept. -/
def validatorLetters : List Char := ['a', 'c', 'd', 'e', 'j', 'o', 'p', 'r', 's', 't']

/-- The string `s` equals the lower-case word `w` up to letter case: it has
the same length and each of its characters is the letter of `w` at that
place or the capital of that letter. -/
def equalUpToCase (s w : String) : Prop :=
  List.Forall₂ (fun c l => c = l ∨ c = Char.ofNat (l.toNat - 32)) s.data w.data

/-! ## Projects -/

/-- Modelled from the spec: the type `Project` is not among the source
files; the spec gives a project as `Project{ID, Title}`. -/
structure Project where
  ID : UUID
  Title : String
deriving DecidableEq

/-- A Go run-time panic. -/
inductive Panic where
  | nilPointerDereference
deriving DecidableEq

/-- The map `projectsById` after the loop over the projects: a
`map[uuid.UUID]*Project`, read with `none` for the nil pointer that a missing
key yields. -/
def projectsById (projects : List Project) : UUID → Option Project :=
  projects.foldl (fun m project => fun id => if id = project.ID then some project else m id)
    (fun _ => none)

/-- The expression `projectsById[activity.ProjectID].Title` of the views:
the field read through the pointer found in the map, a panic on the nil
pointer. -/
def projectTitle (projects : List Project) (activity : Activity) : Except Panic String :=
  match projectsById projects activity.ProjectID with
  | some project => Except.ok project.Title
  | none => Except.error Panic.nilPointerDereference

/-- An activity of project 7. -/
def orphanActivity : Activity :=
  ⟨1, Date 2024 1 5 9 0 0 0, Date 2024 1 5 10 0 0 0, "", 7, 0, ""⟩

/-! ### ISO 8601 weeks, from the words of the spec -/

/-- The day of the week of a day number counted from 0001-01-01, Monday = 0,
..., Sunday = 6; 1970-01-01 is a Thursday. -/
def isoWeekday (n : Int) : Int := (n - unixEpochDay + 3) % 7

/-- The day number of the first Thursday of a year. -/
def firstThursday (year : Int) : Int :=
  daysSinceEpoch year + (3 - isoWeekday (daysSinceEpoch year)) % 7

/-- The day number of the Monday that begins week 1 of a year: weeks start
on Monday and week 1 contains the year's first Thursday. -/
def isoWeekOneMonday (year : Int) : Int := firstThursday year - 3

/-- The day `n` lies in week `w` of the ISO week-year `y`: on or after the
Monday of week 1 of `y`, before the Monday of week 1 of `y + 1`, in the
`w`-th week counted from week 1. -/
def isISOWeek (n y w : Int) : Prop :=
  isoWeekOneMonday y ≤ n ∧ n < isoWeekOneMonday (y + 1) ∧ w = (n - isoWeekOneMonday y) / 7 + 1

/-- A week filter that starts on Monday 2024-12-30. -/
def newYearWeek : ActivityFilter :=
  ⟨TimespanWeek, "", "", Date 2024 12 30 0 0 0 0, zeroTime⟩

/-! # Theorems -/

/-! ## The embedding on known dates -/

theorem Date_unix_epoch : Date 1970 1 1 0 0 0 0 = ⟨0⟩ := by decide

theorem Date_overflow :
    (Date 2023 1 31 10 20 30 5).Date = (2023, 1, 31) ∧
      ((Date 2023 1 31 10 20 30 5).AddDate 0 1 0).Date = (2023, 3, 3) ∧
      ((Date 2024 1 31 10 20 30 5).AddDate 0 1 0).Date = (2024, 3, 2) ∧
      ((Date 2024 1 31 10 20 30 5).AddDate 0 1 0).Clock = (10, 20, 30) ∧
      (Date (-4) 2 29 0 0 0 0).Date = (-4, 2, 29) ∧ zeroTime.Date = (1, 1, 1) := by
  decide

theorem ISOWeek_known :
    (Date 2024 12 30 0 0 0 0).ISOWeek = (2025, 1) ∧ (Date 2021 1 3 0 0 0 0).ISOWeek = (2020, 53) ∧
      (Date 2024 11 4 0 0 0 0).Weekday = 1 := by
  decide

/-! ## The calendar of the `time` package -/

namespace time

theorem isLeap_iff (y : Int) :
    isLeap y = true ↔ (y % 4 = 0 ∧ (y % 100 ≠ 0 ∨ y % 400 = 0)) := by
  unfold isLeap
  simp

theorem absDate_eq (a : Int) :
    absDate a =
      ((yearDay (a / secondsPerDay)).1,
       (monthDay (isLeap (yearDay (a / secondsPerDay)).1) (yearDay (a / secondsPerDay)).2).1,
       (monthDay (isLeap (yearDay (a / secondsPerDay)).1) (yearDay (a / secondsPerDay)).2).2,
       (yearDay (a / secondsPerDay)).2) := by
  unfold absDate yearDay monthDay monthDay0
  simp only []
  split_ifs <;> rfl

theorem yearDay_core (d q1 q2 n4 q4 : Int) (h1 : q1 = d / 146097)
    (h2 : q2 = (d - 146097 * q1) / 36524)
    (h3 : n4 = (d - 146097 * q1 - 36524 * (q2 - q2 / 4)) / 1461)
    (h4 : q4 = (d - 146097 * q1 - 36524 * (q2 - q2 / 4) - 1461 * n4) / 365) :
    let year := 400 * q1 + 100 * (q2 - q2 / 4) + 4 * n4 + (q4 - q4 / 4) + 1
    let yday := d - 146097 * q1 - 36524 * (q2 - q2 / 4) - 1461 * n4 - 365 * (q4 - q4 / 4)
    0 ≤ yday ∧ yday < 365 + (if isLeap year then 1 else 0) ∧
    daysSinceEpoch year + yday = d := by
  intro year yday
  have hq2 : q2 = 0 ∨ q2 = 1 ∨ q2 = 2 ∨ q2 = 3 ∨ q2 = 4 := by omega
  have hq4 : q4 = 0 ∨ q4 = 1 ∨ q4 = 2 ∨ q4 = 3 ∨ q4 = 4 := by omega
  have hn4 : 0 ≤ n4 ∧ n4 ≤ 24 := by omega
  have hy : (year - 1) / 400 = q1 := by omega
  have hy2 : (year - 1 - 400 * q1) / 100 = q2 - q2 / 4 := by omega
  have hy3 : (year - 1 - 400 * q1 - 100 * (q2 - q2 / 4)) / 4 = n4 := by omega
  refine ⟨by omega, ?_, ?_⟩
  · by_cases hl : isLeap year = true
    · rw [if_pos hl]
      omega
    · rw [if_neg hl]
      rw [isLeap_iff] at hl
      omega
  · unfold daysSinceEpoch daysPer400Years daysPer100Years daysPer4Years
    simp only []
    rw [hy, hy2, hy3]
    omega

/-- The year stage of `absDate` inverts `daysSinceEpoch`. -/
theorem yearDay_spec (d : Int) :
    0 ≤ (yearDay d).2 ∧ (yearDay d).2 < 365 + (if isLeap (yearDay d).1 then 1 else 0) ∧
      daysSinceEpoch (yearDay d).1 + (yearDay d).2 = d :=
  yearDay_core d _ _ _ _ rfl rfl rfl rfl

/-- The closed form of `daysSinceEpoch`. -/
theorem daysSinceEpoch_closed (y : Int) :
    daysSinceEpoch y = 365 * (y - 1) + (y - 1) / 4 - (y - 1) / 100 + (y - 1) / 400 := by
  unfold daysSinceEpoch daysPer400Years daysPer100Years daysPer4Years
  simp only []
  omega

/-- Every year splits into 400-, 100-, 4- and 1-year parts. -/
theorem year_decomp (y : Int) :
    ∃ a b c t : Int, y = 400 * a + 100 * b + 4 * c + t ∧ 0 ≤ b ∧ b ≤ 3 ∧ 0 ≤ c ∧ c ≤ 24 ∧
      0 ≤ t ∧ t ≤ 3 :=
  ⟨y / 400, y % 400 / 100, y % 400 % 100 / 4, y % 400 % 100 % 4, by omega, by omega, by omega,
    by omega, by omega, by omega, by omega⟩

/-- Each year has 365 days, a leap year 366. -/
theorem daysSinceEpoch_succ (y : Int) :
    daysSinceEpoch (y + 1) = daysSinceEpoch y + 365 + (if isLeap y then 1 else 0) := by
  rw [daysSinceEpoch_closed, daysSinceEpoch_closed]
  obtain ⟨a, b, c, t, hy, hb0, hb1, hc0, hc1, ht0, ht1⟩ := year_decomp y
  have q4 : y / 4 = 100 * a + 25 * b + c := by omega
  have q100 : y / 100 = 4 * a + b := by omega
  have q400 : y / 400 = a := by omega
  have r4 : y % 4 = t := by omega
  have r100 : y % 100 = 4 * c + t := by omega
  have r400 : y % 400 = 100 * b + 4 * c + t := by omega
  have p4 : (y - 1) / 4 = 100 * a + 25 * b + c + (if t = 0 then -1 else 0) := by
    split_ifs <;> omega
  have p100 : (y - 1) / 100 = 4 * a + b + (if 4 * c + t = 0 then -1 else 0) := by
    split_ifs <;> omega
  have p400 : (y - 1) / 400 = a + (if 100 * b + 4 * c + t = 0 then -1 else 0) := by
    split_ifs <;> omega
  have e : y + 1 - 1 = y := by ring
  rw [e, q4, q100, q400, p4, p100, p400]
  by_cases hl : isLeap y = true
  · rw [if_pos hl]
    rw [isLeap_iff, r4, r100, r400] at hl
    split_ifs <;> omega
  · rw [if_neg hl]
    rw [isLeap_iff, r4, r100, r400] at hl
    split_ifs <;> omega

theorem yearDay_inv (y yd : Int) (h0 : 0 ≤ yd)
    (h1 : yd < 365 + (if isLeap y then 1 else 0)) :
    yearDay (daysSinceEpoch y + yd) = (y, yd) := by
  obtain ⟨a0, a1, a2⟩ := yearDay_spec (daysSinceEpoch y + yd)
  generalize yearDay (daysSinceEpoch y + yd) = r at a0 a1 a2 ⊢
  obtain ⟨y2, yd2⟩ := r
  simp only at a0 a1 a2
  have key : y2 = y := by
    rcases lt_trichotomy y2 y with h | h | h
    · exfalso
      have := daysSinceEpoch_succ y2
      have hm : daysSinceEpoch (y2 + 1) ≤ daysSinceEpoch y := by
        rw [daysSinceEpoch_closed, daysSinceEpoch_closed]
        omega
      split_ifs at a1 this <;> omega
    · exact h
    · exfalso
      have := daysSinceEpoch_succ y
      have hm : daysSinceEpoch (y + 1) ≤ daysSinceEpoch y2 := by
        rw [daysSinceEpoch_closed, daysSinceEpoch_closed]
        omega
      split_ifs at h1 this <;> omega
  subst key
  simp only [Prod.mk.injEq, true_and]
  omega

end time

namespace time

theorem monthDay0_of (day q : Int) (hq : day / 31 = q) :
    monthDay0 day =
      if day ≥ daysBefore (q + 1) then (q + 2, day - daysBefore (q + 1) + 1)
      else (q + 1, day - daysBefore q + 1) := by
  subst hq
  unfold monthDay0
  simp only []
  split_ifs <;> simp <;> omega

theorem quot31_cases (day : Int) (h0 : 0 ≤ day) (h1 : day < 365) :
    day / 31 = 0 ∨ day / 31 = 1 ∨ day / 31 = 2 ∨ day / 31 = 3 ∨ day / 31 = 4 ∨
      day / 31 = 5 ∨ day / 31 = 6 ∨ day / 31 = 7 ∨ day / 31 = 8 ∨ day / 31 = 9 ∨
      day / 31 = 10 ∨ day / 31 = 11 := by omega

theorem month_cases (m : Int) (h1 : 1 ≤ m) (h2 : m ≤ 12) :
    m = 1 ∨ m = 2 ∨ m = 3 ∨ m = 4 ∨ m = 5 ∨ m = 6 ∨ m = 7 ∨ m = 8 ∨ m = 9 ∨ m = 10 ∨
      m = 11 ∨ m = 12 := by omega

theorem daysBefore_table :
    daysBefore 0 = 0 ∧ daysBefore 1 = 31 ∧ daysBefore 2 = 59 ∧ daysBefore 3 = 90 ∧
      daysBefore 4 = 120 ∧ daysBefore 5 = 151 ∧ daysBefore 6 = 181 ∧ daysBefore 7 = 212 ∧
      daysBefore 8 = 243 ∧ daysBefore 9 = 273 ∧ daysBefore 10 = 304 ∧ daysBefore 11 = 334 ∧
      daysBefore 12 = 365 := by decide

theorem monthDay0_spec (day : Int) (h0 : 0 ≤ day) (h1 : day < 365) :
    1 ≤ (monthDay0 day).1 ∧ (monthDay0 day).1 ≤ 12 ∧ 1 ≤ (monthDay0 day).2 ∧
      (monthDay0 day).2 ≤ daysBefore (monthDay0 day).1 - daysBefore ((monthDay0 day).1 - 1) ∧
      daysBefore ((monthDay0 day).1 - 1) + ((monthDay0 day).2 - 1) = day := by
  obtain ⟨b0, b1, b2, b3, b4, b5, b6, b7, b8, b9, b10, b11, b12⟩ := daysBefore_table
  rcases quot31_cases day h0 h1 with h | h | h | h | h | h | h | h | h | h | h | h <;>
    rw [monthDay0_of day _ h] <;> split_ifs with hc <;> dsimp only <;>
    norm_num at hc ⊢ <;>
    simp only [b0, b1, b2, b3, b4, b5, b6, b7, b8, b9, b10, b11, b12] at hc ⊢ <;> omega

theorem monthDay0_inv (m d : Int) (h1 : 1 ≤ m) (h2 : m ≤ 12) (h3 : 1 ≤ d)
    (h4 : d ≤ daysBefore m - daysBefore (m - 1)) :
    monthDay0 (daysBefore (m - 1) + (d - 1)) = (m, d) := by
  obtain ⟨b0, b1, b2, b3, b4, b5, b6, b7, b8, b9, b10, b11, b12⟩ := daysBefore_table
  rcases month_cases m h1 h2 with h | h | h | h | h | h | h | h | h | h | h | h <;>
    subst h <;> norm_num at h4 ⊢ <;>
    simp only [b0, b1, b2, b3, b4, b5, b6, b7, b8, b9, b10, b11, b12] at h4 ⊢ <;>
    (generalize hday : _ + (d - 1) = day
     rcases quot31_cases day (by omega) (by omega) with
        h | h | h | h | h | h | h | h | h | h | h | h <;>
      rw [monthDay0_of day _ h] <;> norm_num <;>
      simp only [b0, b1, b2, b3, b4, b5, b6, b7, b8, b9, b10, b11, b12] <;>
      split_ifs <;> simp only [Prod.mk.injEq] <;> first | omega | (constructor <;> first | trivial | omega))


theorem monthDay_false (yd : Int) : monthDay false yd = monthDay0 yd := by
  simp [monthDay]

theorem monthDay_true_gt (yd : Int) (h : 59 < yd) : monthDay true yd = monthDay0 (yd - 1) := by
  have c1 : ¬ (yd = 59) := by omega
  simp [monthDay, c1, h]

theorem monthDay_true_lt (yd : Int) (h : yd < 59) : monthDay true yd = monthDay0 yd := by
  have c1 : ¬ (yd = 59) := by omega
  have c2 : ¬ (59 < yd) := by omega
  simp [monthDay, c1, c2]

/-- The month stage of `absDate`: the result is a valid month and day, and
the days before the month plus the day give back the day of the year. -/
theorem monthDay_spec (leap : Bool) (yd : Int) (h0 : 0 ≤ yd)
    (h1 : yd < 365 + (if leap then 1 else 0)) :
    1 ≤ (monthDay leap yd).1 ∧ (monthDay leap yd).1 ≤ 12 ∧ 1 ≤ (monthDay leap yd).2 ∧
      (monthDay leap yd).2 ≤
        (if (monthDay leap yd).1 = 2 && leap then 29
          else daysBefore (monthDay leap yd).1 - daysBefore ((monthDay leap yd).1 - 1)) ∧
      daysBefore ((monthDay leap yd).1 - 1) +
        (if leap && (monthDay leap yd).1 ≥ 3 then 1 else 0) + ((monthDay leap yd).2 - 1) = yd := by
  obtain ⟨b0, b1, b2, b3, b4, b5, b6, b7, b8, b9, b10, b11, b12⟩ := daysBefore_table
  cases leap
  · simp only [Bool.false_eq_true, if_false, add_zero] at h1
    have e : monthDay false yd = monthDay0 yd := by simp [monthDay]
    rw [e]
    simpa using monthDay0_spec yd h0 h1
  · simp only [if_true] at h1
    by_cases h59 : yd = 59
    · subst h59
      have e : monthDay true 59 = (2, 29) := by simp [monthDay]
      rw [e]
      norm_num [b1, b2]
    · by_cases hgt : yd > 59
      · have e : monthDay true yd = monthDay0 (yd - 1) := by
          simp [monthDay, h59, hgt]
        rw [e]
        obtain ⟨a1, a2, a3, a4, a5⟩ := monthDay0_spec (yd - 1) (by omega) (by omega)
        generalize monthDay0 (yd - 1) = r at a1 a2 a3 a4 a5 ⊢
        obtain ⟨m, d⟩ := r
        simp only at a1 a2 a3 a4 a5 ⊢
        rcases month_cases m a1 a2 with h | h | h | h | h | h | h | h | h | h | h | h <;>
          subst h <;> norm_num at a4 a5 ⊢ <;>
          simp only [b0, b1, b2, b3, b4, b5, b6, b7, b8, b9, b10, b11, b12] at a4 a5 ⊢ <;>
          omega
      · have e : monthDay true yd = monthDay0 yd := by
          have : ¬ (59 < yd) := by omega
          simp [monthDay, h59, this]
        rw [e]
        obtain ⟨a1, a2, a3, a4, a5⟩ := monthDay0_spec yd (by omega) (by omega)
        generalize monthDay0 yd = r at a1 a2 a3 a4 a5 ⊢
        obtain ⟨m, d⟩ := r
        simp only at a1 a2 a3 a4 a5 ⊢
        rcases month_cases m a1 a2 with h | h | h | h | h | h | h | h | h | h | h | h <;>
          subst h <;> norm_num at a4 a5 ⊢ <;>
          simp only [b0, b1, b2, b3, b4, b5, b6, b7, b8, b9, b10, b11, b12] at a4 a5 ⊢ <;>
          omega

/-- The month stage of `absDate` inverts the day-of-year count of
`time.Date` on every valid month and day. -/
theorem monthDay_inv (leap : Bool) (m d : Int) (h1 : 1 ≤ m) (h2 : m ≤ 12) (h3 : 1 ≤ d)
    (h4 : d ≤ (if m = 2 && leap then 29 else daysBefore m - daysBefore (m - 1))) :
    monthDay leap (daysBefore (m - 1) + (if leap && m ≥ 3 then 1 else 0) + (d - 1)) = (m, d) := by
  obtain ⟨b0, b1, b2, b3, b4, b5, b6, b7, b8, b9, b10, b11, b12⟩ := daysBefore_table
  cases leap
  · simp only [Bool.and_false, Bool.false_eq_true, if_false, Bool.false_and, add_zero] at h4 ⊢
    have e : ∀ yd, monthDay false yd = monthDay0 yd := by intro yd; simp [monthDay]
    rw [e]
    exact monthDay0_inv m d h1 h2 h3 h4
  · by_cases hm : m ≥ 3
    · have hm2 : ¬ m = 2 := by omega
      simp only [hm2, decide_False, Bool.false_and, Bool.false_eq_true, if_false] at h4
      simp only [Bool.true_and, hm, decide_True, if_true]
      have hge : daysBefore (m - 1) ≥ 59 := by
        rcases month_cases m h1 h2 with h | h | h | h | h | h | h | h | h | h | h | h <;>
          subst h <;> norm_num at hm ⊢ <;>
          simp only [b0, b1, b2, b3, b4, b5, b6, b7, b8, b9, b10, b11, b12] <;> omega
      have c3 : daysBefore (m - 1) + 1 + (d - 1) - 1 = daysBefore (m - 1) + (d - 1) := by ring
      rw [monthDay_true_gt _ (by omega), c3]
      exact monthDay0_inv m d h1 h2 h3 h4
    · have hm3 : ¬ (3 ≤ m) := hm
      simp only [Bool.true_and, hm3, decide_False, Bool.false_eq_true, if_false, add_zero]
      by_cases h29 : m = 2 ∧ d = 29
      · obtain ⟨rfl, rfl⟩ := h29
        norm_num [b1, monthDay]
      · have hd : d ≤ daysBefore m - daysBefore (m - 1) := by
          rcases (by omega : m = 1 ∨ m = 2) with h | h
          · subst h
            simpa using h4
          · subst h
            simp only [decide_True, Bool.and_true, if_true] at h4
            norm_num [b1, b2]
            omega
        have hlt : daysBefore (m - 1) + (d - 1) < 59 := by
          rcases (by omega : m = 1 ∨ m = 2) with h | h <;> subst h <;>
            norm_num at hd ⊢ <;>
            simp only [b0, b1, b2] at hd ⊢ <;> omega
        rw [monthDay_true_lt _ hlt]
        exact monthDay0_inv m d h1 h2 h3 hd

end time

namespace time

theorem norm_12 (y x : Int) : norm y x 12 = (y + x / 12, x % 12) := by
  unfold norm
  simp only []
  split_ifs <;> simp only [Prod.mk.injEq] <;> constructor <;> first | trivial | omega

/-- In-range low fields are left alone by `norm`. -/
theorem norm_id (hi lo base : Int) (h0 : 0 ≤ lo) (h1 : lo < base) :
    norm hi lo base = (hi, lo) := by
  unfold norm
  have c1 : ¬ lo < 0 := by omega
  have c2 : ¬ lo ≥ base := by omega
  simp [c1, c2]

theorem validDate_iff (y m d : Int) :
    validDate y m d ↔ 1 ≤ m ∧ m ≤ 12 ∧ 1 ≤ d ∧
      d ≤ (if m = 2 && isLeap y then 29 else daysBefore m - daysBefore (m - 1)) := by
  unfold validDate daysIn
  rfl

/-- `absDate` yields a valid civil date whose day number is the day of the
argument. -/
theorem absDate_valid (a : Int) :
    validDate (absDate a).1 (absDate a).2.1 (absDate a).2.2.1 ∧
      civilDay (absDate a).1 (absDate a).2.1 (absDate a).2.2.1 = a / secondsPerDay := by
  rw [absDate_eq, validDate_iff]
  simp only []
  obtain ⟨y0, y1, y2⟩ := yearDay_spec (a / secondsPerDay)
  obtain ⟨m1, m2, m3, m4, m5⟩ := monthDay_spec (isLeap (yearDay (a / secondsPerDay)).1)
    (yearDay (a / secondsPerDay)).2 y0 y1
  refine ⟨⟨m1, m2, m3, m4⟩, ?_⟩
  unfold civilDay
  omega

/-- `absDate` inverts the day count of `time.Date` on valid dates. -/
theorem absDate_civilDay (y m d s : Int) (hv : validDate y m d) (hs0 : 0 ≤ s)
    (hs1 : s < 86400) :
    absDate (civilDay y m d * secondsPerDay + s) =
      (y, m, d, daysBefore (m - 1) + (if isLeap y && m ≥ 3 then 1 else 0) + (d - 1)) := by
  rw [validDate_iff] at hv
  obtain ⟨h1, h2, h3, h4⟩ := hv
  obtain ⟨b0, b1, b2, b3, b4, b5, b6, b7, b8, b9, b10, b11, b12⟩ := daysBefore_table
  have hq : (civilDay y m d * secondsPerDay + s) / secondsPerDay = civilDay y m d := by
    unfold secondsPerDay
    omega
  have hyd0 : 0 ≤ daysBefore (m - 1) + (if isLeap y && m ≥ 3 then 1 else 0) + (d - 1) := by
    rcases month_cases m h1 h2 with h | h | h | h | h | h | h | h | h | h | h | h <;>
      subst h <;> norm_num <;>
      simp only [b0, b1, b2, b3, b4, b5, b6, b7, b8, b9, b10, b11, b12] <;>
      omega
  have hyd1 : daysBefore (m - 1) + (if isLeap y && m ≥ 3 then 1 else 0) + (d - 1) <
      365 + (if isLeap y then 1 else 0) := by
    cases hl : isLeap y <;> rw [hl] at h4 <;>
    rcases month_cases m h1 h2 with h | h | h | h | h | h | h | h | h | h | h | h <;>
      subst h <;> norm_num at h4 ⊢ <;>
      simp only [b0, b1, b2, b3, b4, b5, b6, b7, b8, b9, b10, b11, b12] at h4 ⊢ <;>
      omega
  have hc : civilDay y m d = daysSinceEpoch y +
      (daysBefore (m - 1) + (if isLeap y && m ≥ 3 then 1 else 0) + (d - 1)) := by
    unfold civilDay
    ring
  rw [absDate_eq, hq, hc, yearDay_inv y _ hyd0 hyd1]
  simp only []
  rw [monthDay_inv (isLeap y) m d h1 h2 h3 h4]

theorem Time.Date_eq (t : Time) :
    t.Date = ((absDate t.abs).1, (absDate t.abs).2.1, (absDate t.abs).2.2.1) := rfl

/-- The civil date of an instant is valid and its day number is the day of
the instant. -/
theorem Time.Date_valid (t : Time) :
    validDate t.Year t.Month t.Day ∧
      civilDay t.Year t.Month t.Day = t.abs / secondsPerDay :=
  absDate_valid t.abs

theorem Time.Clock_spec (t : Time) :
    0 ≤ t.Clock.1 ∧ t.Clock.1 < 24 ∧ 0 ≤ t.Clock.2.1 ∧ t.Clock.2.1 < 60 ∧
      0 ≤ t.Clock.2.2 ∧ t.Clock.2.2 < 60 ∧
      t.Clock.1 * 3600 + t.Clock.2.1 * 60 + t.Clock.2.2 = t.abs % 86400 := by
  unfold Time.Clock secondsPerDay secondsPerHour secondsPerMinute
  simp only []
  omega

theorem Time.nsec_range (t : Time) : 0 ≤ t.nsec ∧ t.nsec < 1000000000 := by
  unfold Time.nsec
  omega

/-- An instant is its day, its clock reading and its nanoseconds. -/
theorem Time.ns_split (t : Time) :
    t.ns = ((t.abs / secondsPerDay - unixEpochDay) * 86400 +
      (t.Clock.1 * 3600 + t.Clock.2.1 * 60 + t.Clock.2.2)) * 1000000000 + t.nsec := by
  obtain ⟨_, _, _, _, _, _, hc⟩ := t.Clock_spec
  rw [hc]
  unfold Time.abs Time.nsec secondsPerDay unixEpochDay
  omega

/-- The instant that `time.Date` builds from any year, month and day and an
in-range clock reading. -/
theorem Date_ns (y mo d h mi s ns : Int) (hh0 : 0 ≤ h) (hh1 : h < 24) (hm0 : 0 ≤ mi)
    (hm1 : mi < 60) (hs0 : 0 ≤ s) (hs1 : s < 60) (hn0 : 0 ≤ ns) (hn1 : ns < 1000000000) :
    (Date y mo d h mi s ns).ns =
      ((dayNumber y mo d - unixEpochDay) * 86400 + (h * 3600 + mi * 60 + s)) * 1000000000 +
        ns := by
  unfold Date dayNumber civilDay
  simp only [norm_id s ns 1000000000 hn0 hn1, norm_id mi s 60 hs0 hs1,
    norm_id h mi 60 hm0 hm1, norm_id d h 24 hh0 hh1]
  unfold secondsPerDay secondsPerHour secondsPerMinute
  split_ifs <;> simp only [add_sub_cancel_right] <;> ring

/-- `AddDate` moves an instant by a whole number of days. -/
theorem Time.AddDate_ns (t : Time) (a b c : Int) :
    (t.AddDate a b c).ns =
      t.ns + (dayNumber (t.Year + a) (t.Month + b) (t.Day + c) - t.abs / secondsPerDay) *
        nsPerDay := by
  obtain ⟨c1, c2, c3, c4, c5, c6, _⟩ := t.Clock_spec
  obtain ⟨n1, n2⟩ := t.nsec_range
  have e : t.AddDate a b c =
      time.Date (t.Year + a) (t.Month + b) (t.Day + c) t.Clock.1 t.Clock.2.1 t.Clock.2.2 t.nsec := rfl
  rw [e, Date_ns _ _ _ _ _ _ _ c1 c2 c3 c4 c5 c6 n1 n2]
  conv_rhs => rw [t.ns_split]
  unfold nsPerDay
  ring

/-- A valid date with an in-range clock reading is read back unchanged. -/
theorem Date_Date (y m d h mi s ns : Int) (hv : validDate y m d) (hh0 : 0 ≤ h) (hh1 : h < 24)
    (hm0 : 0 ≤ mi) (hm1 : mi < 60) (hs0 : 0 ≤ s) (hs1 : s < 60) (hn0 : 0 ≤ ns)
    (hn1 : ns < 1000000000) :
    (Date y m d h mi s ns).Date = (y, m, d) := by
  have hn : norm y (m - 1) 12 = (y, m - 1) := norm_id y (m - 1) 12 (by unfold validDate at hv; omega)
    (by unfold validDate at hv; omega)
  have hd : dayNumber y m d = civilDay y m d := by
    unfold dayNumber
    rw [hn]
    simp
  have habs : (Date y m d h mi s ns).abs =
      civilDay y m d * secondsPerDay + (h * 3600 + mi * 60 + s) := by
    unfold Time.abs
    rw [Date_ns _ _ _ _ _ _ _ hh0 hh1 hm0 hm1 hs0 hs1 hn0 hn1, hd]
    unfold secondsPerDay unixEpochDay
    omega
  rw [Time.Date_eq, habs, absDate_civilDay y m d _ hv (by omega) (by omega)]

end time

namespace time

theorem normMonth_eq (y mo : Int) :
    normMonth y mo = (y + (mo - 1) / 12, (mo - 1) % 12 + 1) := by
  unfold normMonth
  rw [norm_12]

theorem normMonth_id (y m : Int) (h1 : 1 ≤ m) (h2 : m ≤ 12) : normMonth y m = (y, m) := by
  rw [normMonth_eq]
  simp only [Prod.mk.injEq]
  omega

theorem normMonth_range (y mo : Int) : 1 ≤ (normMonth y mo).2 ∧ (normMonth y mo).2 ≤ 12 := by
  rw [normMonth_eq]
  simp only []
  omega

theorem normMonth_succ (y mo : Int) : normMonth y (mo + 1) = nextMonth (normMonth y mo) := by
  rw [normMonth_eq, normMonth_eq]
  unfold nextMonth
  simp only []
  split_ifs <;> simp only [Prod.mk.injEq] <;> omega

theorem dayNumber_eq (y mo d : Int) :
    dayNumber y mo d = civilDay (normMonth y mo).1 (normMonth y mo).2 d := rfl

theorem dayNumber_civil (y m d : Int) (h1 : 1 ≤ m) (h2 : m ≤ 12) :
    dayNumber y m d = civilDay y m d := by
  rw [dayNumber_eq, normMonth_id y m h1 h2]

theorem dayNumber_add_day (y mo d c : Int) : dayNumber y mo (d + c) = dayNumber y mo d + c := by
  unfold dayNumber civilDay
  ring

/-- Every month has 28 to 31 days. -/
theorem daysIn_range (m y : Int) (h1 : 1 ≤ m) (h2 : m ≤ 12) :
    28 ≤ daysIn m y ∧ daysIn m y ≤ 31 := by
  obtain ⟨b0, b1, b2, b3, b4, b5, b6, b7, b8, b9, b10, b11, b12⟩ := daysBefore_table
  unfold daysIn
  generalize isLeap y = l
  cases l <;>
  rcases month_cases m h1 h2 with h | h | h | h | h | h | h | h | h | h | h | h <;>
    subst h <;> norm_num <;>
    simp only [b0, b1, b2, b3, b4, b5, b6, b7, b8, b9, b10, b11, b12] <;> omega

/-- The first of the next month comes `daysIn` days after the first of a
month. -/
theorem civilDay_nextMonth (y m d : Int) (h1 : 1 ≤ m) (h2 : m ≤ 12) :
    civilDay (nextMonth (y, m)).1 (nextMonth (y, m)).2 d = civilDay y m d + daysIn m y := by
  obtain ⟨b0, b1, b2, b3, b4, b5, b6, b7, b8, b9, b10, b11, b12⟩ := daysBefore_table
  by_cases h12 : m = 12
  · subst h12
    have e : nextMonth (y, 12) = (y + 1, 1) := by simp [nextMonth]
    rw [e]
    have hs := daysSinceEpoch_succ y
    unfold civilDay daysIn
    simp only []
    generalize isLeap y = l at hs ⊢
    generalize isLeap (y + 1) = l1
    cases l <;> cases l1 <;> norm_num at hs ⊢ <;>
      simp only [b0, b11, b12] <;> omega
  · have e : nextMonth (y, m) = (y, m + 1) := by simp [nextMonth, h12]
    rw [e]
    unfold civilDay daysIn
    simp only []
    generalize isLeap y = l
    cases l <;>
    rcases month_cases m h1 h2 with h | h | h | h | h | h | h | h | h | h | h | h <;>
      subst h <;> norm_num at h12 ⊢ <;>
      simp only [b0, b1, b2, b3, b4, b5, b6, b7, b8, b9, b10, b11, b12] <;> omega

theorem dayNumber_succ_month (y mo d : Int) :
    dayNumber y (mo + 1) d =
      dayNumber y mo d + daysIn (normMonth y mo).2 (normMonth y mo).1 := by
  obtain ⟨r1, r2⟩ := normMonth_range y mo
  rw [dayNumber_eq, dayNumber_eq, normMonth_succ]
  exact civilDay_nextMonth _ _ d r1 r2

theorem dayNumber_succ_year (y m d : Int) (h1 : 1 ≤ m) (h2 : m ≤ 12) :
    dayNumber (y + 1) m d =
      dayNumber y m d + 365 + (if isLeap (if m ≤ 2 then y else y + 1) then 1 else 0) := by
  rw [dayNumber_civil _ _ _ h1 h2, dayNumber_civil _ _ _ h1 h2]
  have hs := daysSinceEpoch_succ y
  unfold civilDay
  by_cases hm : m ≤ 2
  · have hm3 : ¬ (m ≥ 3) := by omega
    simp only [hm, if_true, hm3, decide_False, Bool.and_false, Bool.false_eq_true, if_false]
    omega
  · have hm3 : m ≥ 3 := by omega
    simp only [hm, if_false, hm3, decide_True, Bool.and_true]
    generalize isLeap y = l at hs ⊢
    generalize isLeap (y + 1) = l1
    cases l <;> cases l1 <;> simp at hs ⊢ <;> omega

/-- The day number of the civil date of an instant. -/
theorem Time.dayNumber_Date (t : Time) :
    dayNumber t.Year t.Month t.Day = t.abs / secondsPerDay := by
  obtain ⟨hv, hc⟩ := t.Date_valid
  rw [dayNumber_civil _ _ _ hv.1 hv.2.1, hc]

theorem Time.Month_range (t : Time) : 1 ≤ t.Month ∧ t.Month ≤ 12 :=
  ⟨t.Date_valid.1.1, t.Date_valid.1.2.1⟩

/-- `AddDate(0, 0, c)` moves an instant by exactly `c` days. -/
theorem Time.AddDate_days (t : Time) (c : Int) :
    (t.AddDate 0 0 c).ns = t.ns + c * nsPerDay := by
  rw [t.AddDate_ns, add_zero, add_zero, dayNumber_add_day, t.dayNumber_Date]
  ring

/-- `AddDate(0, 1, 0)` moves an instant by the length of its month. -/
theorem Time.AddDate_month (t : Time) :
    (t.AddDate 0 1 0).ns = t.ns + daysIn t.Month t.Year * nsPerDay := by
  obtain ⟨h1, h2⟩ := t.Month_range
  rw [t.AddDate_ns, add_zero, add_zero, dayNumber_succ_month, t.dayNumber_Date,
    normMonth_id _ _ h1 h2]
  ring

/-- `AddDate(0, 3, 0)` moves an instant by the lengths of its month and of
the two months that follow. -/
theorem Time.AddDate_quarter (t : Time) :
    (t.AddDate 0 3 0).ns =
      t.ns + (daysIn t.Month t.Year +
        daysIn (nextMonth (t.Year, t.Month)).2 (nextMonth (t.Year, t.Month)).1 +
        daysIn (nextMonth (nextMonth (t.Year, t.Month))).2
          (nextMonth (nextMonth (t.Year, t.Month))).1) * nsPerDay := by
  obtain ⟨h1, h2⟩ := t.Month_range
  have e3 : t.Month + 3 = t.Month + 1 + 1 + 1 := by ring
  have n1 : normMonth t.Year t.Month = (t.Year, t.Month) := normMonth_id _ _ h1 h2
  have n2 : normMonth t.Year (t.Month + 1) = nextMonth (t.Year, t.Month) := by
    rw [normMonth_succ, n1]
  have n3 : normMonth t.Year (t.Month + 1 + 1) = nextMonth (nextMonth (t.Year, t.Month)) := by
    rw [normMonth_succ, n2]
  have s1 := dayNumber_succ_month t.Year t.Month t.Day
  have s2 := dayNumber_succ_month t.Year (t.Month + 1) t.Day
  have s3 := dayNumber_succ_month t.Year (t.Month + 1 + 1) t.Day
  rw [n1] at s1
  rw [n2] at s2
  rw [n3] at s3
  rw [t.AddDate_ns, add_zero, add_zero, e3, s3, s2, s1, t.dayNumber_Date]
  simp only []
  ring

/-- `AddDate(1, 0, 0)` moves an instant by 365 or 366 days. -/
theorem Time.AddDate_year (t : Time) :
    (t.AddDate 1 0 0).ns =
      t.ns + (365 + (if isLeap (if t.Month ≤ 2 then t.Year else t.Year + 1) then 1 else 0)) *
        nsPerDay := by
  obtain ⟨h1, h2⟩ := t.Month_range
  rw [t.AddDate_ns, add_zero, add_zero, dayNumber_succ_year _ _ _ h1 h2, t.dayNumber_Date]
  ring

theorem nextMonth_range (ym : Int × Int) (h1 : 1 ≤ ym.2) (h2 : ym.2 ≤ 12) :
    1 ≤ (nextMonth ym).2 ∧ (nextMonth ym).2 ≤ 12 := by
  unfold nextMonth
  split_ifs <;> simp only [] <;> omega

/-- Three consecutive months have 89 to 92 days. -/
theorem quarter_range (y m : Int) (h1 : 1 ≤ m) (h2 : m ≤ 12) :
    89 ≤ daysIn m y + daysIn (nextMonth (y, m)).2 (nextMonth (y, m)).1 +
        daysIn (nextMonth (nextMonth (y, m))).2 (nextMonth (nextMonth (y, m))).1 ∧
      daysIn m y + daysIn (nextMonth (y, m)).2 (nextMonth (y, m)).1 +
        daysIn (nextMonth (nextMonth (y, m))).2 (nextMonth (nextMonth (y, m))).1 ≤ 92 := by
  obtain ⟨b0, b1, b2, b3, b4, b5, b6, b7, b8, b9, b10, b11, b12⟩ := daysBefore_table
  rcases month_cases m h1 h2 with h | h | h | h | h | h | h | h | h | h | h | h <;>
    subst h <;> norm_num [nextMonth, daysIn] <;>
    simp only [b0, b1, b2, b3, b4, b5, b6, b7, b8, b9, b10, b11, b12] <;>
    (try generalize isLeap y = l) <;> (try generalize isLeap (y + 1) = l1) <;>
    (try cases l) <;> (try cases l1) <;> simp

end time

namespace time

theorem Time.ext_ns {t u : Time} (h : t.ns = u.ns) : t = u := by
  cases t
  cases u
  simp only [Time.mk.injEq]
  exact h

/-- `time.Date` depends on the year and month only through their
normalisation. -/
theorem Date_normMonth (y mo d h mi s ns : Int) :
    Date y mo d h mi s ns = Date (normMonth y mo).1 (normMonth y mo).2 d h mi s ns := by
  have e : norm (normMonth y mo).1 ((normMonth y mo).2 - 1) 12 = norm y (mo - 1) 12 := by
    rw [normMonth_eq, norm_12, norm_12]
    simp only [Prod.mk.injEq]
    constructor <;> omega
  unfold Date
  rw [e]

/-- Adding days and taking them away again gives the instant back. -/
theorem Time.AddDate_days_inv (t : Time) (c c1 : Int) (hc : c1 = -c) :
    (t.AddDate 0 0 c).AddDate 0 0 c1 = t := by
  apply Time.ext_ns
  rw [Time.AddDate_days, Time.AddDate_days, hc]
  ring

/-- The civil date after `AddDate(a, b, 0)` when the day of the month is at
most 28: the normalised year and month and the same day. -/
theorem Time.AddDate_Date (t : Time) (a b : Int) (hd : t.Day ≤ 28) :
    (t.AddDate a b 0).Date =
      ((normMonth (t.Year + a) (t.Month + b)).1, (normMonth (t.Year + a) (t.Month + b)).2,
        t.Day) := by
  obtain ⟨c1, c2, c3, c4, c5, c6, _⟩ := t.Clock_spec
  obtain ⟨n1, n2⟩ := t.nsec_range
  obtain ⟨r1, r2⟩ := normMonth_range (t.Year + a) (t.Month + b)
  have e : t.AddDate a b 0 =
      time.Date (t.Year + a) (t.Month + b) (t.Day + 0) t.Clock.1 t.Clock.2.1 t.Clock.2.2
        t.nsec := rfl
  rw [e, add_zero, Date_normMonth]
  apply Date_Date _ _ _ _ _ _ _ _ c1 c2 c3 c4 c5 c6 n1 n2
  have hv := t.Date_valid.1
  have hr := daysIn_range _ (normMonth (t.Year + a) (t.Month + b)).1 r1 r2
  unfold validDate at hv ⊢
  omega

/-- The civil date after `AddDate(a, b, 0)` when the day of the month exists
in the month stepped to: the normalised year and month and the same day. -/
theorem Time.AddDate_Date_kept (t : Time) (a b : Int)
    (hd : t.Day ≤ daysIn (normMonth (t.Year + a) (t.Month + b)).2
      (normMonth (t.Year + a) (t.Month + b)).1) :
    (t.AddDate a b 0).Date =
      ((normMonth (t.Year + a) (t.Month + b)).1, (normMonth (t.Year + a) (t.Month + b)).2,
        t.Day) := by
  obtain ⟨c1, c2, c3, c4, c5, c6, _⟩ := t.Clock_spec
  obtain ⟨n1, n2⟩ := t.nsec_range
  obtain ⟨r1, r2⟩ := normMonth_range (t.Year + a) (t.Month + b)
  have e : t.AddDate a b 0 =
      time.Date (t.Year + a) (t.Month + b) (t.Day + 0) t.Clock.1 t.Clock.2.1 t.Clock.2.2
        t.nsec := rfl
  rw [e, add_zero, Date_normMonth]
  apply Date_Date _ _ _ _ _ _ _ _ c1 c2 c3 c4 c5 c6 n1 n2
  have hv := t.Date_valid.1
  unfold validDate at hv ⊢
  omega

/-- The civil date after `AddDate(a, b, 0)` when the day of the month does
not exist in the month stepped to: the day overflows into the month after
it. -/
theorem Time.AddDate_Date_overflow (t : Time) (a b : Int)
    (hd : daysIn (normMonth (t.Year + a) (t.Month + b)).2
      (normMonth (t.Year + a) (t.Month + b)).1 < t.Day) :
    (t.AddDate a b 0).Date =
      ((nextMonth (normMonth (t.Year + a) (t.Month + b))).1,
        (nextMonth (normMonth (t.Year + a) (t.Month + b))).2,
        t.Day - daysIn (normMonth (t.Year + a) (t.Month + b)).2
          (normMonth (t.Year + a) (t.Month + b)).1) := by
  obtain ⟨c1, c2, c3, c4, c5, c6, _⟩ := t.Clock_spec
  obtain ⟨n1, n2⟩ := t.nsec_range
  obtain ⟨r1, r2⟩ := normMonth_range (t.Year + a) (t.Month + b)
  obtain ⟨s1, s2⟩ := nextMonth_range (normMonth (t.Year + a) (t.Month + b)) r1 r2
  obtain ⟨m1, m2⟩ := t.Month_range
  have hv := t.Date_valid.1
  have hr := daysIn_range _ (normMonth (t.Year + a) (t.Month + b)).1 r1 r2
  have hr1 := daysIn_range _ (nextMonth (normMonth (t.Year + a) (t.Month + b))).1 s1 s2
  have hr0 := daysIn_range _ t.Year m1 m2
  have e : t.AddDate a b 0 =
      time.Date (t.Year + a) (t.Month + b) (t.Day + 0) t.Clock.1 t.Clock.2.1 t.Clock.2.2
        t.nsec := rfl
  have e2 : time.Date (t.Year + a) (t.Month + b) t.Day t.Clock.1 t.Clock.2.1 t.Clock.2.2
        t.nsec =
      time.Date (nextMonth (normMonth (t.Year + a) (t.Month + b))).1
        (nextMonth (normMonth (t.Year + a) (t.Month + b))).2
        (t.Day - daysIn (normMonth (t.Year + a) (t.Month + b)).2
          (normMonth (t.Year + a) (t.Month + b)).1) t.Clock.1 t.Clock.2.1 t.Clock.2.2
        t.nsec := by
    apply Time.ext_ns
    rw [Date_ns _ _ _ _ _ _ _ c1 c2 c3 c4 c5 c6 n1 n2,
      Date_ns _ _ _ _ _ _ _ c1 c2 c3 c4 c5 c6 n1 n2, dayNumber_eq,
      dayNumber_civil _ _ _ s1 s2]
    have hc := civilDay_nextMonth (normMonth (t.Year + a) (t.Month + b)).1
      (normMonth (t.Year + a) (t.Month + b)).2
      (t.Day - daysIn (normMonth (t.Year + a) (t.Month + b)).2
          (normMonth (t.Year + a) (t.Month + b)).1) r1 r2
    rw [hc]
    unfold civilDay
    ring
  rw [e, add_zero, e2]
  apply Date_Date _ _ _ _ _ _ _ _ c1 c2 c3 c4 c5 c6 n1 n2
  unfold validDate at hv ⊢
  omega

/-- `AddDate(a, b, 0)` keeps the day of the month exactly when that day
exists in the month stepped to. -/
theorem Time.AddDate_Day_iff (t : Time) (a b : Int) :
    (t.AddDate a b 0).Day = t.Day ↔
      t.Day ≤ daysIn (normMonth (t.Year + a) (t.Month + b)).2
        (normMonth (t.Year + a) (t.Month + b)).1 := by
  obtain ⟨r1, r2⟩ := normMonth_range (t.Year + a) (t.Month + b)
  have hr := daysIn_range _ (normMonth (t.Year + a) (t.Month + b)).1 r1 r2
  constructor
  · intro h
    by_contra hn
    have hD := t.AddDate_Date_overflow a b (by omega)
    have hDay : (t.AddDate a b 0).Day = t.Day - daysIn (normMonth (t.Year + a) (t.Month + b)).2
        (normMonth (t.Year + a) (t.Month + b)).1 := by
      show (t.AddDate a b 0).Date.2.2 = _
      rw [hD]
    omega
  · intro h
    show (t.AddDate a b 0).Date.2.2 = _
    rw [t.AddDate_Date_kept a b h]

/-- Adding years and months and taking them away again gives the instant
back exactly when the step keeps the day of the month. -/
theorem Time.AddDate_ym_inv_iff (t : Time) (a b a1 b1 : Int) (ha : a1 = -a) (hb : b1 = -b) :
    (t.AddDate a b 0).AddDate a1 b1 0 = t ↔ (t.AddDate a b 0).Day = t.Day := by
  obtain ⟨r1, r2⟩ := normMonth_range (t.Year + a) (t.Month + b)
  have hr := daysIn_range _ (normMonth (t.Year + a) (t.Month + b)).1 r1 r2
  obtain ⟨h1, h2⟩ := t.Month_range
  constructor
  · intro h
    by_contra hn
    have hlt : daysIn (normMonth (t.Year + a) (t.Month + b)).2
        (normMonth (t.Year + a) (t.Month + b)).1 < t.Day := by
      by_contra hc
      exact hn ((t.AddDate_Day_iff a b).2 (by omega))
    have hD := t.AddDate_Date_overflow a b hlt
    have hDay : (t.AddDate a b 0).Day = t.Day - daysIn (normMonth (t.Year + a) (t.Month + b)).2
        (normMonth (t.Year + a) (t.Month + b)).1 := by
      show (t.AddDate a b 0).Date.2.2 = _
      rw [hD]
    have hv := t.Date_valid.1
    have hr0 := daysIn_range _ t.Year h1 h2
    have hsmall : (t.AddDate a b 0).Day ≤ 28 := by
      unfold validDate at hv
      omega
    have hback := (t.AddDate a b 0).AddDate_Date a1 b1 hsmall
    have hDay2 : ((t.AddDate a b 0).AddDate a1 b1 0).Day = (t.AddDate a b 0).Day := by
      show ((t.AddDate a b 0).AddDate a1 b1 0).Date.2.2 = _
      rw [hback]
    rw [h] at hDay2
    omega
  · intro hDay
    have hd := (t.AddDate_Day_iff a b).1 hDay
    apply Time.ext_ns
    have hD := t.AddDate_Date_kept a b hd
    have hY : (t.AddDate a b 0).Year = (normMonth (t.Year + a) (t.Month + b)).1 := by
      show (t.AddDate a b 0).Date.1 = _
      rw [hD]
    have hM : (t.AddDate a b 0).Month = (normMonth (t.Year + a) (t.Month + b)).2 := by
      show (t.AddDate a b 0).Date.2.1 = _
      rw [hD]
    have hback : normMonth ((normMonth (t.Year + a) (t.Month + b)).1 + a1)
        ((normMonth (t.Year + a) (t.Month + b)).2 + b1) = (t.Year, t.Month) := by
      rw [normMonth_eq, normMonth_eq, ha, hb]
      simp only [Prod.mk.injEq]
      constructor <;> omega
    have hn : dayNumber ((normMonth (t.Year + a) (t.Month + b)).1 + a1)
        ((normMonth (t.Year + a) (t.Month + b)).2 + b1) t.Day = t.abs / secondsPerDay := by
      rw [dayNumber_eq, hback, ← t.dayNumber_Date, dayNumber_civil _ _ _ h1 h2]
    have hmid : (t.AddDate a b 0).abs / secondsPerDay =
        dayNumber (t.Year + a) (t.Month + b) t.Day := by
      rw [← Time.dayNumber_Date, hY, hM, hDay, dayNumber_eq, dayNumber_eq]
      rw [normMonth_id _ _ r1 r2]
    rw [Time.AddDate_ns, hY, hM, hDay, add_zero, hn, hmid, Time.AddDate_ns, add_zero]
    ring

end time

/-! ## The activity filter -/

theorem End_day (f : ActivityFilter) (h : f.Timespan = TimespanDay) :
    f.End = f.start.AddDate 0 0 1 := by
  simp [ActivityFilter.End, h, TimespanDay, TimespanCustom]

theorem End_week (f : ActivityFilter) (h : f.Timespan = TimespanWeek) :
    f.End = f.start.AddDate 0 0 7 := by
  simp [ActivityFilter.End, h, TimespanDay, TimespanCustom, TimespanWeek]

theorem End_month (f : ActivityFilter) (h : f.Timespan = TimespanMonth) :
    f.End = f.start.AddDate 0 1 0 := by
  simp [ActivityFilter.End, h, TimespanDay, TimespanCustom, TimespanWeek, TimespanMonth]

theorem End_quarter (f : ActivityFilter) (h : f.Timespan = TimespanQuarter) :
    f.End = f.start.AddDate 0 3 0 := by
  simp [ActivityFilter.End, h, TimespanDay, TimespanCustom, TimespanWeek, TimespanMonth,
    TimespanQuarter]

theorem End_year (f : ActivityFilter) (h : f.Timespan = TimespanYear) :
    f.End = f.start.AddDate 1 0 0 := by
  simp [ActivityFilter.End, h, TimespanDay, TimespanCustom, TimespanWeek, TimespanMonth,
    TimespanQuarter, TimespanYear]

/-- For the calendar timespans `End` is a function of the timespan and the
start alone. -/
theorem End_congr (f g : ActivityFilter) (ht : g.Timespan = f.Timespan)
    (hs : g.start = f.start) (hc : isCalendarTimespan f.Timespan) : g.End = f.End := by
  rcases hc with h | h | h | h | h
  · rw [End_day f h, End_day g (ht.trans h), hs]
  · rw [End_week f h, End_week g (ht.trans h), hs]
  · rw [End_month f h, End_month g (ht.trans h), hs]
  · rw [End_quarter f h, End_quarter g (ht.trans h), hs]
  · rw [End_year f h, End_year g (ht.trans h), hs]

theorem Next_Timespan (f : ActivityFilter) : f.Next.Timespan = f.Timespan := by
  unfold ActivityFilter.Next
  simp only []
  split_ifs <;> rfl

theorem Previous_Timespan (f : ActivityFilter) : f.Previous.Timespan = f.Timespan := by
  unfold ActivityFilter.Previous
  simp only []
  split_ifs <;> rfl

theorem Next_start (f : ActivityFilter) :
    (f.Timespan = TimespanDay → f.Next.start = f.start.AddDate 0 0 1) ∧
    (f.Timespan = TimespanWeek → f.Next.start = f.start.AddDate 0 0 7) ∧
    (f.Timespan = TimespanMonth → f.Next.start = f.start.AddDate 0 1 0) ∧
    (f.Timespan = TimespanQuarter → f.Next.start = f.start.AddDate 0 3 0) ∧
    (f.Timespan = TimespanYear → f.Next.start = f.start.AddDate 1 0 0) := by
  refine ⟨?_, ?_, ?_, ?_, ?_⟩ <;> intro h <;>
    simp [ActivityFilter.Next, h, TimespanDay, TimespanWeek, TimespanMonth, TimespanQuarter,
      TimespanYear]

theorem Previous_start (f : ActivityFilter) :
    (f.Timespan = TimespanDay → f.Previous.start = f.start.AddDate 0 0 (-1)) ∧
    (f.Timespan = TimespanWeek → f.Previous.start = f.start.AddDate 0 0 (-7)) ∧
    (f.Timespan = TimespanMonth → f.Previous.start = f.start.AddDate 0 (-1) 0) ∧
    (f.Timespan = TimespanQuarter → f.Previous.start = f.start.AddDate 0 (-3) 0) ∧
    (f.Timespan = TimespanYear → f.Previous.start = f.start.AddDate (-1) 0 0) := by
  refine ⟨?_, ?_, ?_, ?_, ?_⟩ <;> intro h <;>
    simp [ActivityFilter.Previous, h, TimespanDay, TimespanWeek, TimespanMonth,
      TimespanQuarter, TimespanYear]

/-- C1: for a filter of timespan day, week, month, quarter or year, `End()`
lies a whole number of days after `Start()`: 1 for day, 7 for week, the
length of the calendar month of `Start()` (28 to 31) for month, the lengths of
that month and of the two following months (89 to 92) for quarter, and 365 or
366 for year. -/
theorem End_sub_Start_days (f : ActivityFilter) :
    (f.Timespan = TimespanDay → f.End.ns - f.Start.ns = 1 * nsPerDay) ∧
    (f.Timespan = TimespanWeek → f.End.ns - f.Start.ns = 7 * nsPerDay) ∧
    (f.Timespan = TimespanMonth →
      f.End.ns - f.Start.ns = daysIn f.Start.Month f.Start.Year * nsPerDay ∧
        28 ≤ daysIn f.Start.Month f.Start.Year ∧ daysIn f.Start.Month f.Start.Year ≤ 31) ∧
    (f.Timespan = TimespanQuarter →
      f.End.ns - f.Start.ns = daysInQuarter f.Start.Month f.Start.Year * nsPerDay ∧
        89 ≤ daysInQuarter f.Start.Month f.Start.Year ∧
        daysInQuarter f.Start.Month f.Start.Year ≤ 92) ∧
    (f.Timespan = TimespanYear →
      f.End.ns - f.Start.ns = 365 * nsPerDay ∨ f.End.ns - f.Start.ns = 366 * nsPerDay) := by
  obtain ⟨m1, m2⟩ := f.start.Month_range
  simp only [ActivityFilter.Start]
  refine ⟨?_, ?_, ?_, ?_, ?_⟩ <;> intro h
  · rw [End_day f h, Time.AddDate_days]
    ring
  · rw [End_week f h, Time.AddDate_days]
    ring
  · refine ⟨?_, daysIn_range _ _ m1 m2⟩
    rw [End_month f h, Time.AddDate_month]
    ring
  · refine ⟨?_, quarter_range _ _ m1 m2⟩
    rw [End_quarter f h, Time.AddDate_quarter]
    unfold daysInQuarter
    ring
  · rw [End_year f h, Time.AddDate_year]
    split_ifs <;> first | (left; ring; done) | (right; ring; done)

/-- C1, at the month filter that starts on 2024-02-10T08:30:00Z: 29 days. -/
theorem End_sub_Start_days_witness :
    (⟨TimespanMonth, "", "", Date 2024 2 10 8 30 0 0, zeroTime⟩ : ActivityFilter).End.ns -
        (⟨TimespanMonth, "", "", Date 2024 2 10 8 30 0 0, zeroTime⟩ : ActivityFilter).Start.ns =
      29 * nsPerDay :=
  ((End_sub_Start_days ⟨TimespanMonth, "", "", Date 2024 2 10 8 30 0 0, zeroTime⟩).2.2.1
    (by decide)).1.trans (by decide)

/-- Stepping by years and months and back restores the start and the end of
a calendar filter exactly when the step keeps the day of the month. -/
theorem Next_Previous_ym (f : ActivityFilter) (a b a1 b1 : Int) (ha : a1 = -a) (hb : b1 = -b)
    (hc : isCalendarTimespan f.Timespan)
    (hn : f.Next.start = f.start.AddDate a b 0) (hp : f.Previous.start = f.start.AddDate a1 b1 0)
    (hnp : f.Next.Previous.start = f.Next.start.AddDate a1 b1 0)
    (hpn : f.Previous.Next.start = f.Previous.start.AddDate a b 0) :
    ((f.Next.Previous.Start = f.Start ∧ f.Next.Previous.End = f.End) ↔
      f.Next.Start.Day = f.Start.Day) ∧
    ((f.Previous.Next.Start = f.Start ∧ f.Previous.Next.End = f.End) ↔
      f.Previous.Start.Day = f.Start.Day) ∧
    (f.Start.Day ≤ 28 →
      f.Next.Start.Day = f.Start.Day ∧ f.Previous.Start.Day = f.Start.Day) := by
  have hend1 : f.Next.Previous.start = f.start → f.Next.Previous.End = f.End := fun hs =>
    End_congr f _ ((Previous_Timespan _).trans (Next_Timespan _)) hs hc
  have hend2 : f.Previous.Next.start = f.start → f.Previous.Next.End = f.End := fun hs =>
    End_congr f _ ((Next_Timespan _).trans (Previous_Timespan _)) hs hc
  have i1 := f.start.AddDate_ym_inv_iff a b a1 b1 ha hb
  have i2 := f.start.AddDate_ym_inv_iff a1 b1 a b (by omega) (by omega)
  rw [← hn] at i1
  rw [← hnp] at i1
  rw [← hp] at i2
  rw [← hpn] at i2
  have s1 : f.start.Day ≤ 28 → f.Next.start.Day = f.start.Day := by
    intro hd
    rw [hn]
    show (f.start.AddDate a b 0).Date.2.2 = _
    rw [f.start.AddDate_Date a b hd]
  have s2 : f.start.Day ≤ 28 → f.Previous.start.Day = f.start.Day := by
    intro hd
    rw [hp]
    show (f.start.AddDate a1 b1 0).Date.2.2 = _
    rw [f.start.AddDate_Date a1 b1 hd]
  exact ⟨⟨fun h => i1.1 h.1, fun h => ⟨i1.2 h, hend1 (i1.2 h)⟩⟩,
    ⟨fun h => i2.1 h.1, fun h => ⟨i2.2 h, hend2 (i2.2 h)⟩⟩,
    fun hd => ⟨s1 hd, s2 hd⟩⟩

/-- Stepping by days and back restores the start and the end of a calendar
filter. -/
theorem Next_Previous_days (f : ActivityFilter) (c c1 : Int) (hc1 : c1 = -c)
    (hc : isCalendarTimespan f.Timespan)
    (hn : f.Next.start = f.start.AddDate 0 0 c) (hp : f.Previous.start = f.start.AddDate 0 0 c1)
    (hnp : f.Next.Previous.start = f.Next.start.AddDate 0 0 c1)
    (hpn : f.Previous.Next.start = f.Previous.start.AddDate 0 0 c) :
    f.Next.Previous.Start = f.Start ∧ f.Next.Previous.End = f.End ∧
      f.Previous.Next.Start = f.Start ∧ f.Previous.Next.End = f.End := by
  have k1 : f.Next.Previous.start = f.start := by
    rw [hnp, hn]
    exact Time.AddDate_days_inv _ _ _ hc1
  have k2 : f.Previous.Next.start = f.start := by
    rw [hpn, hp]
    exact Time.AddDate_days_inv _ _ _ (by omega)
  exact ⟨k1, End_congr f _ ((Previous_Timespan _).trans (Next_Timespan _)) k1 hc, k2,
    End_congr f _ ((Next_Timespan _).trans (Previous_Timespan _)) k2 hc⟩

/-- A step of a calendar filter keeps the day of the month exactly when that
day exists in the month stepped to. -/
theorem Next_Previous_Day_iff (f : ActivityFilter) (a b a1 b1 : Int)
    (hn : f.Next.start = f.start.AddDate a b 0) (hp : f.Previous.start = f.start.AddDate a1 b1 0) :
    (f.Next.Start.Day = f.Start.Day ↔ f.Start.Day ≤ daysInMonthAfter f.Start a b) ∧
      (f.Previous.Start.Day = f.Start.Day ↔ f.Start.Day ≤ daysInMonthAfter f.Start a1 b1) := by
  have i1 := f.start.AddDate_Day_iff a b
  have i2 := f.start.AddDate_Day_iff a1 b1
  rw [← hn] at i1
  rw [← hp] at i2
  exact ⟨i1, i2⟩

/-- C2, as stated, fails for month, quarter and year filters.  With `Next()`
then `Previous()` the month filter that starts on 2024-01-31 comes back on
2024-02-02 (by way of 2024-03-02), the quarter filter that starts on
2023-11-30 on 2023-12-01 (by way of 2024-03-01), and the year filter that
starts on 2024-02-29 on 2024-03-01 (by way of 2025-03-01); with `Previous()`
then `Next()` the month filter that starts on 2024-03-31 comes back on
2024-04-02 (by way of 2024-03-02). -/
theorem Next_Previous_counterexample :
    ((⟨TimespanMonth, "", "", Date 2024 1 31 0 0 0 0, zeroTime⟩ :
        ActivityFilter).Next.Previous.Start = Date 2024 2 2 0 0 0 0 ∧
      (⟨TimespanMonth, "", "", Date 2024 1 31 0 0 0 0, zeroTime⟩ : ActivityFilter).Start =
        Date 2024 1 31 0 0 0 0 ∧ Date 2024 2 2 0 0 0 0 ≠ Date 2024 1 31 0 0 0 0) ∧
    ((⟨TimespanQuarter, "", "", Date 2023 11 30 0 0 0 0, zeroTime⟩ :
        ActivityFilter).Next.Previous.Start = Date 2023 12 1 0 0 0 0 ∧
      (⟨TimespanQuarter, "", "", Date 2023 11 30 0 0 0 0, zeroTime⟩ : ActivityFilter).Start =
        Date 2023 11 30 0 0 0 0 ∧ Date 2023 12 1 0 0 0 0 ≠ Date 2023 11 30 0 0 0 0) ∧
    ((⟨TimespanYear, "", "", Date 2024 2 29 0 0 0 0, zeroTime⟩ :
        ActivityFilter).Next.Previous.Start = Date 2024 3 1 0 0 0 0 ∧
      (⟨TimespanYear, "", "", Date 2024 2 29 0 0 0 0, zeroTime⟩ : ActivityFilter).Start =
        Date 2024 2 29 0 0 0 0 ∧ Date 2024 3 1 0 0 0 0 ≠ Date 2024 2 29 0 0 0 0) ∧
    ((⟨TimespanMonth, "", "", Date 2024 3 31 0 0 0 0, zeroTime⟩ :
        ActivityFilter).Previous.Next.Start = Date 2024 4 2 0 0 0 0 ∧
      (⟨TimespanMonth, "", "", Date 2024 3 31 0 0 0 0, zeroTime⟩ : ActivityFilter).Start =
        Date 2024 3 31 0 0 0 0 ∧ Date 2024 4 2 0 0 0 0 ≠ Date 2024 3 31 0 0 0 0) := by
  decide

/-- C2 (amended), in UTC: `Next()` then `Previous()`, and `Previous()` then
`Next()`, restore `Start()` and `End()` of every day and week filter.  For a
month, quarter or year filter `Next()` then `Previous()` restores them exactly
when `Next()` keeps the day of the month of `Start()`, and `Previous()` then
`Next()` exactly when `Previous()` keeps it; a step keeps the day of the month
exactly when that day exists in the month stepped to (one month, three months
or one year away), which is so whenever the day is not after the 28th. -/
theorem Next_Previous_restore (f : ActivityFilter) :
    ((f.Timespan = TimespanDay ∨ f.Timespan = TimespanWeek) →
      f.Next.Previous.Start = f.Start ∧ f.Next.Previous.End = f.End ∧
        f.Previous.Next.Start = f.Start ∧ f.Previous.Next.End = f.End) ∧
    ((f.Timespan = TimespanMonth ∨ f.Timespan = TimespanQuarter ∨
        f.Timespan = TimespanYear) →
      ((f.Next.Previous.Start = f.Start ∧ f.Next.Previous.End = f.End) ↔
        f.Next.Start.Day = f.Start.Day) ∧
      ((f.Previous.Next.Start = f.Start ∧ f.Previous.Next.End = f.End) ↔
        f.Previous.Start.Day = f.Start.Day) ∧
      (f.Start.Day ≤ 28 → f.Next.Start.Day = f.Start.Day ∧ f.Previous.Start.Day = f.Start.Day)) ∧
    (f.Timespan = TimespanMonth →
      (f.Next.Start.Day = f.Start.Day ↔ f.Start.Day ≤ daysInMonthAfter f.Start 0 1) ∧
      (f.Previous.Start.Day = f.Start.Day ↔ f.Start.Day ≤ daysInMonthAfter f.Start 0 (-1))) ∧
    (f.Timespan = TimespanQuarter →
      (f.Next.Start.Day = f.Start.Day ↔ f.Start.Day ≤ daysInMonthAfter f.Start 0 3) ∧
      (f.Previous.Start.Day = f.Start.Day ↔ f.Start.Day ≤ daysInMonthAfter f.Start 0 (-3))) ∧
    (f.Timespan = TimespanYear →
      (f.Next.Start.Day = f.Start.Day ↔ f.Start.Day ≤ daysInMonthAfter f.Start 1 0) ∧
      (f.Previous.Start.Day = f.Start.Day ↔ f.Start.Day ≤ daysInMonthAfter f.Start (-1) 0)) := by
  obtain ⟨n1, n2, n3, n4, n5⟩ := Next_start f
  obtain ⟨p1, p2, p3, p4, p5⟩ := Previous_start f
  obtain ⟨q1, q2, q3, q4, q5⟩ := Previous_start f.Next
  obtain ⟨r1, r2, r3, r4, r5⟩ := Next_start f.Previous
  rw [Next_Timespan] at q1 q2 q3 q4 q5
  rw [Previous_Timespan] at r1 r2 r3 r4 r5
  refine ⟨?_, ?_, ?_, ?_, ?_⟩
  · intro h
    rcases h with h | h
    · exact Next_Previous_days f 1 (-1) rfl (Or.inl h) (n1 h) (p1 h) (q1 h) (r1 h)
    · exact Next_Previous_days f 7 (-7) rfl (Or.inr (Or.inl h)) (n2 h) (p2 h) (q2 h) (r2 h)
  · intro h
    rcases h with h | h | h
    · exact Next_Previous_ym f 0 1 0 (-1) rfl rfl (Or.inr (Or.inr (Or.inl h)))
        (n3 h) (p3 h) (q3 h) (r3 h)
    · exact Next_Previous_ym f 0 3 0 (-3) rfl rfl (Or.inr (Or.inr (Or.inr (Or.inl h))))
        (n4 h) (p4 h) (q4 h) (r4 h)
    · exact Next_Previous_ym f 1 0 (-1) 0 rfl rfl (Or.inr (Or.inr (Or.inr (Or.inr h))))
        (n5 h) (p5 h) (q5 h) (r5 h)
  · intro h
    exact Next_Previous_Day_iff f 0 1 0 (-1) (n3 h) (p3 h)
  · intro h
    exact Next_Previous_Day_iff f 0 3 0 (-3) (n4 h) (p4 h)
  · intro h
    exact Next_Previous_Day_iff f 1 0 (-1) 0 (n5 h) (p5 h)

/-- C2 (amended), at the month filter that starts on 2024-01-31: December has
a 31st, so `Previous()` then `Next()` restores the start and the end. -/
theorem Next_Previous_restore_witness :
    (⟨TimespanMonth, "", "", Date 2024 1 31 0 0 0 0, zeroTime⟩ :
        ActivityFilter).Previous.Next.Start =
      (⟨TimespanMonth, "", "", Date 2024 1 31 0 0 0 0, zeroTime⟩ : ActivityFilter).Start ∧
    (⟨TimespanMonth, "", "", Date 2024 1 31 0 0 0 0, zeroTime⟩ :
        ActivityFilter).Previous.Next.End =
      (⟨TimespanMonth, "", "", Date 2024 1 31 0 0 0 0, zeroTime⟩ : ActivityFilter).End :=
  ((Next_Previous_restore ⟨TimespanMonth, "", "", Date 2024 1 31 0 0 0 0, zeroTime⟩).2.1
    (Or.inl rfl)).2.1.2 (by decide)

/-! ## Durations -/

/-- Go's truncated division by a positive number, in terms of floor
division. -/
theorem tdiv_tmod_spec (a b : Int) (hb : 0 < b) :
    (0 ≤ a → a.tdiv b = a / b ∧ a.tmod b = a % b) ∧
      (a ≤ 0 → a.tdiv b = -((-a) / b) ∧ a.tmod b = -((-a) % b)) := by
  constructor
  · intro ha
    exact ⟨Int.tdiv_eq_ediv ha hb.le, Int.tmod_eq_emod ha hb.le⟩
  · intro ha
    have h1 : a.tdiv b = -((-a) / b) := by
      have := Int.neg_tdiv (-a) b
      rw [neg_neg] at this
      rw [this, Int.tdiv_eq_ediv (by omega) hb.le]
    refine ⟨h1, ?_⟩
    have h2 := Int.tdiv_add_tmod a b
    have h3 := Int.emod_add_ediv (-a) b
    rw [h1] at h2
    have h4 : b * -(-a / b) = -(b * (-a / b)) := by ring
    rw [h4] at h2
    omega

/-- `int(x)` of an integer-valued quotient: truncation of the division. -/
theorem floatToInt_div (d : Int) (n : Nat) (hn : 0 < n) :
    floatToInt ((d : ℚ) / (n : ℚ)) = d.tdiv n := by
  have hn' : (0 : ℚ) < n := by exact_mod_cast hn
  have hb : (0 : Int) < n := by exact_mod_cast hn
  obtain ⟨hp, hq⟩ := tdiv_tmod_spec d n hb
  unfold floatToInt
  by_cases h : 0 ≤ d
  · have hx : (0 : ℚ) ≤ (d : ℚ) / n := div_nonneg (by exact_mod_cast h) hn'.le
    rw [if_pos hx, (hp h).1]
    exact Rat.floor_intCast_div_natCast d n
  · have hd : d < 0 := by omega
    have hx : ¬ (0 : ℚ) ≤ (d : ℚ) / n := by
      rw [not_le]
      exact div_neg_of_neg_of_pos (by exact_mod_cast hd) hn'
    rw [if_neg hx, (hq hd.le).1]
    have e : (d : ℚ) / n = -(((-d : Int) : ℚ) / n) := by
      push_cast
      ring
    rw [e, Int.ceil_neg, Rat.floor_intCast_div_natCast]

/-- `Duration.Minutes` is the exact quotient of the nanosecond count. -/
theorem Duration_Minutes_eq (d : Duration) :
    d.Minutes = (d.d : ℚ) / ((60000000000 : Nat) : ℚ) := by
  unfold Duration.Minutes Minute Second
  have h := Int.tdiv_add_tmod d.d (60 * 1000000000)
  have hq : (d.d : ℚ) = 60000000000 * ((d.d.tdiv (60 * 1000000000) : Int) : ℚ) +
      ((d.d.tmod (60 * 1000000000) : Int) : ℚ) := by
    have : ((60 * 1000000000 * d.d.tdiv (60 * 1000000000) + d.d.tmod (60 * 1000000000) : Int) : ℚ)
        = (d.d : ℚ) := by rw [h]
    rw [← this]
    push_cast
    ring
  simp only []
  rw [hq]
  push_cast
  field_simp
  ring

theorem DurationMinutesTotal_eq (a : Activity) :
    a.DurationMinutesTotal = a.duration.d.tdiv 60000000000 := by
  unfold Activity.DurationMinutesTotal
  rw [Duration_Minutes_eq, floatToInt_div _ _ (by norm_num)]
  rfl

/-- Within the range of `Duration`, `Sub` is the exact difference. -/
theorem duration_exact (a : Activity) (h1 : minDuration ≤ a.End.ns - a.Start.ns)
    (h2 : a.End.ns - a.Start.ns ≤ maxDuration) : a.duration.d = a.End.ns - a.Start.ns := by
  unfold Activity.duration Time.Sub
  have c1 : ¬ (a.End.ns - a.Start.ns < minDuration) := by omega
  have c2 : ¬ (a.End.ns - a.Start.ns > maxDuration) := by omega
  simp [c1, c2]

theorem duration_sign (a : Activity) :
    (a.Start.ns ≤ a.End.ns → 0 ≤ a.duration.d) ∧ (a.End.ns ≤ a.Start.ns → a.duration.d ≤ 0) := by
  unfold Activity.duration Time.Sub minDuration maxDuration
  simp only []
  constructor <;> intro h <;> split_ifs <;> simp only [] <;> omega

/-! ## `float64` rounding -/

theorem roundHalfEven_floor_le (q : ℚ) : ⌊q⌋ ≤ roundHalfEven q := by
  unfold roundHalfEven
  simp only []
  split_ifs <;> omega

theorem roundHalfEven_le_floor (q : ℚ) : roundHalfEven q ≤ ⌊q⌋ + 1 := by
  unfold roundHalfEven
  simp only []
  split_ifs <;> omega

theorem roundHalfEven_ge (q : ℚ) (k : Int) (h : (k : ℚ) ≤ q) : k ≤ roundHalfEven q :=
  le_trans (Int.le_floor.2 h) (roundHalfEven_floor_le q)

theorem roundHalfEven_le_of_lt (q : ℚ) (k : Int) (h : q < k + 1 / 2) :
    roundHalfEven q ≤ k := by
  have h1 : (⌊q⌋ : ℚ) ≤ q := Int.floor_le q
  have h2 : ((⌊q⌋ : Int) : ℚ) < ((k + 1 : Int) : ℚ) := by
    push_cast
    linarith
  have h3 : ⌊q⌋ < k + 1 := by exact_mod_cast h2
  by_cases hk : ⌊q⌋ = k
  · unfold roundHalfEven
    simp only []
    rw [if_pos (by rw [hk]; linarith)]
    omega
  · have := roundHalfEven_le_floor q
    omega

theorem roundHalfEven_ge_of_gt (q : ℚ) (k : Int) (h : (k : ℚ) - 1 / 2 < q) :
    k ≤ roundHalfEven q := by
  have h1 : q < (⌊q⌋ : ℚ) + 1 := Int.lt_floor_add_one q
  have h2 : ((k : Int) : ℚ) < ((⌊q⌋ + 2 : Int) : ℚ) := by
    push_cast
    linarith
  have h3 : k < ⌊q⌋ + 2 := by exact_mod_cast h2
  by_cases hk : ⌊q⌋ + 1 = k
  · unfold roundHalfEven
    simp only []
    have e : (k : ℚ) = (⌊q⌋ : ℚ) + 1 := by
      rw [← hk]
      push_cast
      ring
    rw [if_neg (by rw [e] at h; linarith), if_pos (by rw [e] at h; linarith)]
    omega
  · have := roundHalfEven_floor_le q
    omega

theorem roundHalfEven_le (q : ℚ) (k : Int) (h : q ≤ k) : roundHalfEven q ≤ k := by
  rcases eq_or_lt_of_le h with h1 | h1
  · subst h1
    unfold roundHalfEven
    simp
  · exact roundHalfEven_le_of_lt q k (by linarith)

theorem ulp_pos (x : ℚ) : 0 < ulp x := zpow_pos (by norm_num) _

/-- The unit in the last place is at most `2 ^ j` below `2 ^ (j + 53)`. -/
theorem ulp_le (x : ℚ) (j : Int) (hx : x ≠ 0) (h : |x| < 2 ^ (j + 53)) : ulp x ≤ 2 ^ j := by
  have h0 : (0 : ℚ) < |x| := abs_pos.2 hx
  have h1 : Int.log 2 |x| < j + 53 := by
    apply (Int.lt_zpow_iff_log_lt (by norm_num) h0).1
    simpa using h
  unfold ulp
  exact zpow_le_zpow_right₀ (by norm_num) (by omega)

/-- The unit in the last place is at least `2 ^ j` from `2 ^ (j + 52)` on. -/
theorem le_ulp (x : ℚ) (j : Int) (h : 2 ^ (j + 52) ≤ |x|) : 2 ^ j ≤ ulp x := by
  have h0 : (0 : ℚ) < |x| := lt_of_lt_of_le (zpow_pos (by norm_num) _) h
  have h1 : j + 52 ≤ Int.log 2 |x| := by
    apply (Int.zpow_le_iff_le_log (by norm_num) h0).1
    simpa using h
  unfold ulp
  exact zpow_le_zpow_right₀ (by norm_num) (by omega)

/-- Below `2 ^ (j + 53)` the multiples of `2 ^ j` are multiples of the unit in
the last place. -/
theorem onGrid_of (x : ℚ) (j : Int) (hx : x ≠ 0) (h : |x| < 2 ^ (j + 53)) (m : Int) :
    onGrid x (m * 2 ^ j) := by
  have h0 : (0 : ℚ) < |x| := abs_pos.2 hx
  have h1 : Int.log 2 |x| < j + 53 := by
    apply (Int.lt_zpow_iff_log_lt (by norm_num) h0).1
    simpa using h
  obtain ⟨n, hn⟩ : ∃ n : ℕ, j = (Int.log 2 |x| - 52) + n :=
    ⟨(j - (Int.log 2 |x| - 52)).toNat, by omega⟩
  refine ⟨m * 2 ^ n, ?_⟩
  unfold ulp
  rw [hn, zpow_add₀ (by norm_num), zpow_natCast]
  push_cast
  ring

theorem roundFloat64_ge (x g : ℚ) (hg : onGrid x g) (h : g ≤ x) (hx : x ≠ 0) :
    g ≤ roundFloat64 x := by
  obtain ⟨K, hK⟩ := hg
  have hu := ulp_pos x
  unfold roundFloat64
  rw [if_neg hx, hK]
  apply mul_le_mul_of_nonneg_right _ hu.le
  have : (K : ℚ) ≤ x / ulp x := by
    rw [le_div_iff₀ hu, ← hK]
    exact h
  exact_mod_cast roundHalfEven_ge _ K this

theorem roundFloat64_le (x g : ℚ) (hg : onGrid x g) (h : x ≤ g) (hx : x ≠ 0) :
    roundFloat64 x ≤ g := by
  obtain ⟨K, hK⟩ := hg
  have hu := ulp_pos x
  unfold roundFloat64
  rw [if_neg hx, hK]
  apply mul_le_mul_of_nonneg_right _ hu.le
  have : x / ulp x ≤ (K : ℚ) := by
    rw [div_le_iff₀ hu, ← hK]
    exact h
  exact_mod_cast roundHalfEven_le _ K this

/-- A number on the grid is not changed by the rounding. -/
theorem roundFloat64_eq (x : ℚ) (hg : onGrid x x) : roundFloat64 x = x := by
  by_cases hx : x = 0
  · rw [hx]
    simp [roundFloat64]
  · exact le_antisymm (roundFloat64_le x x hg le_rfl hx) (roundFloat64_ge x x hg le_rfl hx)

/-- An integer below `2 ^ 53` in absolute value is not changed by the
rounding. -/
theorem roundFloat64_int (n : Int) (h : |n| < 2 ^ 53) : roundFloat64 (n : ℚ) = n := by
  by_cases hn : n = 0
  · rw [hn]
    simp [roundFloat64]
  · apply roundFloat64_eq
    have h2 : ((|n| : Int) : ℚ) < ((2 ^ 53 : Int) : ℚ) := by exact_mod_cast h
    rw [Int.cast_abs] at h2
    have := onGrid_of (n : ℚ) 0 (by exact_mod_cast hn) (by
      rw [zero_add]
      norm_num at h2 ⊢
      exact h2) n
    simpa using this

/-- Below the midpoint under a grid number the rounding stays below that
number. -/
theorem roundFloat64_lt_of_lt_mid (x g : ℚ) (j : Int) (hx : x ≠ 0) (hg : onGrid x g)
    (hj : |x| < 2 ^ (j + 53)) (h : x < g - 2 ^ j / 2) : roundFloat64 x < g := by
  have hu := ulp_pos x
  have hle := ulp_le x j hx hj
  obtain ⟨K, hK⟩ := hg
  have h1 : roundFloat64 x ≤ g - ulp x := by
    unfold roundFloat64
    rw [if_neg hx]
    have e : g - ulp x = ((K - 1 : Int) : ℚ) * ulp x := by
      rw [hK]
      push_cast
      ring
    rw [e]
    apply mul_le_mul_of_nonneg_right _ hu.le
    have : x / ulp x < ((K - 1 : Int) : ℚ) + 1 / 2 := by
      rw [div_lt_iff₀ hu]
      push_cast
      nlinarith
    exact_mod_cast roundHalfEven_le_of_lt _ (K - 1) this
  linarith

/-- Above the midpoint over a grid number the rounding stays above that
number. -/
theorem roundFloat64_gt_of_gt_mid (x g : ℚ) (j : Int) (hx : x ≠ 0) (hg : onGrid x g)
    (hj : |x| < 2 ^ (j + 53)) (h : g + 2 ^ j / 2 < x) : g < roundFloat64 x := by
  have hu := ulp_pos x
  have hle := ulp_le x j hx hj
  obtain ⟨K, hK⟩ := hg
  have h1 : g + ulp x ≤ roundFloat64 x := by
    unfold roundFloat64
    rw [if_neg hx]
    have e : g + ulp x = ((K + 1 : Int) : ℚ) * ulp x := by
      rw [hK]
      push_cast
      ring
    rw [e]
    apply mul_le_mul_of_nonneg_right _ hu.le
    have : ((K + 1 : Int) : ℚ) - 1 / 2 < x / ulp x := by
      rw [lt_div_iff₀ hu]
      push_cast
      nlinarith
    exact_mod_cast roundHalfEven_ge_of_gt _ (K + 1) this
  linarith

/-- Within half a unit in the last place under a grid number the rounding
reaches that number. -/
theorem roundFloat64_ge_of_gt_mid (x g : ℚ) (j : Int) (hx : x ≠ 0) (hg : onGrid x g)
    (hj : 2 ^ (j + 52) ≤ |x|) (h : g - 2 ^ j / 2 < x) : g ≤ roundFloat64 x := by
  have hu := ulp_pos x
  have hle := le_ulp x j hj
  obtain ⟨K, hK⟩ := hg
  unfold roundFloat64
  rw [if_neg hx, hK]
  apply mul_le_mul_of_nonneg_right _ hu.le
  have : ((K : Int) : ℚ) - 1 / 2 < x / ulp x := by
    rw [lt_div_iff₀ hu]
    nlinarith
  exact_mod_cast roundHalfEven_ge_of_gt _ K this

/-- Within half a unit in the last place over a grid number the rounding
reaches that number. -/
theorem roundFloat64_le_of_lt_mid (x g : ℚ) (j : Int) (hx : x ≠ 0) (hg : onGrid x g)
    (hj : 2 ^ (j + 52) ≤ |x|) (h : x < g + 2 ^ j / 2) : roundFloat64 x ≤ g := by
  have hu := ulp_pos x
  have hle := le_ulp x j hj
  obtain ⟨K, hK⟩ := hg
  unfold roundFloat64
  rw [if_neg hx, hK]
  apply mul_le_mul_of_nonneg_right _ hu.le
  have : x / ulp x < ((K : Int) : ℚ) + 1 / 2 := by
    rw [div_lt_iff₀ hu]
    nlinarith
  exact_mod_cast roundHalfEven_le_of_lt _ K this


/-! Forms that need no case distinction on zero: the grid number is given as
a multiple `m * 2 ^ j` and the magnitude of `x` by a bound. -/

theorem roundFloat64_zero : roundFloat64 0 = 0 := by
  simp [roundFloat64]

theorem roundFloat64_ge_grid (x : ℚ) (m j : Int) (hj : |x| < 2 ^ (j + 53))
    (h : (m : ℚ) * 2 ^ j ≤ x) : (m : ℚ) * 2 ^ j ≤ roundFloat64 x := by
  by_cases hx : x = 0
  · rw [hx, roundFloat64_zero]
    rw [hx] at h
    exact h
  · exact roundFloat64_ge x _ (onGrid_of x j hx hj m) h hx

theorem roundFloat64_le_grid (x : ℚ) (m j : Int) (hj : |x| < 2 ^ (j + 53))
    (h : x ≤ (m : ℚ) * 2 ^ j) : roundFloat64 x ≤ (m : ℚ) * 2 ^ j := by
  by_cases hx : x = 0
  · rw [hx, roundFloat64_zero]
    rw [hx] at h
    exact h
  · exact roundFloat64_le x _ (onGrid_of x j hx hj m) h hx

theorem roundFloat64_lt_mid (x : ℚ) (m j : Int) (hj : |x| < 2 ^ (j + 53))
    (h : x < (m : ℚ) * 2 ^ j - 2 ^ j / 2) : roundFloat64 x < (m : ℚ) * 2 ^ j := by
  have hp : (0 : ℚ) < 2 ^ j := zpow_pos (by norm_num) _
  by_cases hx : x = 0
  · rw [hx, roundFloat64_zero]
    rw [hx] at h
    linarith
  · exact roundFloat64_lt_of_lt_mid x _ j hx (onGrid_of x j hx hj m) hj h

theorem roundFloat64_gt_mid (x : ℚ) (m j : Int) (hj : |x| < 2 ^ (j + 53))
    (h : (m : ℚ) * 2 ^ j + 2 ^ j / 2 < x) : (m : ℚ) * 2 ^ j < roundFloat64 x := by
  have hp : (0 : ℚ) < 2 ^ j := zpow_pos (by norm_num) _
  by_cases hx : x = 0
  · rw [hx, roundFloat64_zero]
    rw [hx] at h
    linarith
  · exact roundFloat64_gt_of_gt_mid x _ j hx (onGrid_of x j hx hj m) hj h

theorem roundFloat64_ge_mid (x : ℚ) (m j : Int) (hj1 : 2 ^ (j + 52) ≤ |x|)
    (hj2 : |x| < 2 ^ (j + 53)) (h : (m : ℚ) * 2 ^ j - 2 ^ j / 2 < x) :
    (m : ℚ) * 2 ^ j ≤ roundFloat64 x := by
  have hx : x ≠ 0 := by
    intro h0
    rw [h0, abs_zero] at hj1
    have hp : (0 : ℚ) < 2 ^ (j + 52) := zpow_pos (by norm_num) _
    linarith
  exact roundFloat64_ge_of_gt_mid x _ j hx (onGrid_of x j hx hj2 m) hj1 h

theorem roundFloat64_le_mid (x : ℚ) (m j : Int) (hj1 : 2 ^ (j + 52) ≤ |x|)
    (hj2 : |x| < 2 ^ (j + 53)) (h : x < (m : ℚ) * 2 ^ j + 2 ^ j / 2) :
    roundFloat64 x ≤ (m : ℚ) * 2 ^ j := by
  have hx : x ≠ 0 := by
    intro h0
    rw [h0, abs_zero] at hj1
    have hp : (0 : ℚ) < 2 ^ (j + 52) := zpow_pos (by norm_num) _
    linarith
  exact roundFloat64_le_of_lt_mid x _ j hx (onGrid_of x j hx hj2 m) hj1 h

/-- Rounding keeps a number between the integers that enclose it, when these
are below `2 ^ 53` in absolute value. -/
theorem roundFloat64_int_bounds (x : ℚ) (a b : Int) (hx : |x| < 2 ^ 53) (ha : (a : ℚ) ≤ x)
    (hb : x ≤ b) : (a : ℚ) ≤ roundFloat64 x ∧ roundFloat64 x ≤ b := by
  have hj : |x| < (2 : ℚ) ^ ((0 : Int) + 53) := by
    norm_num
    exact hx
  have h1 := roundFloat64_ge_grid x a 0 hj (by simpa using ha)
  have h2 := roundFloat64_le_grid x b 0 hj (by simpa using hb)
  simp only [zpow_zero, mul_one] at h1 h2
  exact ⟨h1, h2⟩

/-- The rounding of `x` is the multiple of the unit in the last place that
lies less than half a unit from `x`. -/
theorem roundFloat64_eval (x : ℚ) (m j : Int) (hj1 : 2 ^ (j + 52) ≤ |x|)
    (hj2 : |x| < 2 ^ (j + 53)) (h1 : (m : ℚ) * 2 ^ j - 2 ^ j / 2 < x)
    (h2 : x < (m : ℚ) * 2 ^ j + 2 ^ j / 2) : roundFloat64 x = (m : ℚ) * 2 ^ j :=
  le_antisymm (roundFloat64_le_mid x m j hj1 hj2 h2) (roundFloat64_ge_mid x m j hj1 hj2 h1)

/-- The float64 sum of a whole part and a rounded fraction of the unit `M`. -/
theorem splitFloat64_nonneg (q r M : Int) (hM : 17 * M ≤ 2 ^ 40) (hq0 : 0 ≤ q)
    (hq : q < 2 ^ 52) (hr0 : 0 ≤ r) (hr : r < M) :
    ((q : ℚ) ≤ roundFloat64 (roundFloat64 (q : ℚ) + roundFloat64 (roundFloat64 (r : ℚ) / M)) ∧
      roundFloat64 (roundFloat64 (q : ℚ) + roundFloat64 (roundFloat64 (r : ℚ) / M)) ≤ q + 1) ∧
    (q < 2 ^ 18 →
      roundFloat64 (roundFloat64 (q : ℚ) + roundFloat64 (roundFloat64 (r : ℚ) / M)) < q + 1) := by
  have hMpos : (0 : ℚ) < M := by exact_mod_cast (by omega : (0 : Int) < M)
  have hMq : (17 : ℚ) * M ≤ 2 ^ 40 := by exact_mod_cast hM
  have hrq0 : (0 : ℚ) ≤ r := by exact_mod_cast hr0
  have hrq : (r : ℚ) + 1 ≤ M := by exact_mod_cast (by omega : r + 1 ≤ M)
  have hqq0 : (0 : ℚ) ≤ q := by exact_mod_cast hq0
  have hqq : (q : ℚ) + 1 ≤ 2 ^ 52 := by exact_mod_cast (by omega : q + 1 ≤ 2 ^ 52)
  rw [roundFloat64_int q (by rw [abs_of_nonneg hq0]; omega),
    roundFloat64_int r (by rw [abs_of_nonneg hr0]; omega)]
  have x0 : (0 : ℚ) ≤ (r : ℚ) / M := div_nonneg hrq0 hMpos.le
  have x1 : (r : ℚ) / M ≤ (1099511627759 : Int) * 2 ^ (-40 : Int) := by
    rw [div_le_iff₀ hMpos]
    norm_num
    nlinarith
  have xa : |(r : ℚ) / M| < 2 ^ ((-40 : Int) + 53) := by
    rw [abs_of_nonneg x0]
    have : (r : ℚ) / M < 1 := by
      rw [div_lt_one hMpos]
      linarith
    norm_num
    linarith
  have f0 : (0 : ℚ) ≤ roundFloat64 ((r : ℚ) / M) := by
    have := roundFloat64_ge_grid ((r : ℚ) / M) 0 (-40) xa (by simpa using x0)
    simpa using this
  have f1 := roundFloat64_le_grid ((r : ℚ) / M) 1099511627759 (-40) xa x1
  generalize roundFloat64 ((r : ℚ) / M) = f at f0 f1
  norm_num at f1
  have s0 : (q : ℚ) ≤ q + f := by linarith
  have s1 : (q : ℚ) + f ≤ ((q + 1 : Int) : ℚ) := by
    push_cast
    linarith
  have sa : |(q : ℚ) + f| < 2 ^ 53 := by
    rw [abs_of_nonneg (by linarith)]
    linarith
  have hb := roundFloat64_int_bounds (q + f) q (q + 1) sa s0 s1
  push_cast at hb
  refine ⟨hb, ?_⟩
  intro h18
  have hq18 : (q : ℚ) + 1 ≤ 2 ^ 18 := by exact_mod_cast (by omega : q + 1 ≤ 2 ^ 18)
  have sb : |(q : ℚ) + f| < 2 ^ ((-35 : Int) + 53) := by
    rw [abs_of_nonneg (by linarith)]
    norm_num
    linarith
  have := roundFloat64_lt_mid (q + f) ((q + 1) * 2 ^ 35) (-35) sb (by
    push_cast
    norm_num
    linarith)
  push_cast at this
  norm_num at this
  linarith

/-- The float64 sum of a whole part and a rounded fraction of the unit `M`,
both negated. -/
theorem splitFloat64_nonpos (q r M : Int) (hM : 17 * M ≤ 2 ^ 40) (hq0 : 0 ≤ q)
    (hq : q < 2 ^ 52) (hr0 : 0 ≤ r) (hr : r < M) :
    (-(q : ℚ) - 1 ≤
        roundFloat64 (roundFloat64 ((-q : Int) : ℚ) +
          roundFloat64 (roundFloat64 ((-r : Int) : ℚ) / M)) ∧
      roundFloat64 (roundFloat64 ((-q : Int) : ℚ) +
          roundFloat64 (roundFloat64 ((-r : Int) : ℚ) / M)) ≤ -(q : ℚ)) ∧
    (q < 2 ^ 18 →
      -(q : ℚ) - 1 < roundFloat64 (roundFloat64 ((-q : Int) : ℚ) +
          roundFloat64 (roundFloat64 ((-r : Int) : ℚ) / M))) := by
  have hMpos : (0 : ℚ) < M := by exact_mod_cast (by omega : (0 : Int) < M)
  have hMq : (17 : ℚ) * M ≤ 2 ^ 40 := by exact_mod_cast hM
  have hrq0 : (0 : ℚ) ≤ r := by exact_mod_cast hr0
  have hrq : (r : ℚ) + 1 ≤ M := by exact_mod_cast (by omega : r + 1 ≤ M)
  have hqq0 : (0 : ℚ) ≤ q := by exact_mod_cast hq0
  have hqq : (q : ℚ) + 1 ≤ 2 ^ 52 := by exact_mod_cast (by omega : q + 1 ≤ 2 ^ 52)
  rw [roundFloat64_int (-q) (by rw [abs_neg, abs_of_nonneg hq0]; omega),
    roundFloat64_int (-r) (by rw [abs_neg, abs_of_nonneg hr0]; omega)]
  push_cast
  have x0 : -(r : ℚ) / M ≤ 0 := div_nonpos_of_nonpos_of_nonneg (by linarith) hMpos.le
  have x1 : ((-1099511627759 : Int) : ℚ) * 2 ^ (-40 : Int) ≤ -(r : ℚ) / M := by
    rw [le_div_iff₀ hMpos]
    norm_num
    nlinarith
  have xa : |-(r : ℚ) / M| < 2 ^ ((-40 : Int) + 53) := by
    rw [abs_of_nonpos x0]
    have : -(-(r : ℚ) / M) < 1 := by
      rw [neg_div, neg_neg, div_lt_one hMpos]
      linarith
    norm_num
    linarith
  have f0 : roundFloat64 (-(r : ℚ) / M) ≤ 0 := by
    have := roundFloat64_le_grid (-(r : ℚ) / M) 0 (-40) xa (by simpa using x0)
    simpa using this
  have f1 := roundFloat64_ge_grid (-(r : ℚ) / M) (-1099511627759) (-40) xa x1
  generalize roundFloat64 (-(r : ℚ) / M) = f at f0 f1
  norm_num at f1
  have s0 : -(q : ℚ) + f ≤ ((-q : Int) : ℚ) := by
    push_cast
    linarith
  have s1 : ((-q - 1 : Int) : ℚ) ≤ -(q : ℚ) + f := by
    push_cast
    linarith
  have sa : |-(q : ℚ) + f| < 2 ^ 53 := by
    rw [abs_of_nonpos (by linarith)]
    linarith
  have hb := roundFloat64_int_bounds (-q + f) (-q - 1) (-q) sa s1 s0
  push_cast at hb
  refine ⟨hb, ?_⟩
  intro h18
  have hq18 : (q : ℚ) + 1 ≤ 2 ^ 18 := by exact_mod_cast (by omega : q + 1 ≤ 2 ^ 18)
  have sb : |-(q : ℚ) + f| < 2 ^ ((-35 : Int) + 53) := by
    rw [abs_of_nonpos (by linarith)]
    norm_num
    linarith
  have := roundFloat64_gt_mid (-q + f) ((-q - 1) * 2 ^ 35) (-35) sb (by
    push_cast
    norm_num
    linarith)
  push_cast at this
  norm_num at this
  linarith

/-- The float64 sum of a whole part and a fraction, from the two roundings. -/
theorem splitFloat64_eval (q r M m1 j1 m2 j2 : Int) (hq : |q| < 2 ^ 53) (hr : |r| < 2 ^ 53)
    (a1 : 2 ^ (j1 + 52) ≤ |(r : ℚ) / M|) (a2 : |(r : ℚ) / M| < 2 ^ (j1 + 53))
    (a3 : (m1 : ℚ) * 2 ^ j1 - 2 ^ j1 / 2 < (r : ℚ) / M)
    (a4 : (r : ℚ) / M < (m1 : ℚ) * 2 ^ j1 + 2 ^ j1 / 2)
    (b1 : 2 ^ (j2 + 52) ≤ |(q : ℚ) + (m1 : ℚ) * 2 ^ j1|)
    (b2 : |(q : ℚ) + (m1 : ℚ) * 2 ^ j1| < 2 ^ (j2 + 53))
    (b3 : (m2 : ℚ) * 2 ^ j2 - 2 ^ j2 / 2 < (q : ℚ) + (m1 : ℚ) * 2 ^ j1)
    (b4 : (q : ℚ) + (m1 : ℚ) * 2 ^ j1 < (m2 : ℚ) * 2 ^ j2 + 2 ^ j2 / 2) :
    roundFloat64 (roundFloat64 (q : ℚ) + roundFloat64 (roundFloat64 (r : ℚ) / M)) =
      (m2 : ℚ) * 2 ^ j2 := by
  rw [roundFloat64_int q hq, roundFloat64_int r hr, roundFloat64_eval _ m1 j1 a1 a2 a3 a4,
    roundFloat64_eval _ m2 j2 b1 b2 b3 b4]

/-- `Minutes()` in `float64` arithmetic, with the constants written out. -/
theorem MinutesFloat64_eq (d : Duration) :
    d.MinutesFloat64 =
      roundFloat64 (roundFloat64 ((d.d.tdiv 60000000000 : Int) : ℚ) +
        roundFloat64 (roundFloat64 ((d.d.tmod 60000000000 : Int) : ℚ) /
          ((60000000000 : Int) : ℚ))) := by
  unfold Duration.MinutesFloat64 Minute Second
  norm_num

/-- `Hours()` in `float64` arithmetic, with the constants written out. -/
theorem HoursFloat64_eq (d : Duration) :
    d.HoursFloat64 =
      roundFloat64 (roundFloat64 ((d.d.tdiv 3600000000000 : Int) : ℚ) +
        roundFloat64 (roundFloat64 ((d.d.tmod 3600000000000 : Int) : ℚ) /
          ((3600000000000 : Int) : ℚ))) := by
  unfold Duration.HoursFloat64 Hour Minute Second
  norm_num

/-- For a duration that is not negative the float64 value of `Minutes()` lies
between the whole minutes and the next whole minute, and below the next whole
minute when the duration is shorter than `2 ^ 18` minutes. -/
theorem MinutesFloat64_nonneg (d : Duration) (h0 : 0 ≤ d.d) (h1 : d.d ≤ maxDuration) :
    (((d.d / 60000000000 : Int) : ℚ) ≤ d.MinutesFloat64 ∧
      d.MinutesFloat64 ≤ ((d.d / 60000000000 : Int) : ℚ) + 1) ∧
    (d.d < 2 ^ 18 * 60000000000 →
      d.MinutesFloat64 < ((d.d / 60000000000 : Int) : ℚ) + 1) := by
  obtain ⟨hp, _⟩ := tdiv_tmod_spec d.d 60000000000 (by norm_num)
  unfold maxDuration at h1
  rw [MinutesFloat64_eq, (hp h0).1, (hp h0).2]
  have h := splitFloat64_nonneg (d.d / 60000000000) (d.d % 60000000000) 60000000000
    (by norm_num) (by omega) (by omega) (by omega) (by omega)
  refine ⟨h.1, fun h18 => h.2 (by omega)⟩

/-- For a duration that is not positive the float64 value of `Minutes()` lies
between the whole minutes and the whole minute before, and above the whole
minute before when the duration is shorter than `2 ^ 18` minutes. -/
theorem MinutesFloat64_nonpos (d : Duration) (h0 : d.d ≤ 0) (h1 : minDuration ≤ d.d) :
    (-((-d.d / 60000000000 : Int) : ℚ) - 1 ≤ d.MinutesFloat64 ∧
      d.MinutesFloat64 ≤ -((-d.d / 60000000000 : Int) : ℚ)) ∧
    (-d.d < 2 ^ 18 * 60000000000 →
      -((-d.d / 60000000000 : Int) : ℚ) - 1 < d.MinutesFloat64) := by
  obtain ⟨_, hq⟩ := tdiv_tmod_spec d.d 60000000000 (by norm_num)
  unfold minDuration at h1
  rw [MinutesFloat64_eq, (hq h0).1, (hq h0).2]
  have h := splitFloat64_nonpos (-d.d / 60000000000) (-d.d % 60000000000) 60000000000
    (by norm_num) (by omega) (by omega) (by omega) (by omega)
  refine ⟨h.1, fun h18 => h.2 (by omega)⟩

/-- `int(x)` of a number from a whole number `q ≥ 0` up to the next one. -/
theorem floatToInt_of_nonneg (x : ℚ) (q : Int) (h0 : 0 ≤ q) (h1 : (q : ℚ) ≤ x)
    (h2 : x < (q : ℚ) + 1) : floatToInt x = q := by
  have hq : (0 : ℚ) ≤ q := by exact_mod_cast h0
  unfold floatToInt
  rw [if_pos (by linarith), Int.floor_eq_iff]
  exact ⟨h1, h2⟩

/-- `int(x)` of a number from a whole number `q ≤ 0` down to the one before. -/
theorem floatToInt_of_nonpos (x : ℚ) (q : Int) (h0 : q ≤ 0) (h1 : (q : ℚ) - 1 < x)
    (h2 : x ≤ (q : ℚ)) : floatToInt x = q := by
  have hq : (q : ℚ) ≤ 0 := by exact_mod_cast h0
  unfold floatToInt
  by_cases hx : 0 ≤ x
  · have hx0 : x = 0 := le_antisymm (by linarith) hx
    have hq0 : (q : ℚ) = 0 := le_antisymm hq (by linarith)
    have : q = 0 := by exact_mod_cast hq0
    rw [if_pos hx, hx0, this]
    simp
  · rw [if_neg hx, Int.ceil_eq_iff]
    exact ⟨h1, h2⟩

/-- The floor and the ceiling of the exact duration in minutes. -/
theorem exactMinutes_floor_ceil (a : Activity) :
    (a.Start.ns ≤ a.End.ns → ⌊exactMinutes a⌋ = (a.End.ns - a.Start.ns) / 60000000000) ∧
      (a.End.ns ≤ a.Start.ns →
        ⌈exactMinutes a⌉ = -(-(a.End.ns - a.Start.ns) / 60000000000)) := by
  have e : exactMinutes a = ((a.End.ns - a.Start.ns : Int) : ℚ) / ((60000000000 : Nat) : ℚ) := by
    unfold exactMinutes
    norm_num
  rw [e]
  constructor
  · intro _
    rw [Rat.floor_intCast_div_natCast]
    rfl
  · intro _
    have e2 : ((a.End.ns - a.Start.ns : Int) : ℚ) / ((60000000000 : Nat) : ℚ) =
        -(((-(a.End.ns - a.Start.ns) : Int) : ℚ) / ((60000000000 : Nat) : ℚ)) := by
      push_cast
      ring
    rw [e2, Int.ceil_neg, Rat.floor_intCast_div_natCast]
    rfl

/-! ## Total minutes -/

/-- The `float64` value of `Minutes()` for 262145 minutes less one nanosecond
is the whole number 262145: the sum `262144 + 0.99999999998…` is rounded
up. -/
theorem nearly262145Minutes_Minutes : nearly262145Minutes.duration.MinutesFloat64 = 262145 := by
  have hd : nearly262145Minutes.duration = ⟨15728699999999999⟩ := by decide
  have hq : (15728699999999999 : Int).tdiv 60000000000 = 262144 := by decide
  have hr : (15728699999999999 : Int).tmod 60000000000 = 59999999999 := by decide
  rw [MinutesFloat64_eq, hd]
  simp only []
  rw [hq, hr, splitFloat64_eval 262144 59999999999 60000000000 9007199254590872 (-53)
    4503616807239680 (-34)] <;> norm_num [abs_of_nonneg]

/-- C5, as stated, fails: an activity that ends 90 seconds before it starts
has total minutes -1, while the floor of -1.5 is -2; an activity of 262145
minutes less one nanosecond has total minutes 262145, because the `float64`
sum in `Minutes()` is rounded up to the whole minute, while the floor is
262144; and an activity longer than the range of `time.Duration` has the
saturated total. -/
theorem DurationMinutesTotal_counterexample :
    (backwardsActivity.DurationMinutesTotalFloat64 = -1 ∧
      ⌊exactMinutes backwardsActivity⌋ = -2) ∧
    (nearly262145Minutes.DurationMinutesTotalFloat64 = 262145 ∧
      ⌊exactMinutes nearly262145Minutes⌋ = 262144) ∧
    (longActivity.DurationMinutesTotalFloat64 = 153722867 ∧
      ⌊exactMinutes longActivity⌋ = 1051371360) := by
  refine ⟨⟨?_, ?_⟩, ⟨?_, ?_⟩, ?_, ?_⟩
  · have hd : backwardsActivity.duration = ⟨-90000000000⟩ := by decide
    have hq : (-90000000000 : Int).tdiv 60000000000 = -1 := by decide
    have hr : (-90000000000 : Int).tmod 60000000000 = -30000000000 := by decide
    have e : backwardsActivity.duration.MinutesFloat64 = -3 / 2 := by
      rw [MinutesFloat64_eq, hd]
      simp only []
      rw [hq, hr, splitFloat64_eval (-1) (-30000000000) 60000000000 (-4503599627370496) (-53)
        (-6755399441055744) (-52)] <;> norm_num [abs_of_nonneg, abs_of_nonpos]
    unfold Activity.DurationMinutesTotalFloat64
    rw [e]
    exact floatToInt_of_nonpos _ (-1) (by norm_num) (by norm_num) (by norm_num)
  · have e : exactMinutes backwardsActivity =
        ((-90000000000 : Int) : ℚ) / ((60000000000 : Nat) : ℚ) := by
      unfold exactMinutes
      have : backwardsActivity.End.ns - backwardsActivity.Start.ns = -90000000000 := by decide
      rw [this]
      norm_num
    rw [e, Rat.floor_intCast_div_natCast]
    decide
  · unfold Activity.DurationMinutesTotalFloat64
    rw [nearly262145Minutes_Minutes]
    exact floatToInt_of_nonneg _ 262145 (by norm_num) (by norm_num) (by norm_num)
  · have e : exactMinutes nearly262145Minutes =
        ((15728699999999999 : Int) : ℚ) / ((60000000000 : Nat) : ℚ) := by
      unfold exactMinutes
      have : nearly262145Minutes.End.ns - nearly262145Minutes.Start.ns = 15728699999999999 := by
        decide
      rw [this]
      norm_num
    rw [e, Rat.floor_intCast_div_natCast]
    decide
  · have hd : longActivity.duration = ⟨9223372036854775807⟩ := by decide
    have hq : (9223372036854775807 : Int).tdiv 60000000000 = 153722867 := by decide
    have hr : (9223372036854775807 : Int).tmod 60000000000 = 16854775807 := by decide
    have e : longActivity.duration.MinutesFloat64 =
        (5158083497022418 : Int) * 2 ^ (-25 : Int) := by
      rw [MinutesFloat64_eq, hd]
      simp only []
      rw [hq, hr, splitFloat64_eval 153722867 16854775807 60000000000 5060477469587897 (-54)
        5158083497022418 (-25)] <;> norm_num [abs_of_nonneg]
    unfold Activity.DurationMinutesTotalFloat64
    rw [e]
    exact floatToInt_of_nonneg _ 153722867 (by norm_num) (by norm_num) (by norm_num)
  · have e : exactMinutes longActivity =
        ((63082281600000000000 : Int) : ℚ) / ((60000000000 : Nat) : ℚ) := by
      unfold exactMinutes
      have : longActivity.End.ns - longActivity.Start.ns = 63082281600000000000 := by decide
      rw [this]
      norm_num
    rw [e, Rat.floor_intCast_div_natCast]
    decide

/-- C5 (amended): when `End − Start` fits the signed 64-bit nanosecond range
of `time.Duration`, `DurationMinutesTotal()` is the exact duration in minutes
rounded towards zero (its floor when `End` is not before `Start`, its ceiling
when `End` is not after `Start`), provided the `float64` value of `Minutes()`
stays less than one whole minute beyond that number; and it does so whenever
the duration is shorter than `2 ^ 18` minutes. -/
theorem DurationMinutesTotal_trunc (a : Activity)
    (h1 : minDuration ≤ a.End.ns - a.Start.ns) (h2 : a.End.ns - a.Start.ns ≤ maxDuration) :
    (a.Start.ns ≤ a.End.ns →
      (a.duration.MinutesFloat64 < (⌊exactMinutes a⌋ : ℚ) + 1 →
        a.DurationMinutesTotalFloat64 = ⌊exactMinutes a⌋) ∧
      (a.End.ns - a.Start.ns < 2 ^ 18 * 60000000000 →
        a.DurationMinutesTotalFloat64 = ⌊exactMinutes a⌋)) ∧
    (a.End.ns ≤ a.Start.ns →
      ((⌈exactMinutes a⌉ : ℚ) - 1 < a.duration.MinutesFloat64 →
        a.DurationMinutesTotalFloat64 = ⌈exactMinutes a⌉) ∧
      (a.Start.ns - a.End.ns < 2 ^ 18 * 60000000000 →
        a.DurationMinutesTotalFloat64 = ⌈exactMinutes a⌉)) := by
  have hd := duration_exact a h1 h2
  obtain ⟨ef, ec⟩ := exactMinutes_floor_ceil a
  unfold Activity.DurationMinutesTotalFloat64
  constructor
  · intro h
    have hb := MinutesFloat64_nonneg a.duration (by rw [hd]; omega) (by rw [hd]; exact h2)
    rw [hd] at hb
    rw [ef h]
    have key : a.duration.MinutesFloat64 < (((a.End.ns - a.Start.ns) / 60000000000 : Int) : ℚ) + 1 →
        floatToInt a.duration.MinutesFloat64 = (a.End.ns - a.Start.ns) / 60000000000 :=
      fun hlt => floatToInt_of_nonneg _ _ (by omega) hb.1.1 hlt
    exact ⟨key, fun h18 => key (hb.2 h18)⟩
  · intro h
    have hb := MinutesFloat64_nonpos a.duration (by rw [hd]; omega) (by rw [hd]; exact h1)
    rw [hd] at hb
    rw [ec h]
    have key : ((-(-(a.End.ns - a.Start.ns) / 60000000000) : Int) : ℚ) - 1 <
          a.duration.MinutesFloat64 →
        floatToInt a.duration.MinutesFloat64 = -(-(a.End.ns - a.Start.ns) / 60000000000) :=
      fun hlt => floatToInt_of_nonpos _ _ (by omega) hlt (by
        have := hb.1.2
        push_cast
        exact this)
    refine ⟨key, fun h18 => key ?_⟩
    have := hb.2 (by omega)
    push_cast
    exact this

/-- C5 (amended), at an activity of 90 seconds: one minute. -/
theorem DurationMinutesTotal_trunc_witness :
    shortActivity.DurationMinutesTotalFloat64 = ⌊exactMinutes shortActivity⌋ :=
  ((DurationMinutesTotal_trunc shortActivity (by decide) (by decide)).1
    (by decide)).2 (by decide)

/-- C6, as stated, fails: an activity that ends 90 seconds before it starts
has the minutes component -1. -/
theorem DurationMinutes_counterexample :
    backwardsActivity.DurationMinutes = -1 ∧ ¬ (0 ≤ backwardsActivity.DurationMinutes) := by
  have e : backwardsActivity.DurationMinutes = -1 := by
    show goMod backwardsActivity.DurationMinutesTotal 60 = -1
    rw [DurationMinutesTotal_eq]
    decide
  rw [e]
  decide

/-- C6 (amended): `DurationMinutes()` lies between -59 and 59, is congruent
to `DurationMinutesTotal()` modulo 60, and is between 0 and 59 when `End` is
not before `Start` (between -59 and 0 when `End` is not after `Start`). -/
theorem DurationMinutes_range (a : Activity) :
    -59 ≤ a.DurationMinutes ∧ a.DurationMinutes ≤ 59 ∧
      (a.DurationMinutesTotal - a.DurationMinutes) % 60 = 0 ∧
      (a.Start.ns ≤ a.End.ns → 0 ≤ a.DurationMinutes) ∧
      (a.End.ns ≤ a.Start.ns → a.DurationMinutes ≤ 0) := by
  obtain ⟨s1, s2⟩ := duration_sign a
  have hm : a.DurationMinutes = a.DurationMinutesTotal.tmod 60 := rfl
  obtain ⟨hp, hq⟩ := tdiv_tmod_spec a.DurationMinutesTotal 60 (by norm_num)
  have ht := DurationMinutesTotal_eq a
  obtain ⟨tp, tq⟩ := tdiv_tmod_spec a.duration.d 60000000000 (by norm_num)
  have hdiv := Int.tdiv_add_tmod a.DurationMinutesTotal 60
  rw [hm]
  refine ⟨?_, ?_, ?_, ?_, ?_⟩
  · rcases le_total 0 a.DurationMinutesTotal with h | h
    · rw [(hp h).2]
      omega
    · rw [(hq h).2]
      omega
  · rcases le_total 0 a.DurationMinutesTotal with h | h
    · rw [(hp h).2]
      omega
    · rw [(hq h).2]
      omega
  · omega
  · intro h
    have h0 : 0 ≤ a.DurationMinutesTotal := by
      rw [ht, (tp (s1 h)).1]
      have := s1 h
      omega
    rw [(hp h0).2]
    omega
  · intro h
    have h0 : a.DurationMinutesTotal ≤ 0 := by
      rw [ht, (tq (s2 h)).1]
      have := s2 h
      omega
    rw [(hq h0).2]
    omega

/-- C6 (amended), at an activity of 90 seconds. -/
theorem DurationMinutes_range_witness : 0 ≤ shortActivity.DurationMinutes :=
  (DurationMinutes_range shortActivity).2.2.2.1 (by decide)

/-- C7, as stated, fails: an activity of 90 seconds has the decimal value
1/40, while its total minutes, 1, divided by 60 are 1/60. -/
theorem DurationDecimal_counterexample :
    shortActivity.DurationDecimal = 1 / 40 ∧
      (shortActivity.DurationMinutesTotal : ℚ) / 60 = 1 / 60 := by
  constructor
  · unfold Activity.DurationDecimal
    rw [Duration_Minutes_eq]
    have : shortActivity.duration.d = 90000000000 := by decide
    rw [this]
    norm_num
  · have : shortActivity.DurationMinutesTotal = 1 := by
      rw [DurationMinutesTotal_eq]
      decide
    rw [this]
    norm_num

/-- C7 (amended): `DurationDecimal()` is the duration in minutes, not
truncated, divided by 60; it equals `DurationMinutesTotal()` divided by 60
whenever the duration is a whole number of minutes, and it is 3/4 for a
duration of 45 minutes. -/
theorem DurationDecimal_exact (a : Activity) :
    a.DurationDecimal = (a.duration.d : ℚ) / 3600000000000 ∧
      (a.duration.d % 60000000000 = 0 →
        a.DurationDecimal = (a.DurationMinutesTotal : ℚ) / 60) ∧
      (a.End.ns - a.Start.ns = 45 * 60000000000 → a.DurationDecimal = 3 / 4) := by
  have e : a.DurationDecimal = (a.duration.d : ℚ) / 3600000000000 := by
    unfold Activity.DurationDecimal
    rw [Duration_Minutes_eq, div_div]
    norm_num
  refine ⟨e, ?_, ?_⟩
  · intro h
    obtain ⟨q, hq⟩ : ∃ q, a.duration.d = 60000000000 * q := ⟨a.duration.d / 60000000000, by omega⟩
    have ht : a.DurationMinutesTotal = q := by
      rw [DurationMinutesTotal_eq, hq]
      exact Int.mul_tdiv_cancel_left q (by norm_num)
    rw [e, ht, hq]
    push_cast
    field_simp
    ring
  · intro h
    have hd : a.duration.d = 45 * 60000000000 := by
      rw [duration_exact a (by rw [h]; decide) (by rw [h]; decide), h]
    rw [e, hd]
    norm_num

/-- C7 (amended), at an activity of 45 minutes: 3/4. -/
theorem DurationDecimal_exact_witness : threeQuarterActivity.DurationDecimal = 3 / 4 :=
  (DurationDecimal_exact threeQuarterActivity).2.2 (by decide)

/-! ## Labels and duration format -/

/-- For day, week, month and year `NewValue` at the clock reading `now` is
the `String` of the filter whose start is `now`. -/
theorem NewValue_eq_String (f : ActivityFilter) (now : Time)
    (h : f.Timespan = TimespanDay ∨ f.Timespan = TimespanWeek ∨ f.Timespan = TimespanMonth ∨
      f.Timespan = TimespanYear) :
    f.NewValue now = ({ f with start := now } : ActivityFilter).String := by
  rcases h with h | h | h | h <;>
    simp [ActivityFilter.NewValue, ActivityFilter.String, ActivityFilter.Start, h, TimespanDay,
      TimespanWeek, TimespanMonth, TimespanQuarter, TimespanYear, TimespanCustom]

/-- C3 fails for quarter: at the clock reading 2024-01-15T10:00:00Z
`NewValue()` of a quarter filter is "2024-0", while `String()` of the quarter
filter that starts then is "2024-1". -/
theorem NewValue_quarter_january :
    (⟨TimespanQuarter, "", "", zeroTime, zeroTime⟩ : ActivityFilter).NewValue
        (Date 2024 1 15 10 0 0 0) = "2024-0" ∧
      (⟨TimespanQuarter, "", "", Date 2024 1 15 10 0 0 0, zeroTime⟩ : ActivityFilter).String =
        "2024-1" := by
  decide

theorem toDigits_length_le (n e : Nat) (he : 0 < e) (h : n < 10 ^ e) :
    (Nat.toDigits 10 n).length ≤ e :=
  Nat.repr_length n e he h

/-- Below one million `%v` prints an integer-valued `float64` as plain
decimal digits. -/
theorem fmtFloatInt_small (x : Int) (h0 : 0 ≤ x) (h1 : x < 1000000) :
    fmtFloatInt x = Nat.repr x.toNat := by
  have hx : x.natAbs = x.toNat := by omega
  have hneg : ¬ x < 0 := by omega
  unfold fmtFloatInt
  simp only [hneg, if_false, hx]
  by_cases hz : x.toNat = 0
  · rw [if_pos hz, hz]
    decide
  · rw [if_neg hz]
    have hl := toDigits_length_le x.toNat 6 (by norm_num) (by omega)
    have hlt : ¬ ((Nat.toDigits 10 x.toNat).length - 1 ≥ 6) := by omega
    rw [if_neg hlt]
    simp

/-- In its intended range (fewer than one million hours) the formatter
writes the hours in decimal, a colon, the minutes of the unfinished hour
padded to two digits, and " h". -/
theorem FormatMinutesAsDuration_small (m : ℚ) (h0 : 0 ≤ m) (h1 : ⌊m / 60⌋ < 1000000) :
    FormatMinutesAsDuration m =
      Nat.repr ⌊m / 60⌋.toNat ++ ":" ++ zeroPad 2 (Nat.repr (⌊m⌋ % 60).toNat) ++ " h" := by
  have hq : 0 ≤ ⌊m / 60⌋ := Int.floor_nonneg.mpr (div_nonneg h0 (by norm_num))
  have hf : 0 ≤ ⌊m⌋ := Int.floor_nonneg.mpr h0
  have ht : floatToInt m = ⌊m⌋ := by simp [floatToInt, h0]
  have hmod : goMod ⌊m⌋ 60 = ⌊m⌋ % 60 := Int.tmod_eq_emod hf (by norm_num)
  have hr : 0 ≤ ⌊m⌋ % 60 := by omega
  unfold FormatMinutesAsDuration
  rw [fmtFloatInt_small _ hq h1, ht, hmod]
  have hneg : ¬ (⌊m⌋ % 60 < 0) := by omega
  have hn : (⌊m⌋ % 60).natAbs = (⌊m⌋ % 60).toNat := by omega
  simp only [fmt02d, hneg, if_false, hn]

/-- C4 fails from one million hours on: 60000000 minutes are printed as
"1e+06:00 h", and an activity from 1900-01-01 to 2020-01-01 is formatted as
"1.051896e+06:00 h"; the examples of the spec are printed as stated. -/
theorem FormatMinutesAsDuration_million :
    FormatMinutesAsDuration 60000000 = "1e+06:00 h" ∧
      centuryActivity.DurationFormatted = "1.051896e+06:00 h" ∧
      FormatMinutesAsDuration 75 = "1:15 h" ∧ FormatMinutesAsDuration 0 = "0:00 h" ∧
      FormatMinutesAsDuration (59999 / 1000) = "0:59 h" := by
  refine ⟨?_, ?_, ?_, ?_, ?_⟩
  · have h1 : Int.floor ((60000000 : ℚ) / 60) = 1000000 := by norm_num [Int.floor_eq_iff]
    have h2 : floatToInt 60000000 = 60000000 := by norm_num [floatToInt]
    rw [FormatMinutesAsDuration, h1, h2]
    decide
  · have ht : centuryActivity.DurationMinutesTotal = 63113760 := by
      rw [DurationMinutesTotal_eq]
      decide
    have h1 : Int.floor (((63113760 : Int) : ℚ) / 60) = 1051896 := by
      norm_num [Int.floor_eq_iff]
    have h2 : floatToInt ((63113760 : Int) : ℚ) = 63113760 := by norm_num [floatToInt]
    rw [Activity.DurationFormatted, ht, FormatMinutesAsDuration, h1, h2]
    decide
  · have h1 : Int.floor ((75 : ℚ) / 60) = 1 := by norm_num [Int.floor_eq_iff]
    have h2 : floatToInt 75 = 75 := by norm_num [floatToInt]
    rw [FormatMinutesAsDuration, h1, h2]
    decide
  · have h1 : Int.floor ((0 : ℚ) / 60) = 0 := by norm_num
    have h2 : floatToInt 0 = 0 := by norm_num [floatToInt]
    rw [FormatMinutesAsDuration, h1, h2]
    decide
  · have h1 : Int.floor ((59999 / 1000 : ℚ) / 60) = 0 := by norm_num [Int.floor_eq_iff]
    have h2 : floatToInt (59999 / 1000 : ℚ) = 59 := by
      have : Int.floor (59999 / 1000 : ℚ) = 59 := by norm_num [Int.floor_eq_iff]
      simp only [floatToInt]
      rw [if_pos (by norm_num), this]
    rw [FormatMinutesAsDuration, h1, h2]
    decide

/-! ## Go maps -/

namespace GoMap

variable {V : Type}

theorem lookup_store (m : GoMap V) (k : Int) (v : V) (k1 : Int) :
    lookup (store m k v) k1 = if k = k1 then some v else lookup m k1 := by
  induction m with
  | nil => simp [store, lookup]
  | cons p rest ih =>
    obtain ⟨k0, v0⟩ := p
    by_cases h : k0 = k
    · subst h
      simp only [store, if_true, lookup]
      split_ifs <;> rfl
    · simp only [store, h, if_false, lookup, ih]
      by_cases h1 : k0 = k1
      · have h2 : ¬ k = k1 := fun e => h (h1.trans e.symm)
        simp [h1, h2]
      · simp [h1]

theorem mem_keys_store (m : GoMap V) (k : Int) (v : V) (k1 : Int) :
    k1 ∈ keys (store m k v) ↔ k1 = k ∨ k1 ∈ keys m := by
  induction m with
  | nil => simp [store, keys]
  | cons p rest ih =>
    obtain ⟨k0, v0⟩ := p
    by_cases h : k0 = k
    · subst h
      simp [store, keys]
    · simp only [keys] at ih
      simp only [store, h, if_false, keys, List.map_cons, List.mem_cons, ih]
      tauto

theorem nodup_keys_store (m : GoMap V) (k : Int) (v : V) (h : (keys m).Nodup) :
    (keys (store m k v)).Nodup := by
  induction m with
  | nil => simp [store, keys]
  | cons p rest ih =>
    obtain ⟨k0, v0⟩ := p
    simp only [keys, List.map_cons, List.nodup_cons] at h
    by_cases hk : k0 = k
    · subst hk
      simp only [store, if_true, keys, List.map_cons, List.nodup_cons]
      exact h
    · simp only [store, hk, if_false, keys, List.map_cons, List.nodup_cons]
      refine ⟨?_, ih h.2⟩
      intro hm
      have := (mem_keys_store rest k v k0).mp hm
      rcases this with e | e
      · exact hk e
      · exact h.1 e

theorem lookup_isSome_iff (m : GoMap V) (k : Int) : (lookup m k).isSome ↔ k ∈ keys m := by
  induction m with
  | nil => simp [lookup, keys]
  | cons p rest ih =>
    obtain ⟨k0, v0⟩ := p
    simp only [keys] at ih
    by_cases h : k0 = k
    · simp [lookup, keys, h]
    · have h1 : ¬ k = k0 := fun e => h e.symm
      simp [lookup, keys, h, h1, ih]

theorem index_store (zero : V) (m : GoMap V) (k : Int) (v : V) (k1 : Int) :
    index zero (store m k v) k1 = if k = k1 then v else index zero m k1 := by
  unfold index
  rw [lookup_store]
  split_ifs <;> rfl

/-- A write changes the sum of the values by the difference between the new
value and the value read before. -/
theorem sum_values_store (m : GoMap ℚ) (k : Int) (v : ℚ) :
    (values (store m k v)).sum = (values m).sum - index 0 m k + v := by
  induction m with
  | nil => simp [store, values, index, lookup]
  | cons p rest ih =>
    obtain ⟨k0, v0⟩ := p
    by_cases h : k0 = k
    · subst h
      simp [store, values, index, lookup]
      ring
    · simp only [values] at ih
      simp only [store, h, if_false, values, List.map_cons, List.sum_cons, ih, index, lookup,
        Option.getD]
      simp only [index] at ih
      ring

end GoMap

/-! ## Sorting -/

theorem sortInsert_eq (x : Int) (l : List Int) :
    sortInsert (fun a b => decide (a > b)) x l = List.orderedInsert (· ≥ ·) x l := by
  induction l with
  | nil => rfl
  | cons y ys ih =>
    simp only [sortInsert, List.orderedInsert, ih, decide_eq_true_eq]
    by_cases h : y > x
    · have h2 : ¬ x ≥ y := by omega
      simp [h, h2]
    · have h2 : x ≥ y := by omega
      simp [h, h2]

theorem sortSlice_eq (l : List Int) :
    sortSlice (fun a b => decide (a > b)) l = List.insertionSort (· ≥ ·) l := by
  induction l with
  | nil => rfl
  | cons x xs ih => simp only [sortSlice, List.insertionSort, ih, sortInsert_eq]

theorem dayNodes_perm (iter : List Int) : (dayNodes iter).Perm iter := by
  unfold dayNodes
  rw [sortSlice_eq]
  exact List.perm_insertionSort _ _

theorem dayNodes_sorted_ge (iter : List Int) : List.Sorted (· ≥ ·) (dayNodes iter) := by
  unfold dayNodes
  rw [sortSlice_eq]
  exact List.sorted_insertionSort _ _

theorem dayNodes_sorted_gt (iter : List Int) (h : iter.Nodup) :
    List.Sorted (· > ·) (dayNodes iter) := by
  have hn : (dayNodes iter).Nodup := (dayNodes_perm iter).nodup_iff.mpr h
  have hs := dayNodes_sorted_ge iter
  unfold List.Sorted at hs ⊢
  have hboth := hs.and hn
  refine hboth.imp ?_
  intro a b hab
  have h1 : a ≥ b := hab.1
  have h2 : a ≠ b := hab.2
  omega

theorem sorted_gt_unique (l1 l2 : List Int) (hp : l1.Perm l2) (h1 : List.Sorted (· > ·) l1)
    (h2 : List.Sorted (· > ·) l2) : l1 = l2 := by
  haveI : IsAntisymm Int (· > ·) := ⟨fun a b h1 h2 => by omega⟩
  exact List.eq_of_perm_of_sorted hp h1 h2

/-! ## The aggregation loops -/

theorem sumByDayMaps_snoc (u : DateFormats) (acts : List Activity) (a : Activity) :
    sumByDayMaps u (acts ++ [a]) = sumByDayStep u (sumByDayMaps u acts) a := by
  simp [sumByDayMaps, List.foldl_append]

theorem activitySumByDay_snoc (u : DateFormats) (acts : List Activity) (a : Activity) :
    (sumByDayMaps u (acts ++ [a])).activitySumByDay =
      GoMap.store (sumByDayMaps u acts).activitySumByDay a.Start.Day
        (GoMap.index 0 (sumByDayMaps u acts).activitySumByDay a.Start.Day +
          (a.DurationMinutesTotal : ℚ)) := by
  rw [sumByDayMaps_snoc]
  rfl

theorem durationWeekTotal_eq_sum (acts : List Activity) :
    durationWeekTotal acts = (acts.map (fun a => (a.DurationMinutesTotal : ℚ))).sum := by
  induction acts using List.reverseRecOn with
  | nil => rfl
  | append_singleton l a ih =>
    unfold durationWeekTotal at ih ⊢
    rw [List.foldl_append, ih]
    simp

/-- After the loop the bucket of a day holds the sum of the total minutes of
the activities that start on that day of the month. -/
theorem activitySumByDay_index (u : DateFormats) (acts : List Activity) (d : Int) :
    GoMap.index 0 (sumByDayMaps u acts).activitySumByDay d =
      ((acts.filter (fun a => a.Start.Day = d)).map
        (fun a => (a.DurationMinutesTotal : ℚ))).sum := by
  induction acts using List.reverseRecOn with
  | nil => rfl
  | append_singleton l a ih =>
    rw [activitySumByDay_snoc, GoMap.index_store, List.filter_append, List.map_append,
      List.sum_append, ← ih]
    by_cases h : a.Start.Day = d
    · subst h
      simp
    · simp [h]

/-- After the loop the keys are the days of the month on which some activity
starts. -/
theorem activitySumByDay_keys (u : DateFormats) (acts : List Activity) (d : Int) :
    d ∈ GoMap.keys (sumByDayMaps u acts).activitySumByDay ↔ ∃ a ∈ acts, a.Start.Day = d := by
  induction acts using List.reverseRecOn with
  | nil => simp [sumByDayMaps, GoMap.keys]
  | append_singleton l a ih =>
    rw [activitySumByDay_snoc, GoMap.mem_keys_store, ih]
    constructor
    · rintro (h | ⟨b, hb, hd⟩)
      · exact ⟨a, by simp, h.symm⟩
      · exact ⟨b, by simp [hb], hd⟩
    · rintro ⟨b, hb, hd⟩
      rw [List.mem_append, List.mem_singleton] at hb
      rcases hb with hb | hb
      · exact Or.inr ⟨b, hb, hd⟩
      · subst hb
        exact Or.inl hd.symm

theorem activitySumByDay_nodup (u : DateFormats) (acts : List Activity) :
    (GoMap.keys (sumByDayMaps u acts).activitySumByDay).Nodup := by
  induction acts using List.reverseRecOn with
  | nil => simp [sumByDayMaps, GoMap.keys]
  | append_singleton l a ih =>
    rw [activitySumByDay_snoc]
    exact GoMap.nodup_keys_store _ _ _ ih

theorem activitySumByDay_sum (u : DateFormats) (acts : List Activity) :
    (GoMap.values (sumByDayMaps u acts).activitySumByDay).sum =
      (acts.map (fun a => (a.DurationMinutesTotal : ℚ))).sum := by
  induction acts using List.reverseRecOn with
  | nil => rfl
  | append_singleton l a ih =>
    rw [activitySumByDay_snoc, GoMap.sum_values_store, ih, List.map_append, List.sum_append]
    simp only [List.map_cons, List.map_nil, List.sum_cons, List.sum_nil]
    ring

/-- C8: the report total `durationWeekTotal` of `ActivitiesInWeekView` is
the sum of `DurationMinutesTotal()` over the activities, and it is the sum
over the day buckets of the sums `activitySumByDay` that
`ActivitiesSumByDayView` builds from the same list. -/
theorem durationWeekTotal_eq_bucket_sum (u : DateFormats) (acts : List Activity) :
    durationWeekTotal acts = (acts.map (fun a => (a.DurationMinutesTotal : ℚ))).sum ∧
      durationWeekTotal acts = (GoMap.values (sumByDayMaps u acts).activitySumByDay).sum := by
  rw [activitySumByDay_sum]
  exact ⟨durationWeekTotal_eq_sum acts, durationWeekTotal_eq_sum acts⟩

/-- C9: in `ActivitiesSumByDayView` the bucket keyed `d` exists exactly when
some activity starts on day-of-month `d`; each key occurs once; the bucket
read at `d` is the sum of `DurationMinutesTotal()` over exactly the activities
that start on day-of-month `d`; so the activities of 2024-01-05 (60 minutes)
and 2024-02-05 (30 minutes) share the one bucket keyed 5. -/
theorem activitySumByDay_bucket (u : DateFormats) (acts : List Activity) (d : Int) :
    ((GoMap.lookup (sumByDayMaps u acts).activitySumByDay d).isSome ↔
        ∃ a ∈ acts, a.Start.Day = d) ∧
      (GoMap.keys (sumByDayMaps u acts).activitySumByDay).Nodup ∧
      GoMap.index 0 (sumByDayMaps u acts).activitySumByDay d =
        ((acts.filter (fun a => a.Start.Day = d)).map
          (fun a => (a.DurationMinutesTotal : ℚ))).sum ∧
      (sumByDayMaps u [januaryFifth, februarySeventh, februaryFifth]).activitySumByDay =
        [(5, 90), (7, 15)] := by
  refine ⟨?_, activitySumByDay_nodup u acts, activitySumByDay_index u acts d, ?_⟩
  · rw [GoMap.lookup_isSome_iff]
    exact activitySumByDay_keys u acts d
  · have d1 : januaryFifth.Start.Day = 5 := by decide
    have d2 : februarySeventh.Start.Day = 7 := by decide
    have d3 : februaryFifth.Start.Day = 5 := by decide
    have t1 : januaryFifth.DurationMinutesTotal = 60 := by
      rw [DurationMinutesTotal_eq]
      decide
    have t2 : februarySeventh.DurationMinutesTotal = 15 := by
      rw [DurationMinutesTotal_eq]
      decide
    have t3 : februaryFifth.DurationMinutesTotal = 30 := by
      rw [DurationMinutesTotal_eq]
      decide
    simp only [sumByDayMaps, List.foldl, sumByDayStep, d1, d2, d3, t1, t2, t3, GoMap.store,
      GoMap.index, GoMap.lookup]
    norm_num

/-- C10: whatever the order in which the map yields its keys, `dayNodes` is
strictly decreasing, has no repetition, and holds exactly the days of the
month on which some activity starts; it is the same list for every
reordering of the activities and for every iteration order of the map. -/
theorem dayNodes_descending (u : DateFormats) (acts : List Activity) (iter : List Int)
    (h : iter.Perm (GoMap.keys (sumByDayMaps u acts).activitySumByDay)) :
    List.Sorted (· > ·) (dayNodes iter) ∧ (dayNodes iter).Nodup ∧
      (∀ d, d ∈ dayNodes iter ↔ ∃ a ∈ acts, a.Start.Day = d) ∧
      (∀ (u1 : DateFormats) (acts1 : List Activity) (iter1 : List Int), acts1.Perm acts →
        iter1.Perm (GoMap.keys (sumByDayMaps u1 acts1).activitySumByDay) →
        dayNodes iter1 = dayNodes iter) := by
  have hnd : iter.Nodup := h.nodup_iff.mpr (activitySumByDay_nodup u acts)
  have hmem : ∀ d, d ∈ dayNodes iter ↔ ∃ a ∈ acts, a.Start.Day = d := by
    intro d
    rw [(dayNodes_perm iter).mem_iff, h.mem_iff]
    exact activitySumByDay_keys u acts d
  refine ⟨dayNodes_sorted_gt iter hnd, (dayNodes_perm iter).nodup_iff.mpr hnd, hmem, ?_⟩
  intro u1 acts1 iter1 hp h1
  have hnd1 : iter1.Nodup := h1.nodup_iff.mpr (activitySumByDay_nodup u1 acts1)
  apply sorted_gt_unique _ _ _ (dayNodes_sorted_gt iter1 hnd1) (dayNodes_sorted_gt iter hnd)
  rw [List.perm_ext_iff_of_nodup ((dayNodes_perm iter1).nodup_iff.mpr hnd1)
    ((dayNodes_perm iter).nodup_iff.mpr hnd)]
  intro d
  rw [hmem d, (dayNodes_perm iter1).mem_iff, h1.mem_iff, activitySumByDay_keys u1 acts1 d]
  constructor
  · rintro ⟨a, ha, hd⟩
    exact ⟨a, hp.mem_iff.mp ha, hd⟩
  · rintro ⟨a, ha, hd⟩
    exact ⟨a, hp.mem_iff.mpr ha, hd⟩

/-- C10, at three activities that start on the 5th, the 7th and the 5th:
the keys come out as 7, 5. -/
theorem dayNodes_descending_witness :
    List.Sorted (· > ·)
      (dayNodes (GoMap.keys
        (sumByDayMaps plainFormats
          [januaryFifth, februarySeventh, februaryFifth]).activitySumByDay)) :=
  (dayNodes_descending plainFormats [januaryFifth, februarySeventh, februaryFifth] _
    (List.Perm.refl _)).1

/-! ## Navigation and the stored end -/

/-- C12: for a filter of timespan day, week, month, quarter or year,
`Next()` keeps the timespan, starts at `End()` of the filter, and ends one
further calendar unit after `End()` of the filter. -/
theorem Next_Start_End (f : ActivityFilter) :
    (isCalendarTimespan f.Timespan → f.Next.Timespan = f.Timespan ∧ f.Next.Start = f.End) ∧
    (f.Timespan = TimespanDay → f.Next.End = f.End.AddDate 0 0 1) ∧
    (f.Timespan = TimespanWeek → f.Next.End = f.End.AddDate 0 0 7) ∧
    (f.Timespan = TimespanMonth → f.Next.End = f.End.AddDate 0 1 0) ∧
    (f.Timespan = TimespanQuarter → f.Next.End = f.End.AddDate 0 3 0) ∧
    (f.Timespan = TimespanYear → f.Next.End = f.End.AddDate 1 0 0) := by
  obtain ⟨n1, n2, n3, n4, n5⟩ := Next_start f
  have ht := Next_Timespan f
  refine ⟨?_, ?_, ?_, ?_, ?_, ?_⟩
  · intro hc
    refine ⟨ht, ?_⟩
    show f.Next.start = f.End
    rcases hc with h | h | h | h | h
    · rw [n1 h, End_day f h]
    · rw [n2 h, End_week f h]
    · rw [n3 h, End_month f h]
    · rw [n4 h, End_quarter f h]
    · rw [n5 h, End_year f h]
  · intro h
    rw [End_day f.Next (ht.trans h), n1 h, End_day f h]
  · intro h
    rw [End_week f.Next (ht.trans h), n2 h, End_week f h]
  · intro h
    rw [End_month f.Next (ht.trans h), n3 h, End_month f h]
  · intro h
    rw [End_quarter f.Next (ht.trans h), n4 h, End_quarter f h]
  · intro h
    rw [End_year f.Next (ht.trans h), n5 h, End_year f h]

/-- C12, at the month filter that starts on 2024-01-31: the next filter
starts at the end, 2024-03-02. -/
theorem Next_Start_End_witness :
    (⟨TimespanMonth, "", "", Date 2024 1 31 0 0 0 0, zeroTime⟩ : ActivityFilter).Next.Start =
      (⟨TimespanMonth, "", "", Date 2024 1 31 0 0 0 0, zeroTime⟩ : ActivityFilter).End :=
  ((Next_Start_End ⟨TimespanMonth, "", "", Date 2024 1 31 0 0 0 0, zeroTime⟩).1
    (by unfold isCalendarTimespan; decide)).2

/-- C13: two filters with the same timespan among day, week, month, quarter,
year and the same start have the same `End()`, whatever their stored end
fields (and sort settings) are. -/
theorem End_ignores_stored_end (f g : ActivityFilter) (ht : g.Timespan = f.Timespan)
    (hs : g.start = f.start) (hc : isCalendarTimespan f.Timespan) : g.End = f.End :=
  End_congr f g ht hs hc

/-- C13, at two week filters that start on 2024-03-04 and store different
ends. -/
theorem End_ignores_stored_end_witness :
    (⟨TimespanWeek, "start", "asc", Date 2024 3 4 0 0 0 0, Date 1999 1 1 0 0 0 0⟩ :
        ActivityFilter).End =
      (⟨TimespanWeek, "", "", Date 2024 3 4 0 0 0 0, zeroTime⟩ : ActivityFilter).End :=
  End_ignores_stored_end _ _ rfl rfl (by unfold isCalendarTimespan; decide)

/-! ## Hours and minutes -/

/-- `Duration.Hours` is the exact quotient of the nanosecond count. -/
theorem Duration_Hours_eq (d : Duration) :
    d.Hours = (d.d : ℚ) / ((3600000000000 : Nat) : ℚ) := by
  unfold Duration.Hours Hour Minute Second
  have h := Int.tdiv_add_tmod d.d (60 * (60 * 1000000000))
  have hq : (d.d : ℚ) = 3600000000000 * ((d.d.tdiv (60 * (60 * 1000000000)) : Int) : ℚ) +
      ((d.d.tmod (60 * (60 * 1000000000)) : Int) : ℚ) := by
    have : ((60 * (60 * 1000000000) * d.d.tdiv (60 * (60 * 1000000000)) +
        d.d.tmod (60 * (60 * 1000000000)) : Int) : ℚ) = (d.d : ℚ) := by rw [h]
    rw [← this]
    push_cast
    ring
  simp only []
  rw [hq]
  push_cast
  field_simp
  ring

theorem DurationHours_eq (a : Activity) :
    a.DurationHours = a.duration.d.tdiv 3600000000000 := by
  unfold Activity.DurationHours
  rw [Duration_Hours_eq, floatToInt_div _ _ (by norm_num)]
  rfl

/-- With the `float64` arithmetic taken to be exact, sixty times the hours
plus the minutes are the total minutes, for either sign of the duration. -/
theorem Hours_Minutes_recompose (a : Activity) :
    60 * a.DurationHours + a.DurationMinutes = a.DurationMinutesTotal := by
  have hm : a.DurationMinutes = a.DurationMinutesTotal.tmod 60 := rfl
  rw [hm, DurationHours_eq, DurationMinutesTotal_eq]
  obtain ⟨p1, q1⟩ := tdiv_tmod_spec a.duration.d 3600000000000 (by norm_num)
  obtain ⟨p2, q2⟩ := tdiv_tmod_spec a.duration.d 60000000000 (by norm_num)
  rcases le_total 0 a.duration.d with h | h
  · have e1 := (p1 h).1
    have e2 := (p2 h).1
    obtain ⟨p3, _⟩ := tdiv_tmod_spec (a.duration.d.tdiv 60000000000) 60 (by norm_num)
    have h3 : 0 ≤ a.duration.d.tdiv 60000000000 := by
      rw [e2]
      omega
    have e3 := (p3 h3).2
    rw [e3, e1, e2]
    omega
  · have e1 := (q1 h).1
    have e2 := (q2 h).1
    obtain ⟨_, q3⟩ := tdiv_tmod_spec (a.duration.d.tdiv 60000000000) 60 (by norm_num)
    have h3 : a.duration.d.tdiv 60000000000 ≤ 0 := by
      rw [e2]
      omega
    have e3 := (q3 h3).2
    rw [e3, e1, e2]
    omega

/-- The float64 sum of a whole part and a rounded fraction of the unit `M`, for a unit of the size of an hour. -/
theorem splitFloat64_hour_nonneg (q r M : Int) (hM : 19 * M ≤ 2 ^ 46) (hq0 : 0 ≤ q)
    (hq : q < 2 ^ 52) (hr0 : 0 ≤ r) (hr : r < M) :
    ((q : ℚ) ≤ roundFloat64 (roundFloat64 (q : ℚ) + roundFloat64 (roundFloat64 (r : ℚ) / M)) ∧
      roundFloat64 (roundFloat64 (q : ℚ) + roundFloat64 (roundFloat64 (r : ℚ) / M)) ≤ q + 1) ∧
    (q < 2 ^ 12 →
      roundFloat64 (roundFloat64 (q : ℚ) + roundFloat64 (roundFloat64 (r : ℚ) / M)) < q + 1) := by
  have hMpos : (0 : ℚ) < M := by exact_mod_cast (by omega : (0 : Int) < M)
  have hMq : (19 : ℚ) * M ≤ 2 ^ 46 := by exact_mod_cast hM
  have hrq0 : (0 : ℚ) ≤ r := by exact_mod_cast hr0
  have hrq : (r : ℚ) + 1 ≤ M := by exact_mod_cast (by omega : r + 1 ≤ M)
  have hqq0 : (0 : ℚ) ≤ q := by exact_mod_cast hq0
  have hqq : (q : ℚ) + 1 ≤ 2 ^ 52 := by exact_mod_cast (by omega : q + 1 ≤ 2 ^ 52)
  rw [roundFloat64_int q (by rw [abs_of_nonneg hq0]; omega),
    roundFloat64_int r (by rw [abs_of_nonneg hr0]; omega)]
  have x0 : (0 : ℚ) ≤ (r : ℚ) / M := div_nonneg hrq0 hMpos.le
  have x1 : (r : ℚ) / M ≤ (70368744177645 : Int) * 2 ^ (-46 : Int) := by
    rw [div_le_iff₀ hMpos]
    norm_num
    nlinarith
  have xa : |(r : ℚ) / M| < 2 ^ ((-46 : Int) + 53) := by
    rw [abs_of_nonneg x0]
    have : (r : ℚ) / M < 1 := by
      rw [div_lt_one hMpos]
      linarith
    norm_num
    linarith
  have f0 : (0 : ℚ) ≤ roundFloat64 ((r : ℚ) / M) := by
    have := roundFloat64_ge_grid ((r : ℚ) / M) 0 (-46) xa (by simpa using x0)
    simpa using this
  have f1 := roundFloat64_le_grid ((r : ℚ) / M) 70368744177645 (-46) xa x1
  generalize roundFloat64 ((r : ℚ) / M) = f at f0 f1
  norm_num at f1
  have s0 : (q : ℚ) ≤ q + f := by linarith
  have s1 : (q : ℚ) + f ≤ ((q + 1 : Int) : ℚ) := by
    push_cast
    linarith
  have sa : |(q : ℚ) + f| < 2 ^ 53 := by
    rw [abs_of_nonneg (by linarith)]
    linarith
  have hb := roundFloat64_int_bounds (q + f) q (q + 1) sa s0 s1
  push_cast at hb
  refine ⟨hb, ?_⟩
  intro h18
  have hq18 : (q : ℚ) + 1 ≤ 2 ^ 12 := by exact_mod_cast (by omega : q + 1 ≤ 2 ^ 12)
  have sb : |(q : ℚ) + f| < 2 ^ ((-41 : Int) + 53) := by
    rw [abs_of_nonneg (by linarith)]
    norm_num
    linarith
  have := roundFloat64_lt_mid (q + f) ((q + 1) * 2 ^ 41) (-41) sb (by
    push_cast
    norm_num
    linarith)
  push_cast at this
  norm_num at this
  linarith

/-- The float64 sum of a whole part and a rounded fraction of the unit `M`, for a unit of the size of an hour,
both negated. -/
theorem splitFloat64_hour_nonpos (q r M : Int) (hM : 19 * M ≤ 2 ^ 46) (hq0 : 0 ≤ q)
    (hq : q < 2 ^ 52) (hr0 : 0 ≤ r) (hr : r < M) :
    (-(q : ℚ) - 1 ≤
        roundFloat64 (roundFloat64 ((-q : Int) : ℚ) +
          roundFloat64 (roundFloat64 ((-r : Int) : ℚ) / M)) ∧
      roundFloat64 (roundFloat64 ((-q : Int) : ℚ) +
          roundFloat64 (roundFloat64 ((-r : Int) : ℚ) / M)) ≤ -(q : ℚ)) ∧
    (q < 2 ^ 12 →
      -(q : ℚ) - 1 < roundFloat64 (roundFloat64 ((-q : Int) : ℚ) +
          roundFloat64 (roundFloat64 ((-r : Int) : ℚ) / M))) := by
  have hMpos : (0 : ℚ) < M := by exact_mod_cast (by omega : (0 : Int) < M)
  have hMq : (19 : ℚ) * M ≤ 2 ^ 46 := by exact_mod_cast hM
  have hrq0 : (0 : ℚ) ≤ r := by exact_mod_cast hr0
  have hrq : (r : ℚ) + 1 ≤ M := by exact_mod_cast (by omega : r + 1 ≤ M)
  have hqq0 : (0 : ℚ) ≤ q := by exact_mod_cast hq0
  have hqq : (q : ℚ) + 1 ≤ 2 ^ 52 := by exact_mod_cast (by omega : q + 1 ≤ 2 ^ 52)
  rw [roundFloat64_int (-q) (by rw [abs_neg, abs_of_nonneg hq0]; omega),
    roundFloat64_int (-r) (by rw [abs_neg, abs_of_nonneg hr0]; omega)]
  push_cast
  have x0 : -(r : ℚ) / M ≤ 0 := div_nonpos_of_nonpos_of_nonneg (by linarith) hMpos.le
  have x1 : ((-70368744177645 : Int) : ℚ) * 2 ^ (-46 : Int) ≤ -(r : ℚ) / M := by
    rw [le_div_iff₀ hMpos]
    norm_num
    nlinarith
  have xa : |-(r : ℚ) / M| < 2 ^ ((-46 : Int) + 53) := by
    rw [abs_of_nonpos x0]
    have : -(-(r : ℚ) / M) < 1 := by
      rw [neg_div, neg_neg, div_lt_one hMpos]
      linarith
    norm_num
    linarith
  have f0 : roundFloat64 (-(r : ℚ) / M) ≤ 0 := by
    have := roundFloat64_le_grid (-(r : ℚ) / M) 0 (-46) xa (by simpa using x0)
    simpa using this
  have f1 := roundFloat64_ge_grid (-(r : ℚ) / M) (-70368744177645) (-46) xa x1
  generalize roundFloat64 (-(r : ℚ) / M) = f at f0 f1
  norm_num at f1
  have s0 : -(q : ℚ) + f ≤ ((-q : Int) : ℚ) := by
    push_cast
    linarith
  have s1 : ((-q - 1 : Int) : ℚ) ≤ -(q : ℚ) + f := by
    push_cast
    linarith
  have sa : |-(q : ℚ) + f| < 2 ^ 53 := by
    rw [abs_of_nonpos (by linarith)]
    linarith
  have hb := roundFloat64_int_bounds (-q + f) (-q - 1) (-q) sa s1 s0
  push_cast at hb
  refine ⟨hb, ?_⟩
  intro h18
  have hq18 : (q : ℚ) + 1 ≤ 2 ^ 12 := by exact_mod_cast (by omega : q + 1 ≤ 2 ^ 12)
  have sb : |-(q : ℚ) + f| < 2 ^ ((-41 : Int) + 53) := by
    rw [abs_of_nonpos (by linarith)]
    norm_num
    linarith
  have := roundFloat64_gt_mid (-q + f) ((-q - 1) * 2 ^ 41) (-41) sb (by
    push_cast
    norm_num
    linarith)
  push_cast at this
  norm_num at this
  linarith


/-- For a duration that is not negative and shorter than `2 ^ 12` hours the
float64 value of `Hours()` lies between the whole hours and the next whole
hour. -/
theorem HoursFloat64_nonneg (d : Duration) (h0 : 0 ≤ d.d) (h1 : d.d < 2 ^ 12 * 3600000000000) :
    ((d.d / 3600000000000 : Int) : ℚ) ≤ d.HoursFloat64 ∧
      d.HoursFloat64 < ((d.d / 3600000000000 : Int) : ℚ) + 1 := by
  obtain ⟨hp, _⟩ := tdiv_tmod_spec d.d 3600000000000 (by norm_num)
  rw [HoursFloat64_eq, (hp h0).1, (hp h0).2]
  have h := splitFloat64_hour_nonneg (d.d / 3600000000000) (d.d % 3600000000000) 3600000000000
    (by norm_num) (by omega) (by omega) (by omega) (by omega)
  exact ⟨h.1.1, h.2 (by omega)⟩

/-- For a duration that is not positive and shorter than `2 ^ 12` hours the
float64 value of `Hours()` lies between the whole hours and the whole hour
before. -/
theorem HoursFloat64_nonpos (d : Duration) (h0 : d.d ≤ 0) (h1 : -d.d < 2 ^ 12 * 3600000000000) :
    -((-d.d / 3600000000000 : Int) : ℚ) - 1 < d.HoursFloat64 ∧
      d.HoursFloat64 ≤ -((-d.d / 3600000000000 : Int) : ℚ) := by
  obtain ⟨_, hq⟩ := tdiv_tmod_spec d.d 3600000000000 (by norm_num)
  rw [HoursFloat64_eq, (hq h0).1, (hq h0).2]
  have h := splitFloat64_hour_nonpos (-d.d / 3600000000000) (-d.d % 3600000000000) 3600000000000
    (by norm_num) (by omega) (by omega) (by omega) (by omega)
  exact ⟨h.2 (by omega), h.1.2⟩

/-- The duration of an activity is within the range of `time.Duration`. -/
theorem duration_range (a : Activity) :
    minDuration ≤ a.duration.d ∧ a.duration.d ≤ maxDuration := by
  unfold Activity.duration Time.Sub minDuration maxDuration
  simp only []
  constructor <;> split_ifs <;> simp only [] <;> omega

/-- Below `2 ^ 18` minutes the total minutes in float64 arithmetic are the
total minutes in exact arithmetic. -/
theorem DurationMinutesTotalFloat64_short (a : Activity)
    (h1 : -(2 ^ 18 * 60000000000) < a.duration.d) (h2 : a.duration.d < 2 ^ 18 * 60000000000) :
    a.DurationMinutesTotalFloat64 = a.DurationMinutesTotal := by
  obtain ⟨r1, r2⟩ := duration_range a
  obtain ⟨hp, hq⟩ := tdiv_tmod_spec a.duration.d 60000000000 (by norm_num)
  rw [DurationMinutesTotal_eq]
  unfold Activity.DurationMinutesTotalFloat64
  rcases le_total 0 a.duration.d with h | h
  · have hb := MinutesFloat64_nonneg a.duration h r2
    rw [(hp h).1]
    exact floatToInt_of_nonneg _ _ (by omega) hb.1.1 (hb.2 h2)
  · have hb := MinutesFloat64_nonpos a.duration h r1
    rw [(hq h).1]
    exact floatToInt_of_nonpos _ _ (by omega)
      (by have := hb.2 (by omega); push_cast; exact this)
      (by have := hb.1.2; push_cast; exact this)

/-- Below `2 ^ 12` hours the hours in float64 arithmetic are the hours in
exact arithmetic. -/
theorem DurationHoursFloat64_short (a : Activity)
    (h1 : -(2 ^ 12 * 3600000000000) < a.duration.d)
    (h2 : a.duration.d < 2 ^ 12 * 3600000000000) :
    a.DurationHoursFloat64 = a.DurationHours := by
  obtain ⟨hp, hq⟩ := tdiv_tmod_spec a.duration.d 3600000000000 (by norm_num)
  rw [DurationHours_eq]
  unfold Activity.DurationHoursFloat64
  rcases le_total 0 a.duration.d with h | h
  · have hb := HoursFloat64_nonneg a.duration h h2
    rw [(hp h).1]
    exact floatToInt_of_nonneg _ _ (by omega) hb.1 hb.2
  · have hb := HoursFloat64_nonpos a.duration h (by omega)
    rw [(hq h).1]
    exact floatToInt_of_nonpos _ _ (by omega)
      (by have := hb.1; push_cast; exact this)
      (by have := hb.2; push_cast; exact this)

/-- Below `2 ^ 12` hours (4096 hours) the hours and the minutes in float64
arithmetic recompose to the total minutes. -/
theorem Hours_Minutes_recompose_short (a : Activity)
    (h1 : -(2 ^ 12 * 3600000000000) < a.duration.d)
    (h2 : a.duration.d < 2 ^ 12 * 3600000000000) :
    60 * a.DurationHoursFloat64 + a.DurationMinutesFloat64 = a.DurationMinutesTotalFloat64 := by
  have e1 := DurationHoursFloat64_short a h1 h2
  have e2 := DurationMinutesTotalFloat64_short a (by omega) (by omega)
  have e3 : a.DurationMinutesFloat64 = a.DurationMinutes := by
    show goMod a.DurationMinutesTotalFloat64 60 = goMod a.DurationMinutesTotal 60
    rw [e2]
  rw [e1, e2, e3]
  exact Hours_Minutes_recompose a

/-- C16 fails at an activity of 4097 hours less one nanosecond: the `float64`
sum in `Hours()` is rounded up to 4097, so `DurationHours()` is 4097, while
`DurationMinutes()` is 59 and `DurationMinutesTotal()` is 245819; sixty times
4097 plus 59 is 245879. -/
theorem Hours_Minutes_recompose_fails :
    nearly4097Hours.DurationHoursFloat64 = 4097 ∧
      nearly4097Hours.DurationMinutesFloat64 = 59 ∧
      nearly4097Hours.DurationMinutesTotalFloat64 = 245819 ∧
      60 * nearly4097Hours.DurationHoursFloat64 + nearly4097Hours.DurationMinutesFloat64 ≠
        nearly4097Hours.DurationMinutesTotalFloat64 := by
  have hd : nearly4097Hours.duration = ⟨14749199999999999⟩ := by decide
  have hq : (14749199999999999 : Int).tdiv 3600000000000 = 4096 := by decide
  have hr : (14749199999999999 : Int).tmod 3600000000000 = 3599999999999 := by decide
  have hq1 : (14749199999999999 : Int).tdiv 60000000000 = 245819 := by decide
  have hr1 : (14749199999999999 : Int).tmod 60000000000 = 59999999999 := by decide
  have eh : nearly4097Hours.duration.HoursFloat64 = 4097 := by
    rw [HoursFloat64_eq, hd]
    simp only []
    rw [hq, hr, splitFloat64_eval 4096 3599999999999 3600000000000 9007199254738490 (-53)
      4504699138998272 (-40)] <;> norm_num [abs_of_nonneg]
  have em : nearly4097Hours.duration.MinutesFloat64 =
      (8446310885621759 : Int) * 2 ^ (-35 : Int) := by
    rw [MinutesFloat64_eq, hd]
    simp only []
    rw [hq1, hr1, splitFloat64_eval 245819 59999999999 60000000000 9007199254590872 (-53)
      8446310885621759 (-35)] <;> norm_num [abs_of_nonneg]
  have h1 : nearly4097Hours.DurationHoursFloat64 = 4097 := by
    unfold Activity.DurationHoursFloat64
    rw [eh]
    exact floatToInt_of_nonneg _ 4097 (by norm_num) (by norm_num) (by norm_num)
  have h3 : nearly4097Hours.DurationMinutesTotalFloat64 = 245819 := by
    unfold Activity.DurationMinutesTotalFloat64
    rw [em]
    exact floatToInt_of_nonneg _ 245819 (by norm_num) (by norm_num) (by norm_num)
  have h2 : nearly4097Hours.DurationMinutesFloat64 = 59 := by
    show goMod nearly4097Hours.DurationMinutesTotalFloat64 60 = 59
    rw [h3]
    decide
  rw [h1, h2, h3]
  exact ⟨rfl, rfl, rfl, by decide⟩

/-! ## ISO weeks -/

theorem ISOWeek_eq (t : Time) :
    t.ISOWeek =
      ((yearDay (t.abs / secondsPerDay +
          (if 4 - (t.abs / secondsPerDay + 1) % 7 = 4 then -3
            else 4 - (t.abs / secondsPerDay + 1) % 7))).1,
        (yearDay (t.abs / secondsPerDay +
          (if 4 - (t.abs / secondsPerDay + 1) % 7 = 4 then -3
            else 4 - (t.abs / secondsPerDay + 1) % 7))).2 / 7 + 1) := by
  have hw : t.Weekday = (t.abs / secondsPerDay + 1) % 7 := by
    unfold Time.Weekday secondsPerDay
    simp only []
    omega
  unfold Time.ISOWeek
  simp only []
  rw [absDate_eq, hw]
  simp only []
  have hq : ∀ d : Int, (t.abs + d * secondsPerDay) / secondsPerDay = t.abs / secondsPerDay + d := by
    intro d
    unfold secondsPerDay
    omega
  rw [hq]

/-- Go's `ISOWeek` yields the ISO 8601 week-year and week. -/
theorem ISOWeek_isISOWeek (t : Time) :
    isISOWeek (t.abs / secondsPerDay) t.ISOWeek.1 t.ISOWeek.2 := by
  rw [ISOWeek_eq]
  simp only []
  generalize t.abs / secondsPerDay = n
  generalize hT : n + (if 4 - (n + 1) % 7 = 4 then -3 else 4 - (n + 1) % 7) = T
  have hT2 : T = n - n % 7 + 3 := by
    rw [← hT]
    split_ifs <;> omega
  obtain ⟨y0, y1, y2⟩ := yearDay_spec T
  have hs := daysSinceEpoch_succ (yearDay T).1
  generalize (yearDay T).1 = Y at y1 y2 hs ⊢
  generalize (yearDay T).2 = yd at y0 y1 y2 ⊢
  unfold isISOWeek isoWeekOneMonday firstThursday isoWeekday unixEpochDay
  generalize daysSinceEpoch Y = J at y2 hs ⊢
  generalize daysSinceEpoch (Y + 1) = J1 at hs ⊢
  generalize isLeap Y = l at y1 hs
  cases l <;> simp at y1 hs <;> refine ⟨?_, ?_, ?_⟩ <;> omega

theorem daysSinceEpoch_mono (y y1 : Int) (h : y ≤ y1) :
    daysSinceEpoch y ≤ daysSinceEpoch y1 := by
  rw [daysSinceEpoch_closed, daysSinceEpoch_closed]
  omega

theorem isoWeekOneMonday_near (y : Int) :
    daysSinceEpoch y - 3 ≤ isoWeekOneMonday y ∧ isoWeekOneMonday y ≤ daysSinceEpoch y + 3 := by
  unfold isoWeekOneMonday firstThursday isoWeekday unixEpochDay
  omega

/-- The first weeks of later years begin later. -/
theorem isoWeekOneMonday_mono (y y1 : Int) (h : y ≤ y1) :
    isoWeekOneMonday y ≤ isoWeekOneMonday y1 := by
  rcases eq_or_lt_of_le h with h | h
  · rw [h]
  · have hm := daysSinceEpoch_mono (y + 1) y1 (by omega)
    have hs := daysSinceEpoch_succ y
    obtain ⟨a1, a2⟩ := isoWeekOneMonday_near y
    obtain ⟨b1, b2⟩ := isoWeekOneMonday_near y1
    split_ifs at hs <;> omega

/-- A day lies in one week of one ISO week-year only. -/
theorem isISOWeek_unique (n y w y1 w1 : Int) (h : isISOWeek n y w) (h1 : isISOWeek n y1 w1) :
    y = y1 ∧ w = w1 := by
  obtain ⟨a1, a2, a3⟩ := h
  obtain ⟨b1, b2, b3⟩ := h1
  have hy : y = y1 := by
    rcases lt_trichotomy y y1 with hlt | heq | hgt
    · have := isoWeekOneMonday_mono (y + 1) y1 (by omega)
      omega
    · exact heq
    · have := isoWeekOneMonday_mono (y1 + 1) y (by omega)
      omega
  subst hy
  exact ⟨rfl, a3.trans b3.symm⟩

theorem String_week (f : ActivityFilter) (h : f.Timespan = TimespanWeek) :
    f.String = fmtInt f.Start.ISOWeek.1 ++ "-" ++ fmtInt f.Start.ISOWeek.2 := by
  simp [ActivityFilter.String, h, TimespanWeek, TimespanCustom, TimespanDay]

/-- C15: for a week filter `String()` is "y-w", where y and w are the ISO
8601 week-year and week number of `Start()` (weeks start on Monday, week 1
contains the first Thursday of the year); the week filter that starts on
2024-12-30 has the label "2025-1". -/
theorem String_week_iso (f : ActivityFilter) (h : f.Timespan = TimespanWeek) :
    isISOWeek (f.Start.abs / secondsPerDay) f.Start.ISOWeek.1 f.Start.ISOWeek.2 ∧
      (∀ y w, isISOWeek (f.Start.abs / secondsPerDay) y w →
        f.String = fmtInt y ++ "-" ++ fmtInt w) ∧
      newYearWeek.String = "2025-1" := by
  refine ⟨ISOWeek_isISOWeek f.Start, ?_, by decide⟩
  intro y w hyw
  obtain ⟨e1, e2⟩ := isISOWeek_unique _ _ _ _ _ hyw (ISOWeek_isISOWeek f.Start)
  rw [String_week f h, e1, e2]

/-- C15, at the week filter that starts on 2024-12-30: the day lies in week
1 of the ISO week-year 2025. -/
theorem String_week_iso_witness :
    isISOWeek (newYearWeek.Start.abs / secondsPerDay) newYearWeek.Start.ISOWeek.1
      newYearWeek.Start.ISOWeek.2 :=
  (String_week_iso newYearWeek (by decide)).1

/-! ## The validators -/

theorem forall2_congr_right {α β : Type} {R S : α → β → Prop} (u : List β)
    (h : ∀ d ∈ u, ∀ c, R c d ↔ S c d) : ∀ l, List.Forall₂ R l u ↔ List.Forall₂ S l u := by
  induction u with
  | nil =>
    intro l
    cases l <;> simp
  | cons d ds ih =>
    intro l
    cases l with
    | nil => simp
    | cons c cs =>
      simp only [List.forall₂_cons]
      rw [h d (by simp) c, ih (fun d1 hd1 => h d1 (by simp [hd1])) cs]

theorem toNat_ofNat_small (n : Nat) (h : n < 55296) : (Char.ofNat n).toNat = n := by
  have hv : n.isValidChar := Or.inl h
  unfold Char.ofNat
  rw [dif_pos hv]
  simp [Char.ofNatAux, Char.toNat, UInt32.toNat]

theorem ToLower_eq_letter (caseTable : Char → Char)
    (hTable : ∀ r : Char, 127 < r.toNat → caseTable r ∉ validatorLetters) (l : Char)
    (hl : l ∈ validatorLetters) (c : Char) :
    unicode.ToLower caseTable c = l ↔ c = l ∨ c = Char.ofNat (l.toNat - 32) := by
  have hrange : 97 ≤ l.toNat ∧ l.toNat ≤ 122 := by
    simp only [validatorLetters, List.mem_cons, List.mem_singleton, List.not_mem_nil,
      or_false] at hl
    rcases hl with h | h | h | h | h | h | h | h | h | h <;> subst h <;> decide
  have hA : 'A'.toNat = 65 := by decide
  have hZ : 'Z'.toNat = 90 := by decide
  have ha : 'a'.toNat = 97 := by decide
  unfold unicode.ToLower
  rw [hA, hZ, ha]
  constructor
  · intro h
    by_cases h1 : c.toNat ≤ 127
    · rw [if_pos h1] at h
      by_cases h2 : 65 ≤ c.toNat ∧ c.toNat ≤ 90
      · rw [if_pos h2] at h
        right
        have e : l.toNat = c.toNat + (97 - 65) := by
          rw [← h]
          exact toNat_ofNat_small _ (by omega)
        have e2 : l.toNat - 32 = c.toNat := by omega
        rw [e2, Char.ofNat_toNat]
      · rw [if_neg h2] at h
        exact Or.inl h
    · rw [if_neg h1] at h
      exact absurd (h ▸ hl) (hTable c (by omega))
  · rintro (h | h)
    · subst h
      have h1 : c.toNat ≤ 127 := by omega
      have h2 : ¬ (65 ≤ c.toNat ∧ c.toNat ≤ 90) := by omega
      rw [if_pos h1, if_neg h2]
    · have e : c.toNat = l.toNat - 32 := by
        rw [h]
        exact toNat_ofNat_small _ (by omega)
      have h1 : c.toNat ≤ 127 := by omega
      have h2 : 65 ≤ c.toNat ∧ c.toNat ≤ 90 := by omega
      rw [if_pos h1, if_pos h2, e]
      have e3 : l.toNat - 32 + (97 - 65) = l.toNat := by omega
      rw [e3, Char.ofNat_toNat]

theorem ToLower_eq_word (caseTable : Char → Char)
    (hTable : ∀ r : Char, 127 < r.toNat → caseTable r ∉ validatorLetters) (s w : String)
    (hw : ∀ l ∈ w.data, l ∈ validatorLetters) :
    strings.ToLower caseTable s = w ↔ equalUpToCase s w := by
  unfold strings.ToLower equalUpToCase
  rw [String.ext_iff]
  simp only []
  rw [← forall2_congr_right w.data
    (fun d hd c => ToLower_eq_letter caseTable hTable d (hw d hd) c) s.data,
    ← List.forall₂_eq_eq_eq, List.forall₂_map_left_iff]

/-- C14: `IsValidActivitySortField` accepts exactly the strings that equal
"project" or "start" up to letter case, and `IsValidSortOrder` exactly those
that equal "asc" or "desc" up to letter case; the empty string and a string
with surrounding spaces are rejected.  (`caseTable` is the lower-case mapping
of the Unicode tables, which gives none of the letters of these words for a
rune outside ASCII.) -/
theorem validators_accept_iff (caseTable : Char → Char)
    (hTable : ∀ r : Char, 127 < r.toNat → caseTable r ∉ validatorLetters) (s : String) :
    (IsValidActivitySortField caseTable s = true ↔
        equalUpToCase s "project" ∨ equalUpToCase s "start") ∧
      (IsValidSortOrder caseTable s = true ↔ equalUpToCase s "asc" ∨ equalUpToCase s "desc") ∧
      IsValidActivitySortField caseTable "" = false ∧
      IsValidActivitySortField caseTable " start " = false ∧
      IsValidSortOrder caseTable "" = false ∧ IsValidSortOrder caseTable " asc" = false := by
  have w1 := ToLower_eq_word caseTable hTable s "project" (by decide)
  have w2 := ToLower_eq_word caseTable hTable s "start" (by decide)
  have w3 := ToLower_eq_word caseTable hTable s "asc" (by decide)
  have w4 := ToLower_eq_word caseTable hTable s "desc" (by decide)
  have main : ∀ t : String,
      (IsValidActivitySortField caseTable t = true ↔
        strings.ToLower caseTable t = "project" ∨ strings.ToLower caseTable t = "start") ∧
      (IsValidSortOrder caseTable t = true ↔
        strings.ToLower caseTable t = "asc" ∨ strings.ToLower caseTable t = "desc") := by
    intro t
    unfold IsValidActivitySortField IsValidSortOrder SortOrderAsc SortOrderDesc
    constructor <;> split_ifs <;> simp_all
  have rej : ∀ t w : String, (∀ l ∈ w.data, l ∈ validatorLetters) → ¬ equalUpToCase t w →
      strings.ToLower caseTable t ≠ w := by
    intro t w hw hne h
    rw [ToLower_eq_word caseTable hTable t w hw] at h
    exact hne h
  refine ⟨?_, ?_, ?_, ?_, ?_, ?_⟩
  · rw [(main s).1, w1, w2]
  · rw [(main s).2, w3, w4]
  · rw [Bool.eq_false_iff]
    intro h
    rcases (main "").1.mp h with h | h
    · exact rej "" "project" (by decide) (by unfold equalUpToCase; decide) h
    · exact rej "" "start" (by decide) (by unfold equalUpToCase; decide) h
  · rw [Bool.eq_false_iff]
    intro h
    rcases (main " start ").1.mp h with h | h
    · exact rej " start " "project" (by decide) (by unfold equalUpToCase; decide) h
    · exact rej " start " "start" (by decide) (by unfold equalUpToCase; decide) h
  · rw [Bool.eq_false_iff]
    intro h
    rcases (main "").2.mp h with h | h
    · exact rej "" "asc" (by decide) (by unfold equalUpToCase; decide) h
    · exact rej "" "desc" (by decide) (by unfold equalUpToCase; decide) h
  · rw [Bool.eq_false_iff]
    intro h
    rcases (main " asc").2.mp h with h | h
    · exact rej " asc" "asc" (by decide) (by unfold equalUpToCase; decide) h
    · exact rej " asc" "desc" (by decide) (by unfold equalUpToCase; decide) h

theorem id_table : ∀ r : Char, 127 < r.toNat → id r ∉ validatorLetters := by
  intro r hr hm
  simp only [id, validatorLetters, List.mem_cons, List.mem_singleton, List.not_mem_nil,
    or_false] at hm
  have : r.toNat ≤ 127 := by
    rcases hm with h | h | h | h | h | h | h | h | h | h <;> subst h <;> decide
  omega

/-- C14, with the identity for the runes outside ASCII: "Start" is accepted
as a sort field. -/
theorem validators_accept_iff_witness :
    IsValidActivitySortField id "Start" = true :=
  ((validators_accept_iff id id_table "Start").1).mpr
    (Or.inr (by unfold equalUpToCase; decide))

/-! ## The project title -/

theorem projectsById_snoc (projects : List Project) (p : Project) (id : UUID) :
    projectsById (projects ++ [p]) id = if id = p.ID then some p else projectsById projects id := by
  simp [projectsById, List.foldl_append]

theorem projectsById_none_iff (projects : List Project) (id : UUID) :
    projectsById projects id = none ↔ ∀ p ∈ projects, p.ID ≠ id := by
  induction projects using List.reverseRecOn with
  | nil => simp [projectsById]
  | append_singleton l p ih =>
    rw [projectsById_snoc]
    by_cases h : id = p.ID
    · simp only [h, if_true]
      constructor
      · intro hh
        cases hh
      · intro hh
        exact absurd rfl (hh p (by simp))
    · rw [if_neg h, ih]
      constructor
      · intro hh q hq
        rw [List.mem_append, List.mem_singleton] at hq
        rcases hq with hq | hq
        · exact hh q hq
        · subst hq
          exact fun e => h e.symm
      · intro hh q hq
        exact hh q (by simp [hq])

theorem projectsById_some (projects : List Project) (id : UUID) (p : Project)
    (h : projectsById projects id = some p) : p ∈ projects ∧ p.ID = id := by
  induction projects using List.reverseRecOn with
  | nil => simp [projectsById] at h
  | append_singleton l q ih =>
    rw [projectsById_snoc] at h
    by_cases hq : id = q.ID
    · rw [if_pos hq] at h
      cases h
      exact ⟨by simp, hq.symm⟩
    · rw [if_neg hq] at h
      exact ⟨by simp [(ih h).1], (ih h).2⟩

/-- C11, as stated, fails: with no project for its `ProjectID` the title
lookup of an activity panics on the nil pointer. -/
theorem projectTitle_counterexample :
    projectTitle [] orphanActivity = Except.error Panic.nilPointerDereference ∧
      projectTitle [⟨3, "Other"⟩] orphanActivity = Except.error Panic.nilPointerDereference :=
  ⟨rfl, rfl⟩

/-- C11 (amended): the title lookup of an activity returns the title of a
project of the list with the activity's `ProjectID` when there is one, and
panics on the nil pointer when there is none. -/
theorem projectTitle_found_or_panic (projects : List Project) (activity : Activity) :
    ((∃ p ∈ projects, p.ID = activity.ProjectID) →
        ∃ p ∈ projects, p.ID = activity.ProjectID ∧
          projectTitle projects activity = Except.ok p.Title) ∧
      ((∀ p ∈ projects, p.ID ≠ activity.ProjectID) →
        projectTitle projects activity = Except.error Panic.nilPointerDereference) := by
  constructor
  · rintro ⟨q, hq, hid⟩
    cases hl : projectsById projects activity.ProjectID with
    | none =>
      exact absurd hid ((projectsById_none_iff projects activity.ProjectID).mp hl q hq)
    | some p =>
      obtain ⟨hp, hpid⟩ := projectsById_some projects _ p hl
      refine ⟨p, hp, hpid, ?_⟩
      unfold projectTitle
      rw [hl]
  · intro h
    have hl := (projectsById_none_iff projects activity.ProjectID).mpr h
    unfold projectTitle
    rw [hl]

/-- C11 (amended), at an activity of project 7 and the projects 3 and 7. -/
theorem projectTitle_found_or_panic_witness :
    ∃ p ∈ [(⟨3, "Other"⟩ : Project), ⟨7, "Mine"⟩], p.ID = orphanActivity.ProjectID ∧
      projectTitle [⟨3, "Other"⟩, ⟨7, "Mine"⟩] orphanActivity = Except.ok p.Title :=
  (projectTitle_found_or_panic [⟨3, "Other"⟩, ⟨7, "Mine"⟩] orphanActivity).1
    ⟨⟨7, "Mine"⟩, by simp, by decide⟩

/-! ## The three maps of the day view -/

theorem GoMap.keys_store {V : Type} (m : GoMap V) (k : Int) (v : V) :
    GoMap.keys (GoMap.store m k v) =
      if k ∈ GoMap.keys m then GoMap.keys m else GoMap.keys m ++ [k] := by
  induction m with
  | nil => simp [GoMap.store, GoMap.keys]
  | cons p rest ih =>
    obtain ⟨k0, v0⟩ := p
    by_cases h : k0 = k
    · subst h
      simp [GoMap.store, GoMap.keys]
    · have h1 : ¬ k = k0 := fun e => h e.symm
      simp only [GoMap.keys] at ih
      simp only [GoMap.store, h, if_false, GoMap.keys, List.map_cons, ih, List.mem_cons, h1,
        false_or]
      split_ifs <;> simp

theorem activitiesByDay_snoc (u : DateFormats) (acts : List Activity) (a : Activity) :
    (sumByDayMaps u (acts ++ [a])).activitiesByDay =
      GoMap.store (sumByDayMaps u acts).activitiesByDay a.Start.Day
        (GoMap.index [] (sumByDayMaps u acts).activitiesByDay a.Start.Day ++ [a]) := by
  rw [sumByDayMaps_snoc]
  rfl

theorem dayFormattedByDay_snoc (u : DateFormats) (acts : List Activity) (a : Activity) :
    (sumByDayMaps u (acts ++ [a])).dayFormattedByDay =
      GoMap.store (sumByDayMaps u acts).dayFormattedByDay a.Start.Day
        [a.Start.Format "Monday", u.FormatDateDEShort a.Start, u.FormatDate a.Start] := by
  rw [sumByDayMaps_snoc]
  rfl

/-- The three maps are written at the same keys in the same order. -/
theorem dayMaps_keys (u : DateFormats) (acts : List Activity) :
    GoMap.keys (sumByDayMaps u acts).activitiesByDay =
        GoMap.keys (sumByDayMaps u acts).activitySumByDay ∧
      GoMap.keys (sumByDayMaps u acts).dayFormattedByDay =
        GoMap.keys (sumByDayMaps u acts).activitySumByDay := by
  induction acts using List.reverseRecOn with
  | nil => exact ⟨rfl, rfl⟩
  | append_singleton l a ih =>
    rw [activitiesByDay_snoc, dayFormattedByDay_snoc, activitySumByDay_snoc, GoMap.keys_store,
      GoMap.keys_store, GoMap.keys_store, ih.1, ih.2]
    exact ⟨rfl, rfl⟩

/-- Every slice stored in `activitiesByDay` holds an activity. -/
theorem activitiesByDay_nonempty (u : DateFormats) (acts : List Activity) (d : Int)
    (l : List Activity) (h : GoMap.lookup (sumByDayMaps u acts).activitiesByDay d = some l) :
    l ≠ [] := by
  induction acts using List.reverseRecOn generalizing l with
  | nil => simp [sumByDayMaps, GoMap.lookup] at h
  | append_singleton acts a ih =>
    rw [activitiesByDay_snoc, GoMap.lookup_store] at h
    by_cases hk : a.Start.Day = d
    · rw [if_pos hk] at h
      cases h
      simp
    · rw [if_neg hk] at h
      exact ih l h

/-- Every slice stored in `dayFormattedByDay` has three strings. -/
theorem dayFormattedByDay_length (u : DateFormats) (acts : List Activity) (d : Int)
    (l : List String) (h : GoMap.lookup (sumByDayMaps u acts).dayFormattedByDay d = some l) :
    l.length = 3 := by
  induction acts using List.reverseRecOn generalizing l with
  | nil => simp [sumByDayMaps, GoMap.lookup] at h
  | append_singleton acts a ih =>
    rw [dayFormattedByDay_snoc, GoMap.lookup_store] at h
    by_cases hk : a.Start.Day = d
    · rw [if_pos hk] at h
      cases h
      rfl
    · rw [if_neg hk] at h
      exact ih l h

/-- C17: in `ActivitiesSumByDayView` the three maps have the same keys, so
`dayNodes` is as long as `activitiesByDay`; for every index below that
length `dayNodes[i]` exists, `activitiesByDay[dayNodes[i]]` is a stored,
non-empty slice and `dayFormattedByDay[dayNodes[i]]` is a stored slice with an
element at index 2. -/
theorem dayNodes_accesses_in_bounds (u : DateFormats) (acts : List Activity) (iter : List Int)
    (h : iter.Perm (GoMap.keys (sumByDayMaps u acts).activitySumByDay)) :
    GoMap.keys (sumByDayMaps u acts).activitiesByDay =
        GoMap.keys (sumByDayMaps u acts).activitySumByDay ∧
      GoMap.keys (sumByDayMaps u acts).dayFormattedByDay =
        GoMap.keys (sumByDayMaps u acts).activitySumByDay ∧
      (dayNodes iter).length = (sumByDayMaps u acts).activitiesByDay.length ∧
      ∀ i, i < (sumByDayMaps u acts).activitiesByDay.length →
        ∃ d, (dayNodes iter)[i]? = some d ∧
          (∃ l, GoMap.lookup (sumByDayMaps u acts).activitiesByDay d = some l ∧ l ≠ []) ∧
          (∃ l, GoMap.lookup (sumByDayMaps u acts).dayFormattedByDay d = some l ∧
            2 < l.length) := by
  obtain ⟨k1, k2⟩ := dayMaps_keys u acts
  have hlen : (dayNodes iter).length = (sumByDayMaps u acts).activitiesByDay.length := by
    rw [(dayNodes_perm iter).length_eq, h.length_eq, ← k1]
    simp [GoMap.keys]
  refine ⟨k1, k2, hlen, ?_⟩
  intro i hi
  have hi2 : i < (dayNodes iter).length := by omega
  refine ⟨(dayNodes iter)[i], List.getElem?_eq_getElem hi2, ?_, ?_⟩
  · have hm : (dayNodes iter)[i] ∈ GoMap.keys (sumByDayMaps u acts).activitiesByDay := by
      rw [k1, ← h.mem_iff, ← (dayNodes_perm iter).mem_iff]
      exact List.getElem_mem hi2
    rw [← GoMap.lookup_isSome_iff, Option.isSome_iff_exists] at hm
    obtain ⟨l, hl⟩ := hm
    exact ⟨l, hl, activitiesByDay_nonempty u acts _ l hl⟩
  · have hm : (dayNodes iter)[i] ∈ GoMap.keys (sumByDayMaps u acts).dayFormattedByDay := by
      rw [k2, ← h.mem_iff, ← (dayNodes_perm iter).mem_iff]
      exact List.getElem_mem hi2
    rw [← GoMap.lookup_isSome_iff, Option.isSome_iff_exists] at hm
    obtain ⟨l, hl⟩ := hm
    exact ⟨l, hl, by rw [dayFormattedByDay_length u acts _ l hl]; norm_num⟩

/-- C17, at three activities that start on the 5th, the 7th and the 5th:
`dayNodes` has as many entries as `activitiesByDay`. -/
theorem dayNodes_accesses_in_bounds_witness :
    (dayNodes (GoMap.keys (sumByDayMaps plainFormats
        [januaryFifth, februarySeventh, februaryFifth]).activitySumByDay)).length =
      (sumByDayMaps plainFormats
        [januaryFifth, februarySeventh, februaryFifth]).activitiesByDay.length :=
  (dayNodes_accesses_in_bounds plainFormats [januaryFifth, februarySeventh, februaryFifth] _
    (List.Perm.refl _)).2.2.1
